import Mathlib

/-!
# pybinding: the lazy model pipeline (`src/Model.cpp`) and the FEAST solver

A shallow embedding of `tbm::Model`: the setters, the modifier adders and the
lazily built stages `system()`, `hamiltonian()`, `solver()` and `greens()`;
and, further down, of `FEAST<scalar_t>` and `FEASTFactory` of
`src/solver/FEAST.cpp`.

Conventions of the embedding.

* A `std::shared_ptr<T>` is an `Option (Ref T)`: `none` is the null pointer and
  `Ref.addr` is the identity of the pointee.  Pointer comparison compares
  identities only, as in C++.
* A member function that can throw returns `Except Error α × Model`: the second
  component is the model as the call leaves it, also when it throws.
* Every object made by `std::make_shared` or by a factory gets the identity
  `Model.next`, and `Model.next` is then incremented; two objects constructed by
  the model are therefore never the same object.
-/

namespace tbm

/-- The four scalar types of a `HamiltonianT<scalar_t>`: `float`,
`std::complex<float>`, `double`, `std::complex<double>`. -/
inductive ScalarType where
  | f32
  | c32
  | f64
  | c64
  deriving DecidableEq, Repr

/-- Whether a scalar type is one of the two complex ones. -/
def ScalarType.is_complex : ScalarType → Bool
  | .c32 => true
  | .c64 => true
  | _ => false

/-- Whether a scalar type has single precision. -/
def ScalarType.is_single : ScalarType → Bool
  | .f32 => true
  | .c32 => true
  | _ => false

/-- The exceptions thrown in `Model.cpp`, named after their message. -/
inductive Error where
  /-- Thrown as `std::logic_error`: at least 1 sublattice must be specified. -/
  | no_sublattice
  /-- Thrown as `std::logic_error`: at least 1 lattice vector must be specified. -/
  | no_lattice_vector
  /-- Thrown as `std::logic_error`: a lattice must be defined. -/
  | lattice_undefined
  /-- Thrown as `std::logic_error`: the eigensolver was not defined. -/
  | solver_undefined
  /-- Thrown as `std::logic_error`: the Green functions object was not defined. -/
  | greens_undefined
  /-- The exception of a factory whose `create_for` matches no scalar type. -/
  | unknown_hamiltonian_type
  /-- An exception escaping `Solver::solve()`. -/
  | solve_failed
  deriving DecidableEq, Repr

/-- The pointee of a shared pointer: its identity and its value. -/
structure Ref (α : Type) where
  addr : Nat
  val : α
  deriving DecidableEq, Repr

/-- The comparison `a == b` of two shared pointers: both null, or both pointing to
the same object. -/
def ptr_eq {α : Type} (a b : Option (Ref α)) : Bool :=
  match a, b with
  | none, none => true
  | some x, some y => x.addr == y.addr
  | _, _ => false

/-- One `float` as far as `==` can tell: a number, or NaN (which equals nothing). -/
inductive F32 where
  | val (q : Int)
  | nan
  deriving DecidableEq, Repr

/-- The comparison `a == b` of two floats. -/
def F32.eq : F32 → F32 → Bool
  | .val a, .val b => a == b
  | _, _ => false

/-- The wave vector type `Cartesian`, a vector of three floats. -/
structure Cartesian where
  x : F32
  y : F32
  z : F32
  deriving DecidableEq, Repr

/-- The comparison `a != b` of two vectors: some pair of coefficients is not equal. -/
def Cartesian.ne (a b : Cartesian) : Bool :=
  !(F32.eq a.x b.x) || !(F32.eq a.y b.y) || !(F32.eq a.z b.z)

/-- What `set_lattice` reads of a `Lattice`: `sublattices.size()` and
`vectors.size()`. -/
structure Lattice where
  sublattices : Nat
  vectors : Nat
  deriving DecidableEq, Repr

/-- A `Shape`: the default-constructed `Primitive`, or a shape given by the caller. -/
inductive Shape where
  | Primitive
  | given (tag : Nat)
  deriving DecidableEq, Repr

/-- A `Symmetry` given by the caller. -/
structure Symmetry where
  tag : Nat
  deriving DecidableEq, Repr

/-- A `SiteStateModifier` given by the caller. -/
structure SiteStateModifier where
  tag : Nat
  deriving DecidableEq, Repr

/-- A `PositionModifier` given by the caller. -/
structure PositionModifier where
  tag : Nat
  deriving DecidableEq, Repr

/-- An `OnsiteModifier`, with the flag saying that it produces complex values. -/
structure OnsiteModifier where
  is_complex : Bool
  deriving DecidableEq, Repr

/-- A `HoppingModifier`, with the flag saying that it produces complex values. -/
structure HoppingModifier where
  is_complex : Bool
  deriving DecidableEq, Repr

/-- Whether the object `m` is in the collection `xs`, by identity. -/
def contains_ptr {α : Type} (xs : List (Ref α)) (m : Ref α) : Bool :=
  xs.any (fun x => x.addr == m.addr)

/-- Modelled from the spec: `add_unique` of the modifier collections, declared in
a header that is not part of the sources. The spec has add-if-absent by
identity: the collection is ordered, an object already in it is not added
again, and the result says whether the object was added. -/
def add_unique {α : Type} (xs : List (Ref α)) (m : Ref α) : Bool × List (Ref α) :=
  if contains_ptr xs m then (false, xs) else (true, xs ++ [m])

/-- How many times the object `m` is in the collection `xs`, by identity. -/
def count_ptr {α : Type} (xs : List (Ref α)) (m : Ref α) : Nat :=
  xs.countP (fun x => x.addr == m.addr)

/-- The collection `xs` holds no object twice. -/
def unique_ptrs {α : Type} (xs : List (Ref α)) : Prop :=
  (xs.map Ref.addr).Nodup

instance {α : Type} (xs : List (Ref α)) : Decidable (unique_ptrs xs) := by
  unfold unique_ptrs
  infer_instance

/-- The member `system_modifiers`: the structure modifiers, by kind. -/
structure SystemModifiers where
  state : List (Ref SiteStateModifier)
  position : List (Ref PositionModifier)
  deriving DecidableEq, Repr

/-- The member `hamiltonian_modifiers`: the Hamiltonian modifiers, by kind. -/
structure HamiltonianModifiers where
  onsite : List (Ref OnsiteModifier)
  hopping : List (Ref HoppingModifier)
  deriving DecidableEq, Repr

/-- Modelled from the spec: `HamiltonianModifiers::any_complex`, declared in a
header that is not part of the sources. The spec has: complex if any
Hamiltonian modifier declares complex-valued output. -/
def HamiltonianModifiers.any_complex (hm : HamiltonianModifiers) : Bool :=
  hm.onsite.any (fun m => m.val.is_complex) || hm.hopping.any (fun m => m.val.is_complex)

/-- A built `System`: the arguments its constructor was given in `Model::system`. -/
structure System where
  lattice : Ref Lattice
  shape : Ref Shape
  symmetry : Option (Ref Symmetry)
  modifiers : SystemModifiers
  deriving DecidableEq, Repr

/-- A built `HamiltonianT<scalar_t>`: its scalar type and the arguments its
constructor was given in `Model::hamiltonian`. -/
structure Hamiltonian where
  scalar : ScalarType
  system : Ref System
  modifiers : HamiltonianModifiers
  wave_vector : Cartesian
  deriving DecidableEq, Repr

/-- What the model can observe of a `Solver`: the scalar type it was made for, the
Hamiltonian it is bound to, and how many times `solve()` was called on it. -/
structure Solver where
  scalar : ScalarType
  hamiltonian : Ref Hamiltonian
  solves : Nat
  deriving DecidableEq, Repr

/-- What the model can observe of a `Greens` object: the scalar type it was made
for and the Hamiltonian it is bound to. -/
structure Greens where
  scalar : ScalarType
  hamiltonian : Ref Hamiltonian
  deriving DecidableEq, Repr

/-- A `SolverFactory`: the scalar types its `create_for` has a solver for. -/
structure SolverFactory where
  supported : List ScalarType
  deriving DecidableEq, Repr

/-- A `GreensFactory`: the scalar types its `create_for` has an object for. -/
structure GreensFactory where
  supported : List ScalarType
  deriving DecidableEq, Repr

/-- The data members of `tbm::Model`, and the identity `next` of the next object
the model constructs. -/
structure Model where
  _lattice : Option (Ref Lattice)
  _shape : Option (Ref Shape)
  _symmetry : Option (Ref Symmetry)
  wave_vector : Cartesian
  system_modifiers : SystemModifiers
  hamiltonian_modifiers : HamiltonianModifiers
  solver_factory : Option (Ref SolverFactory)
  greens_factory : Option (Ref GreensFactory)
  _system : Option (Ref System)
  _hamiltonian : Option (Ref Hamiltonian)
  _solver : Option (Ref Solver)
  _greens : Option (Ref Greens)
  next : Nat
  deriving DecidableEq, Repr

/-- The data-model invariant of the modifier collections: no modifier is held
twice. -/
def Model.modifiers_unique (m : Model) : Prop :=
  unique_ptrs m.system_modifiers.state ∧ unique_ptrs m.system_modifiers.position ∧
    unique_ptrs m.hamiltonian_modifiers.onsite ∧ unique_ptrs m.hamiltonian_modifiers.hopping

instance (m : Model) : Decidable m.modifiers_unique := by
  unfold Model.modifiers_unique
  infer_instance

/-- A freshly constructed model: every pointer is null and the modifier
collections are empty. -/
def Model.fresh (k : Cartesian) : Model :=
  { _lattice := none, _shape := none, _symmetry := none, wave_vector := k,
    system_modifiers := ⟨[], []⟩, hamiltonian_modifiers := ⟨[], []⟩,
    solver_factory := none, greens_factory := none,
    _system := none, _hamiltonian := none, _solver := none, _greens := none,
    next := 0 }

/-- The member function `Model::set_lattice`. -/
def Model.set_lattice (m : Model) (new_lattice : Option (Ref Lattice)) :
    Except Error Unit × Model :=
  if ptr_eq m._lattice new_lattice then (.ok (), m)
  else
    match new_lattice with
    | none => (.error .no_sublattice, m)
    | some l =>
      if l.val.sublattices < 1 then (.error .no_sublattice, m)
      else if l.val.vectors < 1 then (.error .no_lattice_vector, m)
      else (.ok (), { m with _lattice := some l, _system := none, _hamiltonian := none })

/-- The member function `Model::set_wave_vector`. -/
def Model.set_wave_vector (m : Model) (new_wave_vector : Cartesian) : Model :=
  if Cartesian.ne m.wave_vector new_wave_vector then
    { m with wave_vector := new_wave_vector, _hamiltonian := none }
  else m

/-- The member function `Model::set_shape`. -/
def Model.set_shape (m : Model) (new_shape : Option (Ref Shape)) : Model :=
  if !(ptr_eq m._shape new_shape) then
    { m with _shape := new_shape, _system := none, _hamiltonian := none }
  else m

/-- The member function `Model::set_symmetry`. -/
def Model.set_symmetry (m : Model) (new_symmetry : Option (Ref Symmetry)) : Model :=
  if !(ptr_eq m._symmetry new_symmetry) then
    { m with _symmetry := new_symmetry, _system := none, _hamiltonian := none }
  else m

/-- The member function `Model::set_solver`. -/
def Model.set_solver (m : Model) (new_solver_factory : Option (Ref SolverFactory)) : Model :=
  if !(ptr_eq m.solver_factory new_solver_factory) then
    { m with solver_factory := new_solver_factory, _solver := none }
  else m

/-- The member function `Model::set_greens`. -/
def Model.set_greens (m : Model) (new_greens_factory : Option (Ref GreensFactory)) : Model :=
  if !(ptr_eq m.greens_factory new_greens_factory) then
    { m with greens_factory := new_greens_factory, _greens := none }
  else m

/-- The member function `Model::add_site_state_modifier`. -/
def Model.add_site_state_modifier (m : Model) (x : Ref SiteStateModifier) : Model :=
  let r := add_unique m.system_modifiers.state x
  let m1 := { m with system_modifiers := { m.system_modifiers with state := r.2 } }
  if r.1 then { m1 with _system := none, _hamiltonian := none } else m1

/-- The member function `Model::add_position_modifier`. -/
def Model.add_position_modifier (m : Model) (x : Ref PositionModifier) : Model :=
  let r := add_unique m.system_modifiers.position x
  let m1 := { m with system_modifiers := { m.system_modifiers with position := r.2 } }
  if r.1 then { m1 with _system := none, _hamiltonian := none } else m1

/-- The member function `Model::add_onsite_modifier`. -/
def Model.add_onsite_modifier (m : Model) (x : Ref OnsiteModifier) : Model :=
  let r := add_unique m.hamiltonian_modifiers.onsite x
  let m1 := { m with hamiltonian_modifiers := { m.hamiltonian_modifiers with onsite := r.2 } }
  if r.1 then { m1 with _hamiltonian := none } else m1

/-- The member function `Model::add_hopping_modifier`. -/
def Model.add_hopping_modifier (m : Model) (x : Ref HoppingModifier) : Model :=
  let r := add_unique m.hamiltonian_modifiers.hopping x
  let m1 := { m with hamiltonian_modifiers := { m.hamiltonian_modifiers with hopping := r.2 } }
  if r.1 then { m1 with _hamiltonian := none } else m1

/-- The member function `Model::system`. Constructing the `System` records the
constructor arguments and does not throw. -/
def Model.system (m : Model) : Except Error (Ref System) × Model :=
  match m._system with
  | some s => (.ok s, m)
  | none =>
    match m._lattice with
    | none => (.error .lattice_undefined, m)
    | some l =>
      match m._shape with
      | some sh =>
        let s : Ref System := ⟨m.next, ⟨l, sh, m._symmetry, m.system_modifiers⟩⟩
        (.ok s, { m with _system := some s, next := m.next + 1 })
      | none =>
        let sh : Ref Shape := ⟨m.next, Shape.Primitive⟩
        let s : Ref System := ⟨m.next + 1, ⟨l, sh, m._symmetry, m.system_modifiers⟩⟩
        (.ok s, { m with _shape := some sh, _system := some s, next := m.next + 2 })

/-- The scalar type `Model::hamiltonian` builds for: `std::complex<float>` if a
Hamiltonian modifier is complex or a symmetry is set, else `float`. -/
def Model.scalar_choice (m : Model) : ScalarType :=
  if m.hamiltonian_modifiers.any_complex || m._symmetry.isSome then .c32 else .f32

/-- The member function `Model::hamiltonian`. Constructing the `HamiltonianT`
records the constructor arguments and does not throw. -/
def Model.hamiltonian (m : Model) : Except Error (Ref Hamiltonian) × Model :=
  match m._hamiltonian with
  | some h => (.ok h, m)
  | none =>
    let t := m.scalar_choice
    match m.system with
    | (.error e, m1) => (.error e, m1)
    | (.ok s, m1) =>
      let h : Ref Hamiltonian := ⟨m1.next, ⟨t, s, m1.hamiltonian_modifiers, m1.wave_vector⟩⟩
      (.ok h, { m1 with _hamiltonian := some h, next := m1.next + 1 })

/-- Modelled from the spec: `Solver::set_hamiltonian`, declared in a header that is
not part of the sources. The spec has: failure (no mutation) if the scalar type
of the Hamiltonian differs from the one of the solver, else the matrix reference
is rebound. -/
def Solver.set_hamiltonian (s : Solver) (h : Ref Hamiltonian) : Bool × Solver :=
  if h.val.scalar = s.scalar then (true, { s with hamiltonian := h }) else (false, s)

/-- Modelled from the spec: `Greens::set_hamiltonian`, declared in a header that is
not part of the sources. The spec gives it the scalar-type rule of the solver. -/
def Greens.set_hamiltonian (g : Greens) (h : Ref Hamiltonian) : Bool × Greens :=
  if h.val.scalar = g.scalar then (true, { g with hamiltonian := h }) else (false, g)

/-- Modelled from the spec: `SolverFactory::create_for`, a virtual function of a
class declared in a header that is not part of the sources. It makes a solver
of the scalar type of the Hamiltonian, bound to it, and throws if the factory
has no solver for that scalar type. -/
def SolverFactory.create_for (f : SolverFactory) (h : Ref Hamiltonian) : Except Error Solver :=
  if h.val.scalar ∈ f.supported then .ok ⟨h.val.scalar, h, 0⟩ else .error .unknown_hamiltonian_type

/-- Modelled from the spec: `GreensFactory::create_for`, a virtual function of a
class declared in a header that is not part of the sources; as for the solver. -/
def GreensFactory.create_for (f : GreensFactory) (h : Ref Hamiltonian) : Except Error Greens :=
  if h.val.scalar ∈ f.supported then .ok ⟨h.val.scalar, h⟩ else .error .unknown_hamiltonian_type

/-- The first block of `Model::solver`: a cached solver is given the current
Hamiltonian and is dropped if it refuses it. -/
def Model.solver_rebind (m : Model) : Except Error Unit × Model :=
  match m._solver with
  | none => (.ok (), m)
  | some s =>
    match m.hamiltonian with
    | (.error e, m1) => (.error e, m1)
    | (.ok h, m1) =>
      let r := s.val.set_hamiltonian h
      if r.1 then (.ok (), { m1 with _solver := some ⟨s.addr, r.2⟩ })
      else (.ok (), { m1 with _solver := none })

/-- The second block of `Model::solver`: without a solver, the factory `f` creates
one for the current Hamiltonian. The result is the solver the model holds. -/
def Model.solver_create (m : Model) (f : Ref SolverFactory) : Except Error (Ref Solver) × Model :=
  match m._solver with
  | some s => (.ok s, m)
  | none =>
    match m.hamiltonian with
    | (.error e, m1) => (.error e, m1)
    | (.ok h, m1) =>
      match f.val.create_for h with
      | .error e => (.error e, m1)
      | .ok s => (.ok ⟨m1.next, s⟩, { m1 with _solver := some ⟨m1.next, s⟩, next := m1.next + 1 })

/-- The member function `Model::solver`. Whether the call `_solver->solve()`
returns or throws is decided outside the model and given as `solve_ok`. -/
def Model.solver (solve_ok : Bool) (m : Model) : Except Error (Ref Solver) × Model :=
  match m.solver_factory with
  | none => (.error .solver_undefined, m)
  | some f =>
    match m.solver_rebind with
    | (.error e, m1) => (.error e, m1)
    | (.ok _, m1) =>
      match m1.solver_create f with
      | (.error e, m2) => (.error e, m2)
      | (.ok s, m2) =>
        let s1 : Ref Solver := ⟨s.addr, { s.val with solves := s.val.solves + 1 }⟩
        let m3 := { m2 with _solver := some s1 }
        if solve_ok then (.ok s1, m3) else (.error .solve_failed, m3)

/-- The member function `Model::greens`. -/
def Model.greens (m : Model) : Except Error (Ref Greens) × Model :=
  match m.greens_factory with
  | none => (.error .greens_undefined, m)
  | some f =>
    let r1 : Except Error Unit × Model :=
      match m._greens with
      | none => (.ok (), m)
      | some g =>
        match m.hamiltonian with
        | (.error e, m1) => (.error e, m1)
        | (.ok h, m1) =>
          let r := g.val.set_hamiltonian h
          if r.1 then (.ok (), { m1 with _greens := some ⟨g.addr, r.2⟩ })
          else (.ok (), { m1 with _greens := none })
    match r1 with
    | (.error e, m1) => (.error e, m1)
    | (.ok _, m1) =>
      match m1._greens with
      | some g => (.ok g, m1)
      | none =>
        match m1.hamiltonian with
        | (.error e, m2) => (.error e, m2)
        | (.ok h, m2) =>
          match f.val.create_for h with
          | .error e => (.error e, m2)
          | .ok g => (.ok ⟨m2.next, g⟩, { m2 with _greens := some ⟨m2.next, g⟩, next := m2.next + 1 })

/-- The member function `Model::build_report`, without the text it returns. -/
def Model.build_report (m : Model) : Except Error Unit × Model :=
  match m.system with
  | (.error e, m1) => (.error e, m1)
  | (.ok _, m1) =>
    match m1.hamiltonian with
    | (.error e, m2) => (.error e, m2)
    | (.ok _, m2) => (.ok (), m2)

/-- The two optional calls that end `Model::compute_report` and `Model::calculate`:
`solver()` if a solver factory is set, then `greens()` if a Greens factory is. -/
def Model.compute (solve_ok : Bool) (m : Model) : Except Error Unit × Model :=
  let r1 : Except Error Unit × Model :=
    match m.solver_factory with
    | none => (.ok (), m)
    | some _ =>
      match m.solver solve_ok with
      | (.error e, m1) => (.error e, m1)
      | (.ok _, m1) => (.ok (), m1)
  match r1 with
  | (.error e, m1) => (.error e, m1)
  | (.ok _, m1) =>
    match m1.greens_factory with
    | none => (.ok (), m1)
    | some _ =>
      match m1.greens with
      | (.error e, m2) => (.error e, m2)
      | (.ok _, m2) => (.ok (), m2)

/-- The member function `Model::compute_report`, without the text it returns. -/
def Model.compute_report (solve_ok : Bool) (m : Model) : Except Error Unit × Model :=
  m.compute solve_ok

/-- The member function `Model::calculate`, without the `Result` it fills. -/
def Model.calculate (solve_ok : Bool) (m : Model) : Except Error Unit × Model :=
  match m.system with
  | (.error e, m1) => (.error e, m1)
  | (.ok _, m1) => m1.compute solve_ok

/-- One call of a member function of `Model.cpp`, with its arguments. -/
inductive Op where
  | set_lattice (l : Option (Ref Lattice))
  | set_wave_vector (v : Cartesian)
  | set_shape (s : Option (Ref Shape))
  | set_symmetry (s : Option (Ref Symmetry))
  | set_solver (f : Option (Ref SolverFactory))
  | set_greens (f : Option (Ref GreensFactory))
  | add_site_state_modifier (x : Ref SiteStateModifier)
  | add_position_modifier (x : Ref PositionModifier)
  | add_onsite_modifier (x : Ref OnsiteModifier)
  | add_hopping_modifier (x : Ref HoppingModifier)
  | system
  | hamiltonian
  | solver (solve_ok : Bool)
  | greens
  | build_report
  | compute_report (solve_ok : Bool)
  | calculate (solve_ok : Bool)
  deriving DecidableEq, Repr

/-- The model after one call, whether the call returned or threw. -/
def Model.run (m : Model) : Op → Model
  | .set_lattice l => (m.set_lattice l).2
  | .set_wave_vector v => m.set_wave_vector v
  | .set_shape s => m.set_shape s
  | .set_symmetry s => m.set_symmetry s
  | .set_solver f => m.set_solver f
  | .set_greens f => m.set_greens f
  | .add_site_state_modifier x => m.add_site_state_modifier x
  | .add_position_modifier x => m.add_position_modifier x
  | .add_onsite_modifier x => m.add_onsite_modifier x
  | .add_hopping_modifier x => m.add_hopping_modifier x
  | .system => m.system.2
  | .hamiltonian => m.hamiltonian.2
  | .solver b => (m.solver b).2
  | .greens => m.greens.2
  | .build_report => m.build_report.2
  | .compute_report b => (m.compute_report b).2
  | .calculate b => (m.calculate b).2

/-- The model after a sequence of calls. -/
def Model.runs (m : Model) (ops : List Op) : Model :=
  ops.foldl Model.run m

/-- The states a freshly constructed model reaches by calls of the member
functions of `Model.cpp`. -/
inductive Reachable : Model → Prop where
  | fresh (k : Cartesian) : Reachable (Model.fresh k)
  | step {m : Model} (h : Reachable m) (op : Op) : Reachable (m.run op)

/-- The invariant of the reachable states: without a lattice nothing is cached,
a cached Hamiltonian has the scalar type the model would choose now, and no
modifier is held twice. -/
structure Model.Inv (m : Model) : Prop where
  no_lattice : m._lattice = none → m._system = none ∧ m._hamiltonian = none
  scalar : ∀ h, m._hamiltonian = some h → h.val.scalar = m.scalar_choice
  unique : m.modifiers_unique

/-- The members set by the caller are the same in `m` and `n`; the shape is left
out, as `system()` sets it. -/
def Model.same_inputs (m n : Model) : Prop :=
  n._lattice = m._lattice ∧ n._symmetry = m._symmetry ∧ n.wave_vector = m.wave_vector ∧
    n.system_modifiers = m.system_modifiers ∧
    n.hamiltonian_modifiers = m.hamiltonian_modifiers ∧
    n.solver_factory = m.solver_factory ∧ n.greens_factory = m.greens_factory

/-- What every lazy stage function does to the model: it keeps the members set by
the caller and the invariant. -/
def Model.Lazy (m n : Model) : Prop :=
  m.same_inputs n ∧ (m.Inv → n.Inv)

/-- Every cached object was constructed before now: its identity is below the
identity of the next object the model constructs. -/
def Model.ids_below_next (m : Model) : Prop :=
  (∀ s ∈ m._system, s.addr < m.next) ∧ (∀ h ∈ m._hamiltonian, h.addr < m.next) ∧
    (∀ s ∈ m._solver, s.addr < m.next) ∧ (∀ g ∈ m._greens, g.addr < m.next)

instance (m : Model) : Decidable m.ids_below_next := by
  unfold Model.ids_below_next
  infer_instance

/-- What a lazy stage function does to the identities: `next` does not decrease,
the Solver and Greens pointers stay, and cached identities stay below `next`. -/
def Model.Grows (m n : Model) : Prop :=
  m.next ≤ n.next ∧ n._solver = m._solver ∧ n._greens = m._greens ∧
    (m.ids_below_next → n.ids_below_next)

/-! ## The FEAST solver (`src/solver/FEAST.cpp`)

`FEAST<scalar_t>` keeps its parameters, the results of the last call of the
external routine, and three buffers, of which only the dimensions are modelled.
An `int` is an `Int`. The product `2*params.max_refinement_loops`, which leaves
the range of `int` for parameters a caller can set, is reduced to 32 bits by
`wrap_int`; the sums of refinement loops and the grown guess are exact, and the
theorems about them are about values that do not overflow. What the external
routine writes at each call is given from outside, as a list with one entry per
call of `call_feast`. -/

/-- A bound of the energy window, as an exact number. -/
abbrev Energy := Int

/-- The members of `params` that the code of `FEAST.cpp` reads or writes. -/
structure FEASTParams where
  energy_min : Energy
  energy_max : Energy
  initial_size_guess : Int
  recycled_subspace : Bool
  is_verbose : Bool
  system_size : Int
  contour_points : Int
  max_refinement_loops : Int
  sp_stop_criteria : Int
  dp_stop_criteria : Int
  residual_convergence : Bool
  deriving DecidableEq, Repr

/-- The integer and boolean members of `info`; `error_trace` and `max_residual`
are floating-point numbers and are left out. -/
structure FEASTInfo where
  recycle_warning : Bool
  recycle_warning_loops : Int
  size_warning : Bool
  refinement_loops : Int
  return_code : Int
  suggested_size : Int
  final_size : Int
  deriving DecidableEq, Repr

/-- The entries of the array `fpm` that `init_feast` sets, by index. -/
structure Fpm where
  fpm0 : Int
  fpm1 : Int
  fpm2 : Int
  fpm3 : Int
  fpm4 : Int
  fpm5 : Int
  fpm6 : Int
  deriving DecidableEq, Repr

/-- What one call of the external routine writes: the number of refinement loops,
the subspace size (an in/out argument), the number of eigenvalues found and the
return code. -/
structure FeastOutput where
  refinement_loops : Int
  suggested_size : Int
  final_size : Int
  return_code : Int
  deriving DecidableEq, Repr

/-- One call of the external routine. What it is given: the matrix size, the array
`fpm`, the subspace size, and the dimensions of the three buffers; and what it
writes, `output`. -/
structure FeastCall where
  system_size : Int
  fpm : Fpm
  suggested_size : Int
  eigenvalues : Int
  eigenvectors : Int × Int
  residual : Int
  output : FeastOutput
  deriving DecidableEq, Repr

/-- The state of a `FEAST<scalar_t>` object. `_eigenvalues` and `residual` are the
lengths of the buffers, `_eigenvectors` is rows and columns. `calls` records the
calls of the external routine made so far, oldest first. -/
structure FEAST where
  scalar : ScalarType
  hamiltonian : Option (Ref Hamiltonian)
  params : FEASTParams
  info : FEASTInfo
  fpm : Fpm
  _eigenvalues : Int
  _eigenvectors : Int × Int
  residual : Int
  is_solved : Bool
  calls : List FeastCall
  deriving DecidableEq, Repr

/-- The exceptions thrown by `FEAST::v_solve`, named after their message. -/
inductive FeastError where
  /-- Thrown as `std::runtime_error`: FEAST failed to converge within desired loop
  count. -/
  | failed_to_converge
  /-- Thrown as `std::runtime_error`: subspace guess is too small, failed to
  recover. -/
  | failed_to_recover
  /-- Thrown as `std::runtime_error`: FEAST error code, followed by the code. -/
  | error_code (code : Int)
  deriving DecidableEq, Repr

/-- How a run of `v_solve` ends on a given list of results. The list has one entry
for each call of `call_feast_impl`, in order: what the external routine writes at
that call. The generic `call_feast_impl`, whose body is empty, makes no external
call and leaves its entry unused, so that for such a solver the list only bounds
the number of calls. The run returns, it throws, or it makes one more call of
`call_feast_impl` than the list has entries for. `rest` is what is left of the
list. -/
inductive Run where
  | done (s : FEAST) (rest : List FeastOutput)
  | raised (e : FeastError) (s : FEAST) (rest : List FeastOutput)
  | pending (s : FEAST)
  deriving DecidableEq, Repr

/-- The exception a run ends with, if it throws. -/
def Run.error : Run → Option FeastError
  | .raised e _ _ => some e
  | _ => none

/-- The run returns normally. -/
def Run.is_done : Run → Bool
  | .done _ _ => true
  | _ => false

/-- The run makes one more call of `call_feast_impl` than there are entries for. -/
def Run.is_pending : Run → Bool
  | .pending _ => true
  | _ => false

/-- The state a run ends in. -/
def Run.state : Run → FEAST
  | .done s _ => s
  | .raised _ s _ => s
  | .pending s => s

/-- The return code the external routine produced last. -/
def FEAST.last_return_code (s : FEAST) : Option Int :=
  s.calls.getLast?.map (fun c => c.output.return_code)

/-- The subspace sizes given to the external routine at its calls, oldest first. -/
def FEAST.guesses (s : FEAST) : List Int :=
  s.calls.map (fun c => c.suggested_size)

/-- The refinement loops the external routine reported at its calls, added up. -/
def FEAST.total_loops (s : FEAST) : Int :=
  (s.calls.map (fun c => c.output.refinement_loops)).sum

/-- The statement `params.initial_size_guess *= 1.7`: the `int` is converted to
`double`, multiplied and truncated towards zero. For an `int` that does not
overflow this is the truncated quotient of `17 * g` by `10`. -/
def grow_guess (g : Int) : Int :=
  Int.tdiv (17 * g) 10

/-- The value of an `int` expression whose exact result is `x`: an `int` has 32
bits, and a result outside its range is taken in two's complement, as the usual
build computes it (the language leaves signed overflow undefined). -/
def wrap_int (x : Int) : Int :=
  (x + 2147483648) % 4294967296 - 2147483648

/-- The product `2*params.max_refinement_loops` of `v_solve` lies within the range
of `int`. -/
def FEAST.budget_fits (s : FEAST) : Prop :=
  -1073741824 ≤ s.params.max_refinement_loops ∧ s.params.max_refinement_loops ≤ 1073741823

instance (s : FEAST) : Decidable s.budget_fits := by
  unfold FEAST.budget_fits
  infer_instance

/-- The member function `FEAST::force_clear`. -/
def FEAST.force_clear (s : FEAST) : FEAST :=
  { s with _eigenvalues := 0, _eigenvectors := (0, 0), residual := 0 }

/-- The member function `FEAST::clear`. -/
def FEAST.clear (s : FEAST) : FEAST :=
  let s1 := { s with is_solved := false }
  if s1.params.recycled_subspace == false then s1.force_clear else s1

/-- The member function `FEAST::init_feast`, for the entries it sets after
`feastinit`. -/
def FEAST.init_feast (s : FEAST) : FEAST :=
  let can_recycle : Int := if s._eigenvalues != 0 then 1 else 0
  { s with fpm :=
      { fpm0 := if s.params.is_verbose then 1 else 0
        fpm4 := if s.params.recycled_subspace then can_recycle else 0
        fpm1 := s.params.contour_points
        fpm2 := s.params.dp_stop_criteria
        fpm3 := s.params.max_refinement_loops
        fpm5 := if s.params.residual_convergence then 1 else 0
        fpm6 := s.params.sp_stop_criteria } }

/-- The record of a call of the external routine made by `call_feast_impl` in
state `s`, when the routine writes `out`. -/
def FEAST.call_record (s : FEAST) (out : FeastOutput) : FeastCall :=
  { system_size := s.params.system_size, fpm := s.fpm,
    suggested_size := s.info.suggested_size, eigenvalues := s._eigenvalues,
    eigenvectors := s._eigenvectors, residual := s.residual, output := out }

/-- The solver is one of the two specialisations that call the external routine. -/
def FEAST.has_routine (s : FEAST) : Prop :=
  s.scalar = .f32 ∨ s.scalar = .c32

instance (s : FEAST) : Decidable s.has_routine := by
  unfold FEAST.has_routine
  infer_instance

/-- The member function `FEAST::call_feast_impl`. The specialisations for `float`
and `std::complex<float>` call the external routine, which writes `out`; the
generic template, used for every other scalar type, has an empty body. -/
def FEAST.call_feast_impl (s : FEAST) (out : FeastOutput) : FEAST :=
  if s.has_routine then
    { s with
      info := { s.info with refinement_loops := out.refinement_loops,
                            suggested_size := out.suggested_size,
                            final_size := out.final_size,
                            return_code := out.return_code }
      calls := s.calls ++ [s.call_record out] }
  else s

/-- The guess `call_feast` keeps for a matrix of size `n`: a guess that is bigger
than the matrix or negative is replaced by the size of the matrix. -/
def clamp_guess (n g : Int) : Int :=
  if g > n || g < 0 then n else g

/-- The first `if` of `call_feast`: an empty buffer of eigenvalues is resized to
the clamped guess, which is also stored as the suggested size. -/
def FEAST.prepare_eigenvalues (s : FEAST) : FEAST :=
  if s._eigenvalues == 0 then
    let g := clamp_guess s.params.system_size s.params.initial_size_guess
    { s with params := { s.params with initial_size_guess := g },
             _eigenvalues := g,
             info := { s.info with suggested_size := g } }
  else s

/-- The second `if` of `call_feast`: an empty buffer of residuals is resized. -/
def FEAST.prepare_residual (s : FEAST) : FEAST :=
  if s.residual == 0 then { s with residual := s.params.initial_size_guess } else s

/-- The third `if` of `call_feast`: an empty buffer of eigenvectors is resized. -/
def FEAST.prepare_eigenvectors (s : FEAST) : FEAST :=
  if s._eigenvectors.1 * s._eigenvectors.2 == 0 then
    { s with _eigenvectors := (s.params.system_size, s.params.initial_size_guess) }
  else s

/-- The member function `FEAST::call_feast`: the buffers are resized only if they
are empty. -/
def FEAST.call_feast (s : FEAST) (out : FeastOutput) : FEAST :=
  s.init_feast.prepare_eigenvalues.prepare_residual.prepare_eigenvectors.call_feast_impl out

/-- The condition of the `while` loop that `v_solve` runs when the subspace is
recycled. -/
def FEAST.recycle_cond (s : FEAST) : Bool :=
  decide (s.info.refinement_loops ≥ s.params.max_refinement_loops) ||
    decide (s.info.return_code = 3)

/-- The first two statements of the body of that loop: the warning flag is set and
the refinement loops of the last call are added to the warning loops. -/
def FEAST.recycle_warn (s : FEAST) : FEAST :=
  { s with info := { s.info with
      recycle_warning := true,
      recycle_warning_loops := s.info.recycle_warning_loops + s.info.refinement_loops } }

/-- The statements of the body of that loop between the throw and the call: the
guess grows if the suggested size equals it, and the buffers are cleared. -/
def FEAST.recycle_prepare (s : FEAST) : FEAST :=
  let s1 :=
    if s.info.suggested_size == s.params.initial_size_guess then
      { s with params := { s.params with
          initial_size_guess := grow_guess s.params.initial_size_guess } }
    else s
  s1.force_clear

/-- The `while` loop that `v_solve` runs when the subspace is recycled. The product
`2*params.max_refinement_loops` is computed in `int`. -/
def FEAST.recycle_loop (s : FEAST) (oracle : List FeastOutput) : Run :=
  match oracle with
  | [] =>
    if s.recycle_cond then
      if s.recycle_warn.info.recycle_warning_loops >
          wrap_int (2 * s.params.max_refinement_loops) then
        .raised .failed_to_converge s.recycle_warn []
      else .pending s.recycle_warn.recycle_prepare
    else .done s []
  | out :: rest =>
    if s.recycle_cond then
      if s.recycle_warn.info.recycle_warning_loops >
          wrap_int (2 * s.params.max_refinement_loops) then
        .raised .failed_to_converge s.recycle_warn (out :: rest)
      else FEAST.recycle_loop (s.recycle_warn.recycle_prepare.call_feast out) rest
    else .done s (out :: rest)

/-- The statements of the body of the loop `while (info.return_code == 3)` before
the call: the guess grows and the buffers are cleared. -/
def FEAST.size_prepare (s : FEAST) : FEAST :=
  ({ s with params := { s.params with
      initial_size_guess := grow_guess s.params.initial_size_guess } } : FEAST).force_clear

/-- The loop `while (info.return_code == 3)` of `v_solve`. -/
def FEAST.size_loop (s : FEAST) (oracle : List FeastOutput) : Run :=
  match oracle with
  | [] => if s.info.return_code = 3 then .pending s.size_prepare else .done s []
  | out :: rest =>
    if s.info.return_code = 3 then
      let s1 := s.size_prepare.call_feast out
      if s1.info.return_code ≠ 3 ∧ s1.info.return_code ≠ 0 then
        .raised .failed_to_recover s1 rest
      else FEAST.size_loop s1 rest
    else .done s (out :: rest)

/-- The last two statements of `v_solve`. The maximum residual is a floating-point
number and is not modelled; the warning loops are added to the refinement loops. -/
def FEAST.finish (s : FEAST) : FEAST :=
  if s.info.recycle_warning then
    { s with info := { s.info with
        refinement_loops := s.info.refinement_loops + s.info.recycle_warning_loops } }
  else s

/-- The statement `info.max_residual = residual.head(info.final_size).maxCoeff()`
of `v_solve` is well defined in state `s`: the prefix of `final_size` residuals
lies within the buffer, and it is not empty, as the maximum of no coefficient
does not exist. -/
def FEAST.max_residual_defined (s : FEAST) : Prop :=
  0 < s.info.final_size ∧ s.info.final_size ≤ s.residual

instance (s : FEAST) : Decidable s.max_residual_defined := by
  unfold FEAST.max_residual_defined
  infer_instance

/-- The last two statements of `v_solve`, run when the loop before them returns. -/
def Run.finish : Run → Run
  | .done s rest => .done s.finish rest
  | r => r

/-- The part of `v_solve` that starts at the check of the return code. -/
def FEAST.check_return_code (s : FEAST) (oracle : List FeastOutput) : Run :=
  if s.info.return_code ≠ 0 then
    if s.info.return_code = 3 then
      (({ s with info := { s.info with size_warning := true } } : FEAST).size_loop oracle).finish
    else if s.info.return_code = 1 then .done s.finish oracle
    else .raised (.error_code s.info.return_code) s oracle
  else .done s.finish oracle

/-- The first statements of `v_solve`: the matrix size is read from the bound
Hamiltonian, given here as `rows`, and the flags are reset. -/
def FEAST.prepare (s : FEAST) (rows : Int) : FEAST :=
  { s with
    params := { s.params with system_size := rows }
    info := { s.info with recycle_warning := false, recycle_warning_loops := 0,
                          size_warning := false } }

/-- The member function `FEAST::v_solve`, for a bound Hamiltonian whose matrix has
`rows` rows. Every call of `call_feast` takes the next entry of `oracle`, also
for a solver whose `call_feast_impl` is the empty generic one, which ignores it. -/
def FEAST.v_solve (s : FEAST) (rows : Int) (oracle : List FeastOutput) : Run :=
  match oracle with
  | [] => .pending (s.prepare rows)
  | out :: rest =>
    let s1 := (s.prepare rows).call_feast out
    if s1.params.recycled_subspace then
      match s1.recycle_loop rest with
      | .done s2 rest2 => s2.check_return_code rest2
      | r => r
    else s1.check_return_code rest

/-- The guess after the first `if` of `call_feast`. -/
def FEAST.next_guess (s : FEAST) : Int :=
  if s._eigenvalues == 0 then clamp_guess s.params.system_size s.params.initial_size_guess
  else s.params.initial_size_guess

/-- The subspace size that `call_feast` gives to the external routine. -/
def FEAST.next_suggested (s : FEAST) : Int :=
  if s._eigenvalues == 0 then clamp_guess s.params.system_size s.params.initial_size_guess
  else s.info.suggested_size

/-- The guess of a retry after the guess `g`, for a matrix of size `n`: grown, then
clamped. -/
def retry_guess (n g : Int) : Int :=
  clamp_guess n (grow_guess g)

/-- The return code in `info` is the one the external routine produced last. -/
def FEAST.synced (s : FEAST) : Prop :=
  s.last_return_code = some s.info.return_code

/-- What is left of the list of results when a run ends. -/
def Run.rest : Run → List FeastOutput
  | .done _ rest => rest
  | .raised _ _ rest => rest
  | .pending _ => []

/-- The members a solve never changes are the same in `s` and `t`. -/
def FEAST.same_setup (s t : FEAST) : Prop :=
  t.scalar = s.scalar ∧ t.params.recycled_subspace = s.params.recycled_subspace ∧
    t.params.max_refinement_loops = s.params.max_refinement_loops ∧
    t.params.system_size = s.params.system_size

/-- The run `r` from state `s` on the list `oracle` made its calls with the
results at the front of the list, in order, and left the rest. -/
def Run.consumed (r : Run) (s : FEAST) (oracle : List FeastOutput) : Prop :=
  ∃ used, oracle = used ++ r.rest ∧
    r.state.calls.map (fun c => c.output) = s.calls.map (fun c => c.output) ++ used

/-- The run `r` from state `s` on the list `oracle` keeps the setup, makes its calls
with the results at the front of the list, and ends with the return code of the
last call in `info` if it started so. -/
def Run.sound (r : Run) (s : FEAST) (oracle : List FeastOutput) : Prop :=
  s.same_setup r.state ∧ r.consumed s oracle ∧ (s.synced → r.state.synced)

/-- The buffers given to the external routine at the call `c` have the dimensions
the routine expects for the subspace size and the matrix size it is given. -/
def FeastCall.well_sized (c : FeastCall) : Prop :=
  c.eigenvalues = c.suggested_size ∧ c.residual = c.suggested_size ∧
    c.eigenvectors = (c.system_size, c.suggested_size) ∧
    0 ≤ c.suggested_size ∧ c.suggested_size ≤ c.system_size

instance (c : FeastCall) : Decidable c.well_sized := by
  unfold FeastCall.well_sized
  infer_instance

/-- Modelled from the spec: `set_hamiltonian` of a FEAST solver, declared in a
header that is not part of the sources. The spec has: failure and no mutation if
the scalar type of the Hamiltonian differs from the one of the solver; otherwise
the matrix reference is rebound and the buffers are left as they are, as a seed
for recycling. The member function `clear` of `FEAST.cpp`, which empties the
buffers of a solver that does not recycle, is taken to be called on a rebind. -/
def FEAST.set_hamiltonian (s : FEAST) (h : Ref Hamiltonian) : Bool × FEAST :=
  if h.val.scalar = s.scalar then (true, ({ s with hamiltonian := some h } : FEAST).clear)
  else (false, s)

/-- The constructor of `FEAST<scalar_t>`, for the scalar type `t`. The members it
does not set are those of `init`; a new object has empty buffers, no
Hamiltonian and has made no call. -/
def FEAST.construct (init : FEAST) (t : ScalarType) (energy_min energy_max : Energy)
    (subspace_size_guess : Int) (recycle_subspace is_verbose : Bool) : FEAST :=
  { init with
    scalar := t, hamiltonian := none,
    params := { init.params with
      energy_min := energy_min, energy_max := energy_max,
      initial_size_guess := subspace_size_guess,
      recycled_subspace := recycle_subspace, is_verbose := is_verbose },
    _eigenvalues := 0, _eigenvectors := (0, 0), residual := 0, is_solved := false,
    calls := [] }

/-- The member `params` of `FEASTFactory`, set by `FEASTFactory::advanced`. -/
structure FEASTAdvanced where
  contour_points : Int
  max_refinement_loops : Int
  sp_stop_criteria : Int
  dp_stop_criteria : Int
  residual_convergence : Bool
  deriving DecidableEq, Repr

/-- The members of `FEASTFactory` that `try_create_for` reads. -/
structure FEASTFactory where
  energy_min : Energy
  energy_max : Energy
  subspace_size : Int
  recycle_subspace : Bool
  is_verbose : Bool
  params : FEASTAdvanced
  deriving DecidableEq, Repr

/-- The member function `FEASTFactory::try_create_for<scalar_t>`, for the scalar
type `t`: the dynamic cast succeeds if the Hamiltonian has that scalar type. -/
def FEASTFactory.try_create_for (f : FEASTFactory) (init : FEAST) (t : ScalarType)
    (hamiltonian : Ref Hamiltonian) : Option FEAST :=
  if hamiltonian.val.scalar = t then
    let feast := FEAST.construct init t f.energy_min f.energy_max f.subspace_size
      f.recycle_subspace f.is_verbose
    let feast := (feast.set_hamiltonian hamiltonian).2
    some { feast with params := { feast.params with
      contour_points := f.params.contour_points,
      max_refinement_loops := f.params.max_refinement_loops,
      sp_stop_criteria := f.params.sp_stop_criteria,
      dp_stop_criteria := f.params.dp_stop_criteria,
      residual_convergence := f.params.residual_convergence } }
  else none

/-- The member function `FEASTFactory::create_for`. -/
def FEASTFactory.create_for (f : FEASTFactory) (init : FEAST)
    (hamiltonian : Ref Hamiltonian) : Except Error FEAST :=
  match f.try_create_for init .f32 hamiltonian with
  | some s => .ok s
  | none =>
    match f.try_create_for init .c32 hamiltonian with
    | some s => .ok s
    | none =>
      match f.try_create_for init .f64 hamiltonian with
      | some s => .ok s
      | none => .error .unknown_hamiltonian_type

/-- The member function `FEASTFactory::advanced`. -/
def FEASTFactory.advanced (f : FEASTFactory) (points loops sp dp : Int)
    (stop_residual : Bool) : FEASTFactory :=
  { f with params := ⟨points, loops, sp, dp, stop_residual⟩ }

/-! ## Concrete models used to evaluate the definitions -/

/-- The zero wave vector. -/
def k0 : Cartesian := ⟨.val 0, .val 0, .val 0⟩

/-- A lattice with one sublattice and one lattice vector. -/
def lattice_a : Ref Lattice := ⟨1, ⟨1, 1⟩⟩

/-- Another lattice, with two sublattices and two lattice vectors. -/
def lattice_b : Ref Lattice := ⟨2, ⟨2, 2⟩⟩

/-- A solver factory with the scalar types of `FEASTFactory::create_for`. -/
def factory_a : Ref SolverFactory := ⟨1, ⟨[.f32, .c32, .f64]⟩⟩

/-- A Greens factory for the same scalar types. -/
def gfactory_a : Ref GreensFactory := ⟨1, ⟨[.f32, .c32, .f64]⟩⟩

/-- A model with a lattice and both factories, after `solver()` and `greens()`
returned: its four stages are cached. -/
def model_full : Model :=
  (Model.fresh k0).runs [.set_lattice (some lattice_a), .set_solver (some factory_a),
    .set_greens (some gfactory_a), .solver true, .greens]

/-- A FEAST solver for `float` with empty buffers that does not recycle: subspace
guess 5, at most 20 refinement loops. -/
def feast_a : FEAST :=
  { scalar := .f32, hamiltonian := none,
    params := { energy_min := -1, energy_max := 1, initial_size_guess := 5,
                recycled_subspace := false, is_verbose := false, system_size := 0,
                contour_points := 8, max_refinement_loops := 20, sp_stop_criteria := 5,
                dp_stop_criteria := 12, residual_convergence := false },
    info := { recycle_warning := false, recycle_warning_loops := 0, size_warning := false,
              refinement_loops := 0, return_code := 0, suggested_size := 0,
              final_size := 0 },
    fpm := ⟨0, 0, 0, 0, 0, 0, 0⟩,
    _eigenvalues := 0, _eigenvectors := (0, 0), residual := 0, is_solved := false,
    calls := [] }

/-- The same solver, recycling its subspace. -/
def feast_r : FEAST :=
  { feast_a with params := { feast_a.params with recycled_subspace := true } }

/-- The recycling solver with at most 1500000000 refinement loops. -/
def feast_big : FEAST :=
  { feast_r with params := { feast_r.params with max_refinement_loops := 1500000000 } }

/-- A result of the external routine with the given loops and return code, four
eigenvalues found and the subspace size 5 suggested. -/
def feast_out (loops code : Int) : FeastOutput :=
  { refinement_loops := loops, suggested_size := 5, final_size := 4, return_code := code }

/-- The result of the external routine when no eigenvalue lies in the energy
window: return code 1 and no eigenvalue found. -/
def feast_out_none : FeastOutput :=
  { refinement_loops := 2, suggested_size := 5, final_size := 0, return_code := 1 }

/-- A Hamiltonian of scalar type `float`. -/
def hamiltonian_a : Ref Hamiltonian :=
  ⟨7, ⟨.f32, ⟨6, ⟨lattice_b, ⟨0, Shape.Primitive⟩, none, ⟨[], []⟩⟩⟩, ⟨[], []⟩, k0⟩⟩

/-- The recycling solver after a solve for a matrix with 10 rows that returned at
the first call, rebound to another Hamiltonian of the same scalar type. -/
def feast_rebound : FEAST :=
  ((feast_r.v_solve 10 [feast_out 3 0]).state.set_hamiltonian hamiltonian_a).2

/-- A FEAST factory with the parameters of `feast_a`. -/
def feast_factory : FEASTFactory :=
  { energy_min := -1, energy_max := 1, subspace_size := 5, recycle_subspace := false,
    is_verbose := false, params := ⟨8, 20, 5, 12, false⟩ }

/-- A real onsite modifier. -/
def onsite_a : Ref OnsiteModifier := ⟨1, ⟨false⟩⟩

/-- A complex hopping modifier. -/
def hopping_a : Ref HoppingModifier := ⟨2, ⟨true⟩⟩

/-- A site-state modifier. -/
def state_a : Ref SiteStateModifier := ⟨3, ⟨0⟩⟩

/-- A position modifier. -/
def position_a : Ref PositionModifier := ⟨4, ⟨0⟩⟩

/-! ## The setters -/

/-- C1, as stated, fails: a freshly constructed model that holds no lattice and is
given the null lattice returns normally from `set_lattice`, with its state
unchanged; so not every null lattice argument makes `set_lattice` throw. -/
theorem C1_null_lattice_on_fresh_model_returns :
    (Model.fresh k0).set_lattice none = (.ok (), Model.fresh k0) ∧
    ¬ (∀ (m : Model) (l : Option (Ref Lattice)),
        (l = none ∨ (∃ r, l = some r ∧ (r.val.sublattices = 0 ∨ r.val.vectors = 0))) →
        ∃ e, (m.set_lattice l).1 = .error e) := by
  refine ⟨rfl, fun h => ?_⟩
  obtain ⟨e, he⟩ := h (Model.fresh k0) none (Or.inl rfl)
  simp [Model.set_lattice, Model.fresh, ptr_eq] at he

/-- C1, amended: for every model state and every lattice argument that is not the
pointer the model holds and that is null, has zero sublattices or has zero
lattice vectors, `set_lattice` throws and leaves the model unchanged; for a
lattice argument that is the pointer the model holds, the null pointer of a
model without a lattice included, `set_lattice` returns normally and leaves the
model unchanged. -/
theorem C1_set_lattice_rejects_invalid (m : Model) (l : Option (Ref Lattice)) :
    (ptr_eq m._lattice l = false →
      (l = none ∨ (∃ r, l = some r ∧ (r.val.sublattices = 0 ∨ r.val.vectors = 0))) →
      (∃ e, (m.set_lattice l).1 = .error e) ∧ (m.set_lattice l).2 = m) ∧
    (ptr_eq m._lattice l = true → m.set_lattice l = (.ok (), m)) := by
  constructor
  · intro hne hbad
    rcases hbad with rfl | ⟨r, rfl, h0 | h0⟩
    · simp [Model.set_lattice, hne]
    · simp [Model.set_lattice, hne, h0]
    · by_cases hs : r.val.sublattices < 1 <;> simp [Model.set_lattice, hne, h0, hs]
  · intro he
    simp [Model.set_lattice, he]

theorem C1_set_lattice_rejects_invalid_witness :
    ((∃ e, (model_full.set_lattice (some ⟨2, ⟨0, 1⟩⟩)).1 = .error e) ∧
      (model_full.set_lattice (some ⟨2, ⟨0, 1⟩⟩)).2 = model_full) ∧
    ((∃ e, (model_full.set_lattice none).1 = .error e) ∧
      (model_full.set_lattice none).2 = model_full) ∧
    (Model.fresh k0).set_lattice none = (.ok (), Model.fresh k0) :=
  ⟨(C1_set_lattice_rejects_invalid model_full (some ⟨2, ⟨0, 1⟩⟩)).1 (by decide)
      (Or.inr ⟨_, rfl, Or.inl rfl⟩),
    (C1_set_lattice_rejects_invalid model_full none).1 (by decide) (Or.inl rfl),
    (C1_set_lattice_rejects_invalid (Model.fresh k0) none).2 (by decide)⟩

/-- C3: `set_wave_vector` with a vector that differs from the stored one stores the
new vector, drops the cached Hamiltonian and changes no other member; the cached
Structure pointer is the same before and after, and a following `system()`
returns that same Structure and builds nothing. -/
theorem C3_set_wave_vector_drops_hamiltonian_only (m : Model) (v : Cartesian)
    (hne : Cartesian.ne m.wave_vector v = true) :
    m.set_wave_vector v = { m with wave_vector := v, _hamiltonian := none } ∧
      (m.set_wave_vector v)._system = m._system ∧
      (∀ s, m._system = some s →
        (m.set_wave_vector v).system = (.ok s, m.set_wave_vector v)) := by
  refine ⟨by simp [Model.set_wave_vector, hne], by simp [Model.set_wave_vector, hne], ?_⟩
  intro s hs
  simp [Model.set_wave_vector, hne, Model.system, hs]

theorem C3_set_wave_vector_drops_hamiltonian_only_witness :
    model_full.set_wave_vector ⟨.val 1, .val 0, .val 0⟩ =
        { model_full with wave_vector := ⟨.val 1, .val 0, .val 0⟩, _hamiltonian := none } ∧
      (model_full.set_wave_vector ⟨.val 1, .val 0, .val 0⟩)._system = model_full._system ∧
      (∀ s, model_full._system = some s →
        (model_full.set_wave_vector ⟨.val 1, .val 0, .val 0⟩).system =
          (.ok s, model_full.set_wave_vector ⟨.val 1, .val 0, .val 0⟩)) :=
  C3_set_wave_vector_drops_hamiltonian_only model_full ⟨.val 1, .val 0, .val 0⟩ (by decide)

/-- C10: without a solver factory `solver()` throws and leaves the model state
unchanged, whatever the solve step would do; without a Greens factory `greens()`
throws and leaves the model state unchanged. -/
theorem C10_missing_factory_fails_first (m : Model) :
    (m.solver_factory = none → ∀ b, m.solver b = (.error .solver_undefined, m)) ∧
      (m.greens_factory = none → m.greens = (.error .greens_undefined, m)) := by
  constructor
  · intro h b
    simp [Model.solver, h]
  · intro h
    simp [Model.greens, h]

theorem C10_missing_factory_fails_first_witness :
    (∀ b, (Model.fresh k0).solver b = (.error .solver_undefined, Model.fresh k0)) ∧
      (Model.fresh k0).greens = (.error .greens_undefined, Model.fresh k0) :=
  ⟨(C10_missing_factory_fails_first (Model.fresh k0)).1 rfl,
    (C10_missing_factory_fails_first (Model.fresh k0)).2 rfl⟩

/-! ## The modifier collections -/

theorem add_unique_of_contains {α : Type} (xs : List (Ref α)) (x : Ref α)
    (h : contains_ptr xs x = true) : add_unique xs x = (false, xs) := by
  simp [add_unique, h]

theorem add_unique_of_not_contains {α : Type} (xs : List (Ref α)) (x : Ref α)
    (h : contains_ptr xs x = false) : add_unique xs x = (true, xs ++ [x]) := by
  simp [add_unique, h]

theorem contains_ptr_add_unique {α : Type} (xs : List (Ref α)) (x : Ref α) :
    contains_ptr (add_unique xs x).2 x = true := by
  by_cases h : contains_ptr xs x = true
  · simp [add_unique, h]
  · simp only [Bool.not_eq_true] at h
    rw [add_unique_of_not_contains xs x h]
    simp [contains_ptr]

theorem count_ptr_eq_zero {α : Type} (xs : List (Ref α)) (x : Ref α)
    (h : contains_ptr xs x = false) : count_ptr xs x = 0 := by
  induction xs with
  | nil => rfl
  | cons y ys ih =>
    simp only [contains_ptr, List.any_cons, Bool.or_eq_false_iff] at h
    have ih' := ih (by simpa [contains_ptr] using h.2)
    simp only [count_ptr] at ih' ⊢
    rw [List.countP_cons, ih']
    simp [h.1]

theorem count_ptr_le_one {α : Type} (xs : List (Ref α)) (x : Ref α)
    (h : unique_ptrs xs) : count_ptr xs x ≤ 1 := by
  induction xs with
  | nil => simp [count_ptr]
  | cons y ys ih =>
    simp only [unique_ptrs, List.map_cons, List.nodup_cons] at h
    have ih' := ih h.2
    by_cases hy : y.addr = x.addr
    · have hc : contains_ptr ys x = false := by
        rw [Bool.eq_false_iff]
        intro hc
        simp only [contains_ptr, List.any_eq_true, beq_iff_eq] at hc
        obtain ⟨z, hz, hzx⟩ := hc
        exact h.1 (List.mem_map.mpr ⟨z, hz, by rw [hzx, hy]⟩)
      have h0 := count_ptr_eq_zero ys x hc
      simp only [count_ptr] at h0 ⊢
      rw [List.countP_cons, h0]
      simp [hy]
    · simp only [count_ptr] at ih' ⊢
      rw [List.countP_cons]
      simpa [hy] using ih'

theorem count_ptr_pos {α : Type} (xs : List (Ref α)) (x : Ref α)
    (h : contains_ptr xs x = true) : 1 ≤ count_ptr xs x := by
  simp only [contains_ptr, List.any_eq_true] at h
  obtain ⟨z, hz, hzx⟩ := h
  exact List.countP_pos_iff.mpr ⟨z, hz, hzx⟩

theorem unique_ptrs_add_unique {α : Type} (xs : List (Ref α)) (x : Ref α)
    (h : unique_ptrs xs) : unique_ptrs (add_unique xs x).2 := by
  by_cases hc : contains_ptr xs x = true
  · simpa [add_unique, hc] using h
  · simp only [Bool.not_eq_true] at hc
    simp only [add_unique, hc, Bool.false_eq_true, if_false, unique_ptrs, List.map_append,
      List.map_cons, List.map_nil]
    refine List.Nodup.append h (List.nodup_singleton _) ?_
    intro a ha hx
    simp only [List.mem_singleton] at hx
    subst hx
    obtain ⟨z, hz, hzx⟩ := List.mem_map.mp ha
    have : contains_ptr xs x = true := by
      simp only [contains_ptr, List.any_eq_true, beq_iff_eq]
      exact ⟨z, hz, hzx⟩
    simp [hc] at this

theorem count_ptr_add_unique {α : Type} (xs : List (Ref α)) (x : Ref α)
    (h : unique_ptrs xs) : count_ptr (add_unique xs x).2 x = 1 :=
  Nat.le_antisymm (count_ptr_le_one _ x (unique_ptrs_add_unique xs x h))
    (count_ptr_pos _ x (contains_ptr_add_unique xs x))

/-! ## What the lazy stages leave alone -/

theorem system_modifiers_frame (m : Model) :
    m.system.2.system_modifiers = m.system_modifiers ∧
      m.system.2.hamiltonian_modifiers = m.hamiltonian_modifiers := by
  unfold Model.system
  split
  · simp
  · split
    · simp
    · split <;> simp

theorem hamiltonian_modifiers_frame (m : Model) :
    m.hamiltonian.2.system_modifiers = m.system_modifiers ∧
      m.hamiltonian.2.hamiltonian_modifiers = m.hamiltonian_modifiers := by
  have hs := system_modifiers_frame m
  unfold Model.hamiltonian
  split
  · simp
  · split
    · rename_i e m1 heq
      rw [heq] at hs
      simpa using hs
    · rename_i s m1 heq
      rw [heq] at hs
      simpa using hs

/-! ## Adding modifiers -/

/-- C5: in a model whose modifier collections hold no modifier twice, after a
modifier is added it is in its collection exactly once, and adding it again
changes nothing in the model state, neither directly after the first add nor
after `system()` and `hamiltonian()` rebuilt the Structure and the Hamiltonian;
this holds for each of the four adders. -/
theorem C5_adding_twice_is_adding_once (m : Model) (hu : m.modifiers_unique) :
    (∀ x : Ref SiteStateModifier,
      count_ptr (m.add_site_state_modifier x).system_modifiers.state x = 1 ∧
      (m.add_site_state_modifier x).add_site_state_modifier x = m.add_site_state_modifier x ∧
      ((m.add_site_state_modifier x).system.2.hamiltonian.2).add_site_state_modifier x =
        (m.add_site_state_modifier x).system.2.hamiltonian.2) ∧
    (∀ x : Ref PositionModifier,
      count_ptr (m.add_position_modifier x).system_modifiers.position x = 1 ∧
      (m.add_position_modifier x).add_position_modifier x = m.add_position_modifier x ∧
      ((m.add_position_modifier x).system.2.hamiltonian.2).add_position_modifier x =
        (m.add_position_modifier x).system.2.hamiltonian.2) ∧
    (∀ x : Ref OnsiteModifier,
      count_ptr (m.add_onsite_modifier x).hamiltonian_modifiers.onsite x = 1 ∧
      (m.add_onsite_modifier x).add_onsite_modifier x = m.add_onsite_modifier x ∧
      ((m.add_onsite_modifier x).system.2.hamiltonian.2).add_onsite_modifier x =
        (m.add_onsite_modifier x).system.2.hamiltonian.2) ∧
    (∀ x : Ref HoppingModifier,
      count_ptr (m.add_hopping_modifier x).hamiltonian_modifiers.hopping x = 1 ∧
      (m.add_hopping_modifier x).add_hopping_modifier x = m.add_hopping_modifier x ∧
      ((m.add_hopping_modifier x).system.2.hamiltonian.2).add_hopping_modifier x =
        (m.add_hopping_modifier x).system.2.hamiltonian.2) := by
  obtain ⟨h1, h2, h3, h4⟩ := hu
  refine ⟨fun x => ?_, fun x => ?_, fun x => ?_, fun x => ?_⟩
  · have hset : (m.add_site_state_modifier x).system_modifiers.state =
        (add_unique m.system_modifiers.state x).2 := by
      simp only [Model.add_site_state_modifier]; split <;> rfl
    have hin := contains_ptr_add_unique m.system_modifiers.state x
    have stay : ∀ m' : Model, contains_ptr m'.system_modifiers.state x = true →
        m'.add_site_state_modifier x = m' := by
      intro m' hc
      simp [Model.add_site_state_modifier, add_unique_of_contains _ _ hc]
    refine ⟨by rw [hset]; exact count_ptr_add_unique _ x h1, stay _ (by rw [hset]; exact hin),
      stay _ ?_⟩
    rw [(hamiltonian_modifiers_frame _).1, (system_modifiers_frame _).1, hset]
    exact hin
  · have hset : (m.add_position_modifier x).system_modifiers.position =
        (add_unique m.system_modifiers.position x).2 := by
      simp only [Model.add_position_modifier]; split <;> rfl
    have hin := contains_ptr_add_unique m.system_modifiers.position x
    have stay : ∀ m' : Model, contains_ptr m'.system_modifiers.position x = true →
        m'.add_position_modifier x = m' := by
      intro m' hc
      simp [Model.add_position_modifier, add_unique_of_contains _ _ hc]
    refine ⟨by rw [hset]; exact count_ptr_add_unique _ x h2, stay _ (by rw [hset]; exact hin),
      stay _ ?_⟩
    rw [(hamiltonian_modifiers_frame _).1, (system_modifiers_frame _).1, hset]
    exact hin
  · have hset : (m.add_onsite_modifier x).hamiltonian_modifiers.onsite =
        (add_unique m.hamiltonian_modifiers.onsite x).2 := by
      simp only [Model.add_onsite_modifier]; split <;> rfl
    have hin := contains_ptr_add_unique m.hamiltonian_modifiers.onsite x
    have stay : ∀ m' : Model, contains_ptr m'.hamiltonian_modifiers.onsite x = true →
        m'.add_onsite_modifier x = m' := by
      intro m' hc
      simp [Model.add_onsite_modifier, add_unique_of_contains _ _ hc]
    refine ⟨by rw [hset]; exact count_ptr_add_unique _ x h3, stay _ (by rw [hset]; exact hin),
      stay _ ?_⟩
    rw [(hamiltonian_modifiers_frame _).2, (system_modifiers_frame _).2, hset]
    exact hin
  · have hset : (m.add_hopping_modifier x).hamiltonian_modifiers.hopping =
        (add_unique m.hamiltonian_modifiers.hopping x).2 := by
      simp only [Model.add_hopping_modifier]; split <;> rfl
    have hin := contains_ptr_add_unique m.hamiltonian_modifiers.hopping x
    have stay : ∀ m' : Model, contains_ptr m'.hamiltonian_modifiers.hopping x = true →
        m'.add_hopping_modifier x = m' := by
      intro m' hc
      simp [Model.add_hopping_modifier, add_unique_of_contains _ _ hc]
    refine ⟨by rw [hset]; exact count_ptr_add_unique _ x h4, stay _ (by rw [hset]; exact hin),
      stay _ ?_⟩
    rw [(hamiltonian_modifiers_frame _).2, (system_modifiers_frame _).2, hset]
    exact hin

theorem C5_adding_twice_is_adding_once_witness :
    model_full.modifiers_unique ∧
      count_ptr (model_full.add_onsite_modifier onsite_a).hamiltonian_modifiers.onsite
        onsite_a = 1 ∧
      (model_full.add_onsite_modifier onsite_a).add_onsite_modifier onsite_a =
        model_full.add_onsite_modifier onsite_a ∧
      ((model_full.add_onsite_modifier onsite_a).system.2.hamiltonian.2).add_onsite_modifier
        onsite_a = (model_full.add_onsite_modifier onsite_a).system.2.hamiltonian.2 :=
  ⟨by decide, (C5_adding_twice_is_adding_once model_full (by decide)).2.2.1 onsite_a⟩

/-- C6: adding an onsite or hopping modifier that is not yet in its collection
appends it, drops the cached Hamiltonian and leaves every other member, the
cached Structure pointer included, as it was; adding a site-state or position
modifier that is not yet in its collection appends it and drops both the cached
Structure and the cached Hamiltonian. -/
theorem C6_new_modifier_invalidates (m : Model) :
    (∀ x : Ref OnsiteModifier, contains_ptr m.hamiltonian_modifiers.onsite x = false →
      m.add_onsite_modifier x =
        { m with hamiltonian_modifiers :=
                   { m.hamiltonian_modifiers with
                     onsite := m.hamiltonian_modifiers.onsite ++ [x] },
                 _hamiltonian := none } ∧
      (m.add_onsite_modifier x)._hamiltonian = none ∧
      (m.add_onsite_modifier x)._system = m._system) ∧
    (∀ x : Ref HoppingModifier, contains_ptr m.hamiltonian_modifiers.hopping x = false →
      m.add_hopping_modifier x =
        { m with hamiltonian_modifiers :=
                   { m.hamiltonian_modifiers with
                     hopping := m.hamiltonian_modifiers.hopping ++ [x] },
                 _hamiltonian := none } ∧
      (m.add_hopping_modifier x)._hamiltonian = none ∧
      (m.add_hopping_modifier x)._system = m._system) ∧
    (∀ x : Ref SiteStateModifier, contains_ptr m.system_modifiers.state x = false →
      m.add_site_state_modifier x =
        { m with system_modifiers :=
                   { m.system_modifiers with state := m.system_modifiers.state ++ [x] },
                 _system := none, _hamiltonian := none } ∧
      (m.add_site_state_modifier x)._system = none ∧
      (m.add_site_state_modifier x)._hamiltonian = none) ∧
    (∀ x : Ref PositionModifier, contains_ptr m.system_modifiers.position x = false →
      m.add_position_modifier x =
        { m with system_modifiers :=
                   { m.system_modifiers with
                     position := m.system_modifiers.position ++ [x] },
                 _system := none, _hamiltonian := none } ∧
      (m.add_position_modifier x)._system = none ∧
      (m.add_position_modifier x)._hamiltonian = none) := by
  refine ⟨fun x hx => ?_, fun x hx => ?_, fun x hx => ?_, fun x hx => ?_⟩
  · simp [Model.add_onsite_modifier, add_unique_of_not_contains _ _ hx]
  · simp [Model.add_hopping_modifier, add_unique_of_not_contains _ _ hx]
  · simp [Model.add_site_state_modifier, add_unique_of_not_contains _ _ hx]
  · simp [Model.add_position_modifier, add_unique_of_not_contains _ _ hx]

theorem C6_new_modifier_invalidates_witness :
    ((model_full.add_hopping_modifier hopping_a)._hamiltonian = none ∧
      (model_full.add_hopping_modifier hopping_a)._system = model_full._system) ∧
    ((model_full.add_site_state_modifier state_a)._system = none ∧
      (model_full.add_site_state_modifier state_a)._hamiltonian = none) :=
  ⟨((C6_new_modifier_invalidates model_full).2.1 hopping_a (by decide)).2,
    ((C6_new_modifier_invalidates model_full).2.2.1 state_a (by decide)).2⟩

/-! ## Building the Structure -/

/-- C8: with a lattice set, no shape set and no cached Structure, `system()`
returns a Structure built from a new default `Primitive` shape and stores that
shape as the shape of the model, so that the shape is non-null afterwards and a
second `system()` returns the same cached Structure and changes nothing; when a
shape is already set, `system()` leaves the shape as it is. -/
theorem C8_system_defaults_shape (m : Model) :
    (∀ l, m._lattice = some l → m._shape = none → m._system = none →
      ∃ s sh, m.system.1 = .ok s ∧
        sh.val = Shape.Primitive ∧ s.val.shape = sh ∧ s.val.lattice = l ∧
        m.system.2._shape = some sh ∧ m.system.2._system = some s ∧
        m.system.2.system = (.ok s, m.system.2)) ∧
    (∀ sh, m._shape = some sh → m.system.2._shape = some sh) := by
  constructor
  · intro l hl hsh hs
    refine ⟨⟨m.next + 1, ⟨l, ⟨m.next, Shape.Primitive⟩, m._symmetry, m.system_modifiers⟩⟩,
      ⟨m.next, Shape.Primitive⟩, ?_⟩
    simp [Model.system, hl, hsh, hs]
  · intro sh hsh
    unfold Model.system
    split
    · simpa using hsh
    · split
      · simpa using hsh
      · simp [hsh]

theorem C8_system_defaults_shape_witness :
    (∃ s sh, ((Model.fresh k0).set_lattice (some lattice_a)).2.system.1 = .ok s ∧
        sh.val = Shape.Primitive ∧ s.val.shape = sh ∧ s.val.lattice = lattice_a ∧
        ((Model.fresh k0).set_lattice (some lattice_a)).2.system.2._shape = some sh ∧
        ((Model.fresh k0).set_lattice (some lattice_a)).2.system.2._system = some s ∧
        ((Model.fresh k0).set_lattice (some lattice_a)).2.system.2.system =
          (.ok s, ((Model.fresh k0).set_lattice (some lattice_a)).2.system.2)) ∧
    model_full.system.2._shape = model_full._shape :=
  ⟨(C8_system_defaults_shape ((Model.fresh k0).set_lattice (some lattice_a)).2).1
      lattice_a (by decide) (by decide) (by decide),
    (C8_system_defaults_shape model_full).2 ⟨0, Shape.Primitive⟩ (by decide)⟩

/-! ## The invariant of the reachable states -/

theorem lazy_refl (m : Model) : m.Lazy m :=
  ⟨⟨rfl, rfl, rfl, rfl, rfl, rfl, rfl⟩, id⟩

theorem lazy_trans {a b c : Model} (h1 : a.Lazy b) (h2 : b.Lazy c) : a.Lazy c := by
  obtain ⟨⟨p1, p2, p3, p4, p5, p6, p7⟩, i1⟩ := h1
  obtain ⟨⟨q1, q2, q3, q4, q5, q6, q7⟩, i2⟩ := h2
  exact ⟨⟨q1.trans p1, q2.trans p2, q3.trans p3, q4.trans p4, q5.trans p5, q6.trans p6,
    q7.trans p7⟩, fun h => i2 (i1 h)⟩

theorem inv_congr {m n : Model} (h : m.Inv) (h1 : n._lattice = m._lattice)
    (h2 : n._symmetry = m._symmetry) (h3 : n.system_modifiers = m.system_modifiers)
    (h4 : n.hamiltonian_modifiers = m.hamiltonian_modifiers) (h5 : n._system = m._system)
    (h6 : n._hamiltonian = m._hamiltonian) : n.Inv := by
  obtain ⟨a, b, c⟩ := h
  refine ⟨?_, ?_, ?_⟩
  · rw [h1, h5, h6]; exact a
  · rw [h6]
    intro x hx
    rw [b x hx]
    simp [Model.scalar_choice, h2, h4]
  · simpa [Model.modifiers_unique, h3, h4] using c

theorem lazy_set_solver (m : Model) (s : Option (Ref Solver)) (k : Nat) :
    m.Lazy { m with _solver := s, next := k } :=
  ⟨⟨rfl, rfl, rfl, rfl, rfl, rfl, rfl⟩, fun h => inv_congr h rfl rfl rfl rfl rfl rfl⟩

theorem lazy_set_greens (m : Model) (g : Option (Ref Greens)) (k : Nat) :
    m.Lazy { m with _greens := g, next := k } :=
  ⟨⟨rfl, rfl, rfl, rfl, rfl, rfl, rfl⟩, fun h => inv_congr h rfl rfl rfl rfl rfl rfl⟩

theorem system_lazy (m : Model) : m.Lazy m.system.2 := by
  unfold Model.system
  split
  · exact lazy_refl m
  · rename_i hs
    split
    · exact lazy_refl m
    · rename_i l hl
      split
      · refine ⟨⟨rfl, rfl, rfl, rfl, rfl, rfl, rfl⟩, fun h => ⟨?_, ?_, ?_⟩⟩
        · simp [hl]
        · exact h.scalar
        · exact h.unique
      · refine ⟨⟨rfl, rfl, rfl, rfl, rfl, rfl, rfl⟩, fun h => ⟨?_, ?_, ?_⟩⟩
        · simp [hl]
        · exact h.scalar
        · exact h.unique

theorem system_ok_lattice (m : Model) (s : Ref System) (h : m.system.1 = .ok s) (hi : m.Inv) :
    m._lattice ≠ none := by
  intro hl
  have hs := (hi.no_lattice hl).1
  simp [Model.system, hs, hl] at h

theorem hamiltonian_lazy (m : Model) : m.Lazy m.hamiltonian.2 := by
  have hs := system_lazy m
  unfold Model.hamiltonian
  split
  · exact lazy_refl m
  · split
    · rename_i e m1 heq
      rw [heq] at hs
      exact hs
    · rename_i s m1 heq
      have hok : m.system.1 = .ok s := by rw [heq]
      rw [heq] at hs
      obtain ⟨⟨p1, p2, p3, p4, p5, p6, p7⟩, i1⟩ := hs
      simp only at p1 p2 p3 p4 p5 p6 p7 i1
      refine ⟨⟨p1, p2, p3, p4, p5, p6, p7⟩, fun h => ⟨?_, ?_, ?_⟩⟩
      · intro hl
        simp only at hl
        rw [p1] at hl
        exact absurd hl (system_ok_lattice m s hok h)
      · intro x hx
        simp only [Option.some.injEq] at hx
        subst hx
        simp [Model.scalar_choice, p2, p5]
      · exact (i1 h).unique

theorem solver_rebind_lazy (m : Model) : m.Lazy m.solver_rebind.2 := by
  have hh := hamiltonian_lazy m
  unfold Model.solver_rebind
  split
  · exact lazy_refl m
  · split
    · rename_i e m1 heq
      rw [heq] at hh
      exact hh
    · rename_i h m1 heq
      rw [heq] at hh
      dsimp only
      split
      · exact lazy_trans hh (lazy_set_solver m1 _ m1.next)
      · exact lazy_trans hh (lazy_set_solver m1 _ m1.next)

theorem solver_create_lazy (m : Model) (f : Ref SolverFactory) :
    m.Lazy (m.solver_create f).2 := by
  have hh := hamiltonian_lazy m
  unfold Model.solver_create
  split
  · exact lazy_refl m
  · split
    · rename_i e m1 heq
      rw [heq] at hh
      exact hh
    · rename_i h m1 heq
      rw [heq] at hh
      split
      · exact hh
      · exact lazy_trans hh (lazy_set_solver m1 _ _)

theorem solver_lazy (b : Bool) (m : Model) : m.Lazy (m.solver b).2 := by
  unfold Model.solver
  split
  · exact lazy_refl m
  · rename_i f hf
    have h1 := solver_rebind_lazy m
    split
    · rename_i e m1 heq
      rw [heq] at h1
      exact h1
    · rename_i u m1 heq
      rw [heq] at h1
      have h2 := solver_create_lazy m1 f
      split
      · rename_i e m2 heq2
        rw [heq2] at h2
        exact lazy_trans h1 h2
      · rename_i s m2 heq2
        rw [heq2] at h2
        have h3 := lazy_trans (lazy_trans h1 h2) (lazy_set_solver m2
          (some ⟨s.addr, { s.val with solves := s.val.solves + 1 }⟩) m2.next)
        split <;> exact h3

theorem greens_lazy (m : Model) : m.Lazy m.greens.2 := by
  unfold Model.greens
  split
  · exact lazy_refl m
  · rename_i f hf
    have h1 : m.Lazy (match m._greens with
        | none => ((Except.ok () : Except Error Unit), m)
        | some g =>
          match m.hamiltonian with
          | (.error e, m1) => (.error e, m1)
          | (.ok h, m1) =>
            let r := g.val.set_hamiltonian h
            if r.1 then (.ok (), { m1 with _greens := some ⟨g.addr, r.2⟩ })
            else (.ok (), { m1 with _greens := none })).2 := by
      have hh := hamiltonian_lazy m
      split
      · exact lazy_refl m
      · split
        · rename_i e m1 heq
          rw [heq] at hh
          exact hh
        · rename_i h m1 heq
          rw [heq] at hh
          dsimp only
          split
          · exact lazy_trans hh (lazy_set_greens m1 _ m1.next)
          · exact lazy_trans hh (lazy_set_greens m1 _ m1.next)
    simp only
    split
    · rename_i e m1 heq
      rw [heq] at h1
      exact h1
    · rename_i u m1 heq
      rw [heq] at h1
      split
      · exact h1
      · have hh := hamiltonian_lazy m1
        split
        · rename_i e m2 heq2
          rw [heq2] at hh
          exact lazy_trans h1 hh
        · rename_i h m2 heq2
          rw [heq2] at hh
          split
          · exact lazy_trans h1 hh
          · exact lazy_trans (lazy_trans h1 hh) (lazy_set_greens m2 _ _)

theorem build_report_lazy (m : Model) : m.Lazy m.build_report.2 := by
  have h1 := system_lazy m
  unfold Model.build_report
  split
  · rename_i e m1 heq
    rw [heq] at h1
    exact h1
  · rename_i s m1 heq
    rw [heq] at h1
    have h2 := hamiltonian_lazy m1
    split
    · rename_i e m2 heq2
      rw [heq2] at h2
      exact lazy_trans h1 h2
    · rename_i h m2 heq2
      rw [heq2] at h2
      exact lazy_trans h1 h2

theorem compute_lazy (b : Bool) (m : Model) : m.Lazy (m.compute b).2 := by
  unfold Model.compute
  have h1 : m.Lazy (match m.solver_factory with
      | none => ((Except.ok () : Except Error Unit), m)
      | some _ =>
        match m.solver b with
        | (.error e, m1) => (.error e, m1)
        | (.ok _, m1) => (.ok (), m1)).2 := by
    have hs := solver_lazy b m
    split
    · exact lazy_refl m
    · split
      · rename_i e m1 heq
        rw [heq] at hs
        exact hs
      · rename_i s m1 heq
        rw [heq] at hs
        exact hs
  simp only
  split
  · rename_i e m1 heq
    rw [heq] at h1
    exact h1
  · rename_i u m1 heq
    rw [heq] at h1
    split
    · exact h1
    · have hg := greens_lazy m1
      split
      · rename_i e m2 heq2
        rw [heq2] at hg
        exact lazy_trans h1 hg
      · rename_i g m2 heq2
        rw [heq2] at hg
        exact lazy_trans h1 hg

theorem calculate_lazy (b : Bool) (m : Model) : m.Lazy (m.calculate b).2 := by
  have h1 := system_lazy m
  unfold Model.calculate
  split
  · rename_i e m1 heq
    rw [heq] at h1
    exact h1
  · rename_i s m1 heq
    rw [heq] at h1
    exact lazy_trans h1 (compute_lazy b m1)

theorem fresh_inv (k : Cartesian) : (Model.fresh k).Inv :=
  ⟨fun _ => ⟨rfl, rfl⟩, fun h hh => by simp [Model.fresh] at hh,
    by simp [Model.modifiers_unique, Model.fresh, unique_ptrs]⟩

theorem set_lattice_inv (m : Model) (l : Option (Ref Lattice)) (h : m.Inv) :
    (m.set_lattice l).2.Inv := by
  unfold Model.set_lattice
  split
  · exact h
  · split
    · exact h
    · split
      · exact h
      · split
        · exact h
        · exact ⟨fun hl => ⟨rfl, rfl⟩, fun x hx => by simp at hx, h.unique⟩

theorem set_wave_vector_inv (m : Model) (v : Cartesian) (h : m.Inv) :
    (m.set_wave_vector v).Inv := by
  unfold Model.set_wave_vector
  split
  · exact ⟨fun hl => ⟨(h.no_lattice hl).1, rfl⟩, fun x hx => by simp at hx, h.unique⟩
  · exact h

theorem set_shape_inv (m : Model) (s : Option (Ref Shape)) (h : m.Inv) :
    (m.set_shape s).Inv := by
  unfold Model.set_shape
  split
  · exact ⟨fun _ => ⟨rfl, rfl⟩, fun x hx => by simp at hx, h.unique⟩
  · exact h

theorem set_symmetry_inv (m : Model) (s : Option (Ref Symmetry)) (h : m.Inv) :
    (m.set_symmetry s).Inv := by
  unfold Model.set_symmetry
  split
  · exact ⟨fun _ => ⟨rfl, rfl⟩, fun x hx => by simp at hx, h.unique⟩
  · exact h

theorem set_solver_inv (m : Model) (f : Option (Ref SolverFactory)) (h : m.Inv) :
    (m.set_solver f).Inv := by
  unfold Model.set_solver
  split
  · exact inv_congr h rfl rfl rfl rfl rfl rfl
  · exact h

theorem set_greens_inv (m : Model) (f : Option (Ref GreensFactory)) (h : m.Inv) :
    (m.set_greens f).Inv := by
  unfold Model.set_greens
  split
  · exact inv_congr h rfl rfl rfl rfl rfl rfl
  · exact h

theorem add_site_state_modifier_inv (m : Model) (x : Ref SiteStateModifier) (h : m.Inv) :
    (m.add_site_state_modifier x).Inv := by
  have hu := unique_ptrs_add_unique m.system_modifiers.state x h.unique.1
  by_cases hc : contains_ptr m.system_modifiers.state x = true
  · have : m.add_site_state_modifier x = m := by
      simp [Model.add_site_state_modifier, add_unique_of_contains _ _ hc]
    rw [this]; exact h
  · simp only [Bool.not_eq_true] at hc
    rw [add_unique_of_not_contains _ _ hc] at hu
    simp only [Model.add_site_state_modifier, add_unique_of_not_contains _ _ hc, if_true]
    exact ⟨fun _ => ⟨rfl, rfl⟩, fun y hy => by simp at hy,
      ⟨hu, h.unique.2.1, h.unique.2.2.1, h.unique.2.2.2⟩⟩

theorem add_position_modifier_inv (m : Model) (x : Ref PositionModifier) (h : m.Inv) :
    (m.add_position_modifier x).Inv := by
  have hu := unique_ptrs_add_unique m.system_modifiers.position x h.unique.2.1
  by_cases hc : contains_ptr m.system_modifiers.position x = true
  · have : m.add_position_modifier x = m := by
      simp [Model.add_position_modifier, add_unique_of_contains _ _ hc]
    rw [this]; exact h
  · simp only [Bool.not_eq_true] at hc
    rw [add_unique_of_not_contains _ _ hc] at hu
    simp only [Model.add_position_modifier, add_unique_of_not_contains _ _ hc, if_true]
    exact ⟨fun _ => ⟨rfl, rfl⟩, fun y hy => by simp at hy,
      ⟨h.unique.1, hu, h.unique.2.2.1, h.unique.2.2.2⟩⟩

theorem add_onsite_modifier_inv (m : Model) (x : Ref OnsiteModifier) (h : m.Inv) :
    (m.add_onsite_modifier x).Inv := by
  have hu := unique_ptrs_add_unique m.hamiltonian_modifiers.onsite x h.unique.2.2.1
  by_cases hc : contains_ptr m.hamiltonian_modifiers.onsite x = true
  · have : m.add_onsite_modifier x = m := by
      simp [Model.add_onsite_modifier, add_unique_of_contains _ _ hc]
    rw [this]; exact h
  · simp only [Bool.not_eq_true] at hc
    rw [add_unique_of_not_contains _ _ hc] at hu
    simp only [Model.add_onsite_modifier, add_unique_of_not_contains _ _ hc, if_true]
    exact ⟨fun hl => ⟨(h.no_lattice hl).1, rfl⟩, fun y hy => by simp at hy,
      ⟨h.unique.1, h.unique.2.1, hu, h.unique.2.2.2⟩⟩

theorem add_hopping_modifier_inv (m : Model) (x : Ref HoppingModifier) (h : m.Inv) :
    (m.add_hopping_modifier x).Inv := by
  have hu := unique_ptrs_add_unique m.hamiltonian_modifiers.hopping x h.unique.2.2.2
  by_cases hc : contains_ptr m.hamiltonian_modifiers.hopping x = true
  · have : m.add_hopping_modifier x = m := by
      simp [Model.add_hopping_modifier, add_unique_of_contains _ _ hc]
    rw [this]; exact h
  · simp only [Bool.not_eq_true] at hc
    rw [add_unique_of_not_contains _ _ hc] at hu
    simp only [Model.add_hopping_modifier, add_unique_of_not_contains _ _ hc, if_true]
    exact ⟨fun hl => ⟨(h.no_lattice hl).1, rfl⟩, fun y hy => by simp at hy,
      ⟨h.unique.1, h.unique.2.1, h.unique.2.2.1, hu⟩⟩

theorem run_inv (m : Model) (op : Op) (h : m.Inv) : (m.run op).Inv := by
  cases op with
  | set_lattice l => exact set_lattice_inv m l h
  | set_wave_vector v => exact set_wave_vector_inv m v h
  | set_shape s => exact set_shape_inv m s h
  | set_symmetry s => exact set_symmetry_inv m s h
  | set_solver f => exact set_solver_inv m f h
  | set_greens f => exact set_greens_inv m f h
  | add_site_state_modifier x => exact add_site_state_modifier_inv m x h
  | add_position_modifier x => exact add_position_modifier_inv m x h
  | add_onsite_modifier x => exact add_onsite_modifier_inv m x h
  | add_hopping_modifier x => exact add_hopping_modifier_inv m x h
  | system => exact (system_lazy m).2 h
  | hamiltonian => exact (hamiltonian_lazy m).2 h
  | solver b => exact (solver_lazy b m).2 h
  | greens => exact (greens_lazy m).2 h
  | build_report => exact (build_report_lazy m).2 h
  | compute_report b => exact (compute_lazy b m).2 h
  | calculate b => exact (calculate_lazy b m).2 h

theorem reachable_inv {m : Model} (h : Reachable m) : m.Inv := by
  induction h with
  | fresh k => exact fresh_inv k
  | step _ op ih => exact run_inv _ op ih

theorem reachable_runs (k : Cartesian) (ops : List Op) : Reachable ((Model.fresh k).runs ops) := by
  suffices h : ∀ m, Reachable m → Reachable (m.runs ops) from h _ (Reachable.fresh k)
  induction ops with
  | nil => exact fun m hm => hm
  | cons op ops ih => exact fun m hm => ih _ (Reachable.step hm op)

/-! ## When the stages can be built -/

theorem system_ok_of_lattice (m : Model) (l : Ref Lattice) (hl : m._lattice = some l) :
    ∃ s, m.system.1 = .ok s := by
  unfold Model.system
  split
  · exact ⟨_, rfl⟩
  · simp only [hl]
    split <;> exact ⟨_, rfl⟩

theorem hamiltonian_ok_of_lattice (m : Model) (l : Ref Lattice) (hl : m._lattice = some l) :
    ∃ h, m.hamiltonian.1 = .ok h := by
  obtain ⟨s, hs⟩ := system_ok_of_lattice m l hl
  unfold Model.hamiltonian
  split
  · exact ⟨_, rfl⟩
  · split
    · rename_i e m1 heq
      rw [heq] at hs
      simp at hs
    · exact ⟨_, rfl⟩

theorem hamiltonian_scalar (m : Model) (hi : m.Inv) (h : Ref Hamiltonian)
    (hh : m.hamiltonian.1 = .ok h) : h.val.scalar = m.scalar_choice := by
  unfold Model.hamiltonian at hh
  split at hh
  · rename_i c hc
    simp only [Except.ok.injEq] at hh
    subst hh
    exact hi.scalar c hc
  · split at hh
    · simp at hh
    · simp only [Except.ok.injEq] at hh
      subst hh
      rfl

theorem hamiltonian_cached (m : Model) (c : Ref Hamiltonian) (hc : m._hamiltonian = some c) :
    m.hamiltonian = (.ok c, m) := by
  simp [Model.hamiltonian, hc]

theorem any_complex_iff (hm : HamiltonianModifiers) :
    hm.any_complex = true ↔
      (∃ x ∈ hm.onsite, x.val.is_complex = true) ∨ (∃ x ∈ hm.hopping, x.val.is_complex = true) := by
  simp [HamiltonianModifiers.any_complex]

/-- C7: in every state reachable from a freshly constructed model, `system()` and
`hamiltonian()` throw exactly when no lattice is set: without a lattice both
throw and leave the model state unchanged, so nothing is cached, and with a
lattice both return a value. -/
theorem C7_stages_fail_iff_no_lattice (m : Model) (hr : Reachable m) :
    (m._lattice = none →
      m.system = (.error .lattice_undefined, m) ∧
      m.hamiltonian = (.error .lattice_undefined, m)) ∧
    (m._lattice ≠ none → (∃ s, m.system.1 = .ok s) ∧ (∃ h, m.hamiltonian.1 = .ok h)) := by
  have hi := reachable_inv hr
  constructor
  · intro hl
    obtain ⟨h1, h2⟩ := hi.no_lattice hl
    have hs : m.system = (.error .lattice_undefined, m) := by simp [Model.system, h1, hl]
    refine ⟨hs, ?_⟩
    simp [Model.hamiltonian, h2, hs]
  · intro hl
    obtain ⟨l, hl'⟩ := Option.ne_none_iff_exists'.mp hl
    exact ⟨system_ok_of_lattice m l hl', hamiltonian_ok_of_lattice m l hl'⟩

theorem C7_stages_fail_iff_no_lattice_witness :
    ((Model.fresh k0).system = (.error .lattice_undefined, Model.fresh k0) ∧
      (Model.fresh k0).hamiltonian = (.error .lattice_undefined, Model.fresh k0)) ∧
    ((∃ s, model_full.system.1 = .ok s) ∧ (∃ h, model_full.hamiltonian.1 = .ok h)) :=
  ⟨(C7_stages_fail_iff_no_lattice (Model.fresh k0) (Reachable.fresh k0)).1 rfl,
    (C7_stages_fail_iff_no_lattice model_full (reachable_runs k0 _)).2 (by decide)⟩

/-- C9: in every state reachable from a freshly constructed model and with a
lattice set, `hamiltonian()` returns a Hamiltonian, the cached one if there is
one, whose scalar type is `std::complex<float>` if and only if some onsite or
hopping modifier now in the model is complex or a symmetry is now set, and
`float` otherwise; its precision is single in both cases. -/
theorem C9_hamiltonian_scalar_dispatch (m : Model) (hr : Reachable m)
    (hl : m._lattice ≠ none) :
    ∃ h, m.hamiltonian.1 = .ok h ∧
      (∀ c, m._hamiltonian = some c → h = c) ∧
      (h.val.scalar = .c32 ↔
        ((∃ x ∈ m.hamiltonian_modifiers.onsite, x.val.is_complex = true) ∨
          (∃ x ∈ m.hamiltonian_modifiers.hopping, x.val.is_complex = true)) ∨
        m._symmetry ≠ none) ∧
      (h.val.scalar = .c32 ∨ h.val.scalar = .f32) ∧
      h.val.scalar.is_single = true := by
  have hi := reachable_inv hr
  obtain ⟨l, hl'⟩ := Option.ne_none_iff_exists'.mp hl
  obtain ⟨h, hh⟩ := hamiltonian_ok_of_lattice m l hl'
  have hsc := hamiltonian_scalar m hi h hh
  refine ⟨h, hh, ?_, ?_, ?_, ?_⟩
  · intro c hc
    rw [hamiltonian_cached m c hc] at hh
    simpa using hh.symm
  · rw [hsc, ← any_complex_iff]
    unfold Model.scalar_choice
    cases hsym : m._symmetry <;> cases hc : m.hamiltonian_modifiers.any_complex <;> simp
  · rw [hsc]
    unfold Model.scalar_choice
    split <;> simp
  · rw [hsc]
    unfold Model.scalar_choice
    split <;> rfl

theorem C9_hamiltonian_scalar_dispatch_witness :
    Reachable model_full ∧ model_full._lattice ≠ none ∧
      ∃ h, model_full.hamiltonian.1 = .ok h ∧
        (∀ c, model_full._hamiltonian = some c → h = c) ∧
        (h.val.scalar = .c32 ↔
          ((∃ x ∈ model_full.hamiltonian_modifiers.onsite, x.val.is_complex = true) ∨
            (∃ x ∈ model_full.hamiltonian_modifiers.hopping, x.val.is_complex = true)) ∨
          model_full._symmetry ≠ none) ∧
        (h.val.scalar = .c32 ∨ h.val.scalar = .f32) ∧
        h.val.scalar.is_single = true :=
  ⟨reachable_runs k0 _, by decide,
    C9_hamiltonian_scalar_dispatch model_full (reachable_runs k0 _) (by decide)⟩

/-! ## The identities of the cached objects

In every reachable state the cached objects were constructed before now
(`reachable_ids`), which is what makes a newly built object a different one. -/

theorem ids_step {m n : Model} (h : m.ids_below_next) (hn : m.next ≤ n.next)
    (h1 : ∀ s ∈ n._system, s ∈ m._system ∨ s.addr < n.next)
    (h2 : ∀ s ∈ n._hamiltonian, s ∈ m._hamiltonian ∨ s.addr < n.next)
    (h3 : ∀ s ∈ n._solver, (∃ y ∈ m._solver, y.addr = s.addr) ∨ s.addr < n.next)
    (h4 : ∀ s ∈ n._greens, (∃ y ∈ m._greens, y.addr = s.addr) ∨ s.addr < n.next) :
    n.ids_below_next := by
  obtain ⟨a, b, c, d⟩ := h
  refine ⟨fun x hx => ?_, fun x hx => ?_, fun x hx => ?_, fun x hx => ?_⟩
  · rcases h1 x hx with h | h
    · exact Nat.lt_of_lt_of_le (a x h) hn
    · exact h
  · rcases h2 x hx with h | h
    · exact Nat.lt_of_lt_of_le (b x h) hn
    · exact h
  · rcases h3 x hx with ⟨y, hy, e⟩ | h
    · exact e ▸ Nat.lt_of_lt_of_le (c y hy) hn
    · exact h
  · rcases h4 x hx with ⟨y, hy, e⟩ | h
    · exact e ▸ Nat.lt_of_lt_of_le (d y hy) hn
    · exact h

theorem grows_refl (m : Model) : m.Grows m :=
  ⟨Nat.le_refl _, rfl, rfl, id⟩

theorem grows_trans {a b c : Model} (h1 : a.Grows b) (h2 : b.Grows c) : a.Grows c :=
  ⟨Nat.le_trans h1.1 h2.1, h2.2.1.trans h1.2.1, h2.2.2.1.trans h1.2.2.1,
    fun h => h2.2.2.2 (h1.2.2.2 h)⟩

theorem system_grows (m : Model) : m.Grows m.system.2 := by
  unfold Model.system
  split
  · exact grows_refl m
  · split
    · exact grows_refl m
    · split
      · refine ⟨by simp, rfl, rfl, fun h => ids_step h (by simp) ?_ ?_ ?_ ?_⟩ <;>
          intro x hx <;>
          first
          | exact Or.inl hx
          | exact Or.inl ⟨x, hx, rfl⟩
          | (simp at hx; subst hx; right; simp)
      · refine ⟨by simp, rfl, rfl, fun h => ids_step h (by simp) ?_ ?_ ?_ ?_⟩ <;>
          intro x hx <;>
          first
          | exact Or.inl hx
          | exact Or.inl ⟨x, hx, rfl⟩
          | (simp at hx; subst hx; right; simp)

theorem hamiltonian_grows (m : Model) : m.Grows m.hamiltonian.2 := by
  have hs := system_grows m
  unfold Model.hamiltonian
  split
  · exact grows_refl m
  · split
    · rename_i e m1 heq
      rw [heq] at hs
      exact hs
    · rename_i s m1 heq
      rw [heq] at hs
      refine grows_trans hs ⟨by simp, rfl, rfl, fun h => ids_step h (by simp) ?_ ?_ ?_ ?_⟩ <;>
        intro x hx <;>
        first
        | exact Or.inl hx
        | exact Or.inl ⟨x, hx, rfl⟩
        | (simp at hx; subst hx; right; simp)

theorem solver_rebind_ids (m : Model) :
    m.next ≤ m.solver_rebind.2.next ∧ m.solver_rebind.2._greens = m._greens ∧
      (m.ids_below_next → m.solver_rebind.2.ids_below_next) := by
  have hh := hamiltonian_grows m
  unfold Model.solver_rebind
  split
  · exact ⟨Nat.le_refl _, rfl, id⟩
  · rename_i sv hsv
    split
    · rename_i e m1 heq
      rw [heq] at hh
      exact ⟨hh.1, hh.2.2.1, hh.2.2.2⟩
    · rename_i h m1 heq
      rw [heq] at hh
      obtain ⟨g1, g2, g3, g4⟩ := hh
      simp only at g1 g2 g3 g4
      dsimp only
      split
      · refine ⟨g1, g3, fun hi => ids_step (g4 hi) (Nat.le_refl _) (fun x hx => Or.inl hx)
          (fun x hx => Or.inl hx) ?_ (fun x hx => Or.inl ⟨x, hx, rfl⟩)⟩
        intro x hx
        simp only [Option.mem_def, Option.some.injEq] at hx
        subst hx
        exact Or.inl ⟨sv, by rw [Option.mem_def, g2]; exact hsv, rfl⟩
      · refine ⟨g1, g3, fun hi => ids_step (g4 hi) (Nat.le_refl _) (fun x hx => Or.inl hx)
          (fun x hx => Or.inl hx) ?_ (fun x hx => Or.inl ⟨x, hx, rfl⟩)⟩
        intro x hx
        simp at hx

theorem solver_create_ids (m : Model) (f : Ref SolverFactory) (hi : m.ids_below_next) :
    (m.solver_create f).2.ids_below_next ∧
      ∀ s, (m.solver_create f).1 = .ok s → (m.solver_create f).2._solver = some s := by
  have hh := hamiltonian_grows m
  unfold Model.solver_create
  split
  · rename_i s hs
    exact ⟨hi, fun x hx => by simp only [Except.ok.injEq] at hx; rw [← hx]; exact hs⟩
  · split
    · rename_i e m1 heq
      rw [heq] at hh
      exact ⟨hh.2.2.2 hi, fun x hx => by simp at hx⟩
    · rename_i h m1 heq
      rw [heq] at hh
      split
      · exact ⟨hh.2.2.2 hi, fun x hx => by simp at hx⟩
      · refine ⟨ids_step (hh.2.2.2 hi) (Nat.le_succ _) (fun x hx => Or.inl hx)
          (fun x hx => Or.inl hx) ?_ (fun x hx => Or.inl ⟨x, hx, rfl⟩),
          fun x hx => by simp only [Except.ok.injEq] at hx; rw [← hx]⟩
        intro x hx
        simp only [Option.mem_def, Option.some.injEq] at hx
        subst hx
        right
        simp

theorem solver_ids (b : Bool) (m : Model) (hi : m.ids_below_next) :
    (m.solver b).2.ids_below_next := by
  unfold Model.solver
  split
  · exact hi
  · rename_i f hf
    have h1 := (solver_rebind_ids m).2.2 hi
    split
    · rename_i e m1 heq
      rw [heq] at h1
      exact h1
    · rename_i u m1 heq
      rw [heq] at h1
      obtain ⟨h2, h3⟩ := solver_create_ids m1 f h1
      split
      · rename_i e m2 heq2
        rw [heq2] at h2
        exact h2
      · rename_i s m2 heq2
        rw [heq2] at h2 h3
        have hs : m2._solver = some s := h3 s rfl
        have key : ({ m2 with _solver := some ⟨s.addr,
            { s.val with solves := s.val.solves + 1 }⟩ } : Model).ids_below_next := by
          refine ids_step h2 (Nat.le_refl _) (fun x hx => Or.inl hx) (fun x hx => Or.inl hx) ?_
            (fun x hx => Or.inl ⟨x, hx, rfl⟩)
          intro x hx
          simp only [Option.mem_def, Option.some.injEq] at hx
          subst hx
          exact Or.inl ⟨s, hs, rfl⟩
        split <;> exact key

theorem greens_ids (m : Model) (hi : m.ids_below_next) : m.greens.2.ids_below_next := by
  unfold Model.greens
  split
  · exact hi
  · rename_i f hf
    have h1 : (match m._greens with
        | none => ((Except.ok () : Except Error Unit), m)
        | some g =>
          match m.hamiltonian with
          | (.error e, m1) => (.error e, m1)
          | (.ok h, m1) =>
            let r := g.val.set_hamiltonian h
            if r.1 then (.ok (), { m1 with _greens := some ⟨g.addr, r.2⟩ })
            else (.ok (), { m1 with _greens := none })).2.ids_below_next := by
      have hh := hamiltonian_grows m
      split
      · exact hi
      · rename_i g hg
        split
        · rename_i e m1 heq
          rw [heq] at hh
          exact hh.2.2.2 hi
        · rename_i h m1 heq
          rw [heq] at hh
          obtain ⟨g1, g2, g3, g4⟩ := hh
          simp only at g1 g2 g3 g4
          dsimp only
          split
          · refine ids_step (g4 hi) (Nat.le_refl _) (fun x hx => Or.inl hx)
              (fun x hx => Or.inl hx) (fun x hx => Or.inl ⟨x, hx, rfl⟩) ?_
            intro x hx
            simp only [Option.mem_def, Option.some.injEq] at hx
            subst hx
            exact Or.inl ⟨g, by rw [Option.mem_def, g3]; exact hg, rfl⟩
          · refine ids_step (g4 hi) (Nat.le_refl _) (fun x hx => Or.inl hx)
              (fun x hx => Or.inl hx) (fun x hx => Or.inl ⟨x, hx, rfl⟩) ?_
            intro x hx
            simp at hx
    simp only
    split
    · rename_i e m1 heq
      rw [heq] at h1
      exact h1
    · rename_i u m1 heq
      rw [heq] at h1
      split
      · exact h1
      · have hh := hamiltonian_grows m1
        split
        · rename_i e m2 heq2
          rw [heq2] at hh
          exact hh.2.2.2 h1
        · rename_i h m2 heq2
          rw [heq2] at hh
          split
          · exact hh.2.2.2 h1
          · refine ids_step (hh.2.2.2 h1) (Nat.le_succ _) (fun x hx => Or.inl hx)
              (fun x hx => Or.inl hx) (fun x hx => Or.inl ⟨x, hx, rfl⟩) ?_
            intro x hx
            simp only [Option.mem_def, Option.some.injEq] at hx
            subst hx
            right
            simp

theorem build_report_ids (m : Model) (hi : m.ids_below_next) :
    m.build_report.2.ids_below_next := by
  have h1 := (system_grows m).2.2.2 hi
  unfold Model.build_report
  split
  · rename_i e m1 heq
    rw [heq] at h1
    exact h1
  · rename_i s m1 heq
    rw [heq] at h1
    have h2 := (hamiltonian_grows m1).2.2.2 h1
    split
    · rename_i e m2 heq2
      rw [heq2] at h2
      exact h2
    · rename_i h m2 heq2
      rw [heq2] at h2
      exact h2

theorem compute_ids (b : Bool) (m : Model) (hi : m.ids_below_next) :
    (m.compute b).2.ids_below_next := by
  unfold Model.compute
  have h1 : (match m.solver_factory with
      | none => ((Except.ok () : Except Error Unit), m)
      | some _ =>
        match m.solver b with
        | (.error e, m1) => (.error e, m1)
        | (.ok _, m1) => (.ok (), m1)).2.ids_below_next := by
    have hs := solver_ids b m hi
    split
    · exact hi
    · split
      · rename_i e m1 heq
        rw [heq] at hs
        exact hs
      · rename_i s m1 heq
        rw [heq] at hs
        exact hs
  simp only
  split
  · rename_i e m1 heq
    rw [heq] at h1
    exact h1
  · rename_i u m1 heq
    rw [heq] at h1
    split
    · exact h1
    · have hg := greens_ids m1 h1
      split
      · rename_i e m2 heq2
        rw [heq2] at hg
        exact hg
      · rename_i g m2 heq2
        rw [heq2] at hg
        exact hg

theorem calculate_ids (b : Bool) (m : Model) (hi : m.ids_below_next) :
    (m.calculate b).2.ids_below_next := by
  have h1 := (system_grows m).2.2.2 hi
  unfold Model.calculate
  split
  · rename_i e m1 heq
    rw [heq] at h1
    exact h1
  · rename_i s m1 heq
    rw [heq] at h1
    exact compute_ids b m1 h1

theorem ids_drop (m : Model) (s : Option (Ref System)) (h : Option (Ref Hamiltonian))
    (sv : Option (Ref Solver)) (g : Option (Ref Greens)) (hi : m.ids_below_next)
    (h1 : s = none ∨ s = m._system) (h2 : h = none ∨ h = m._hamiltonian)
    (h3 : sv = none ∨ sv = m._solver) (h4 : g = none ∨ g = m._greens) (n : Model)
    (e1 : n._system = s) (e2 : n._hamiltonian = h) (e3 : n._solver = sv) (e4 : n._greens = g)
    (e5 : n.next = m.next) : n.ids_below_next := by
  obtain ⟨a, b, c, d⟩ := hi
  refine ⟨fun x hx => ?_, fun x hx => ?_, fun x hx => ?_, fun x hx => ?_⟩
  · rw [e5]
    rw [Option.mem_def, e1] at hx
    rcases h1 with h | h
    · simp [h] at hx
    · exact a x (by rw [Option.mem_def, ← h]; exact hx)
  · rw [e5]
    rw [Option.mem_def, e2] at hx
    rcases h2 with h | h
    · simp [h] at hx
    · exact b x (by rw [Option.mem_def, ← h]; exact hx)
  · rw [e5]
    rw [Option.mem_def, e3] at hx
    rcases h3 with h | h
    · simp [h] at hx
    · exact c x (by rw [Option.mem_def, ← h]; exact hx)
  · rw [e5]
    rw [Option.mem_def, e4] at hx
    rcases h4 with h | h
    · simp [h] at hx
    · exact d x (by rw [Option.mem_def, ← h]; exact hx)

theorem run_ids (m : Model) (op : Op) (hi : m.ids_below_next) : (m.run op).ids_below_next := by
  cases op with
  | set_lattice l =>
    simp only [Model.run, Model.set_lattice]
    split
    · exact hi
    · split
      · exact hi
      · split
        · exact hi
        · split
          · exact hi
          · exact ids_drop m none none m._solver m._greens hi (.inl rfl) (.inl rfl) (.inr rfl)
              (.inr rfl) _ rfl rfl rfl rfl rfl
  | set_wave_vector v =>
    simp only [Model.run, Model.set_wave_vector]
    split
    · exact ids_drop m m._system none m._solver m._greens hi (.inr rfl) (.inl rfl) (.inr rfl)
        (.inr rfl) _ rfl rfl rfl rfl rfl
    · exact hi
  | set_shape s =>
    simp only [Model.run, Model.set_shape]
    split
    · exact ids_drop m none none m._solver m._greens hi (.inl rfl) (.inl rfl) (.inr rfl)
        (.inr rfl) _ rfl rfl rfl rfl rfl
    · exact hi
  | set_symmetry s =>
    simp only [Model.run, Model.set_symmetry]
    split
    · exact ids_drop m none none m._solver m._greens hi (.inl rfl) (.inl rfl) (.inr rfl)
        (.inr rfl) _ rfl rfl rfl rfl rfl
    · exact hi
  | set_solver f =>
    simp only [Model.run, Model.set_solver]
    split
    · exact ids_drop m m._system m._hamiltonian none m._greens hi (.inr rfl) (.inr rfl)
        (.inl rfl) (.inr rfl) _ rfl rfl rfl rfl rfl
    · exact hi
  | set_greens f =>
    simp only [Model.run, Model.set_greens]
    split
    · exact ids_drop m m._system m._hamiltonian m._solver none hi (.inr rfl) (.inr rfl)
        (.inr rfl) (.inl rfl) _ rfl rfl rfl rfl rfl
    · exact hi
  | add_site_state_modifier x =>
    simp only [Model.run, Model.add_site_state_modifier]
    split
    · exact ids_drop m none none m._solver m._greens hi (.inl rfl) (.inl rfl) (.inr rfl)
        (.inr rfl) _ rfl rfl rfl rfl rfl
    · exact ids_drop m m._system m._hamiltonian m._solver m._greens hi (.inr rfl) (.inr rfl)
        (.inr rfl) (.inr rfl) _ rfl rfl rfl rfl rfl
  | add_position_modifier x =>
    simp only [Model.run, Model.add_position_modifier]
    split
    · exact ids_drop m none none m._solver m._greens hi (.inl rfl) (.inl rfl) (.inr rfl)
        (.inr rfl) _ rfl rfl rfl rfl rfl
    · exact ids_drop m m._system m._hamiltonian m._solver m._greens hi (.inr rfl) (.inr rfl)
        (.inr rfl) (.inr rfl) _ rfl rfl rfl rfl rfl
  | add_onsite_modifier x =>
    simp only [Model.run, Model.add_onsite_modifier]
    split
    · exact ids_drop m m._system none m._solver m._greens hi (.inr rfl) (.inl rfl) (.inr rfl)
        (.inr rfl) _ rfl rfl rfl rfl rfl
    · exact ids_drop m m._system m._hamiltonian m._solver m._greens hi (.inr rfl) (.inr rfl)
        (.inr rfl) (.inr rfl) _ rfl rfl rfl rfl rfl
  | add_hopping_modifier x =>
    simp only [Model.run, Model.add_hopping_modifier]
    split
    · exact ids_drop m m._system none m._solver m._greens hi (.inr rfl) (.inl rfl) (.inr rfl)
        (.inr rfl) _ rfl rfl rfl rfl rfl
    · exact ids_drop m m._system m._hamiltonian m._solver m._greens hi (.inr rfl) (.inr rfl)
        (.inr rfl) (.inr rfl) _ rfl rfl rfl rfl rfl
  | system => exact (system_grows m).2.2.2 hi
  | hamiltonian => exact (hamiltonian_grows m).2.2.2 hi
  | solver b => exact solver_ids b m hi
  | greens => exact greens_ids m hi
  | build_report => exact build_report_ids m hi
  | compute_report b => exact compute_ids b m hi
  | calculate b => exact calculate_ids b m hi

theorem reachable_ids {m : Model} (h : Reachable m) : m.ids_below_next := by
  induction h with
  | fresh k => refine ⟨?_, ?_, ?_, ?_⟩ <;> intro x hx <;> simp [Model.fresh] at hx
  | step _ op ih => exact run_ids _ op ih

/-! ## Changing the lattice -/

theorem system_build (m : Model) (l : Ref Lattice) (hs : m._system = none)
    (hl : m._lattice = some l) :
    ∃ s sh k, m.system = (.ok s, { m with _shape := some sh, _system := some s, next := k }) ∧
      m.next ≤ s.addr ∧ s.addr < k ∧ s.val.lattice = l := by
  cases hsh : m._shape with
  | none =>
    refine ⟨⟨m.next + 1, ⟨l, ⟨m.next, Shape.Primitive⟩, m._symmetry, m.system_modifiers⟩⟩,
      ⟨m.next, Shape.Primitive⟩, m.next + 2, ?_⟩
    simp [Model.system, hs, hl, hsh]
  | some sh =>
    refine ⟨⟨m.next, ⟨l, sh, m._symmetry, m.system_modifiers⟩⟩, sh, m.next + 1, ?_⟩
    simp [Model.system, hs, hl, hsh]

theorem hamiltonian_build (m : Model) (l : Ref Lattice) (hs : m._system = none)
    (hh : m._hamiltonian = none) (hl : m._lattice = some l) :
    ∃ s sh h k, m.hamiltonian =
        (.ok h, { m with _shape := some sh, _system := some s, _hamiltonian := some h,
                         next := k }) ∧
      m.next ≤ s.addr ∧ s.addr < h.addr ∧ h.addr < k ∧ h.val.scalar = m.scalar_choice ∧
      h.val.system = s ∧ s.val.lattice = l := by
  obtain ⟨s, sh, k, he, h1, h2, h3⟩ := system_build m l hs hl
  refine ⟨s, sh, ⟨k, ⟨m.scalar_choice, s, m.hamiltonian_modifiers, m.wave_vector⟩⟩, k + 1, ?_⟩
  simp [Model.hamiltonian, hh, he, h1, h2, h3]

theorem set_lattice_changed (m : Model) (l : Ref Lattice)
    (hne : ptr_eq m._lattice (some l) = false)
    (h1 : 1 ≤ l.val.sublattices) (h2 : 1 ≤ l.val.vectors) :
    m.set_lattice (some l) =
      (.ok (), { m with _lattice := some l, _system := none, _hamiltonian := none }) := by
  have h1' : ¬ l.val.sublattices < 1 := by omega
  have h2' : ¬ l.val.vectors < 1 := by omega
  simp [Model.set_lattice, hne, h1', h2']

theorem stages_after_drop (m : Model) (l : Ref Lattice) (hs : m._system = none)
    (hh : m._hamiltonian = none) (hl : m._lattice = some l) :
    ∃ h', m.hamiltonian.1 = .ok h' ∧ m.next ≤ h'.addr ∧ h'.val.scalar = m.scalar_choice ∧
      h'.val.system.val.lattice = l ∧
      (∀ f sv, m.solver_factory = some f → m._solver = some sv →
        (sv.val.scalar = m.scalar_choice →
          (m.solver true).1 = .ok ⟨sv.addr, ⟨sv.val.scalar, h', sv.val.solves + 1⟩⟩) ∧
        (sv.val.scalar ≠ m.scalar_choice → m.scalar_choice ∈ f.val.supported →
          ∃ s', (m.solver true).1 = .ok s' ∧ m.next ≤ s'.addr)) ∧
      (∀ gf g, m.greens_factory = some gf → m._greens = some g →
        (g.val.scalar = m.scalar_choice →
          m.greens.1 = .ok ⟨g.addr, ⟨g.val.scalar, h'⟩⟩) ∧
        (g.val.scalar ≠ m.scalar_choice → m.scalar_choice ∈ gf.val.supported →
          ∃ g', m.greens.1 = .ok g' ∧ m.next ≤ g'.addr)) := by
  obtain ⟨s', sh, h', k, he, b1, b2, b3, b4, b5, b6⟩ := hamiltonian_build m l hs hh hl
  obtain ⟨m2, hm2⟩ : ∃ m2 : Model, m2 =
      { m with _shape := some sh, _system := some s', _hamiltonian := some h', next := k } :=
    ⟨_, rfl⟩
  rw [← hm2] at he
  have hk : m2.next = k := by rw [hm2]
  have hc1 := hamiltonian_cached { m2 with _solver := none } h' (by rw [hm2])
  have hc2 := hamiltonian_cached { m2 with _greens := none } h' (by rw [hm2])
  refine ⟨h', by rw [he], by omega, b4, by rw [b5]; exact b6, ?_, ?_⟩
  · intro f sv hf hsv
    constructor
    · intro hty
      simp [Model.solver, Model.solver_rebind, Model.solver_create, hf, hsv, he,
        Solver.set_hamiltonian, b4, hty]
    · intro hty hsup
      have hty' : ¬ m.scalar_choice = sv.val.scalar := fun e => hty e.symm
      refine ⟨⟨m2.next, ⟨h'.val.scalar, h', 1⟩⟩, ?_, ?_⟩
      · simp [Model.solver, Model.solver_rebind, Model.solver_create, hf, hsv, he,
          Solver.set_hamiltonian, b4, hty', hc1, SolverFactory.create_for, hsup]
      · simp only
        omega
  · intro gf g hgf hg
    constructor
    · intro hty
      simp [Model.greens, hgf, hg, he, Greens.set_hamiltonian, b4, hty]
    · intro hty hsup
      have hty' : ¬ m.scalar_choice = g.val.scalar := fun e => hty e.symm
      refine ⟨⟨m2.next, ⟨h'.val.scalar, h'⟩⟩, ?_, ?_⟩
      · simp [Model.greens, hgf, hg, he, Greens.set_hamiltonian, b4, hty', hc2,
          GreensFactory.create_for, hsup]
      · simp only
        omega

/-- C4, as stated, fails: in a model with all four stages cached, after the
lattice is changed to another valid lattice the next `solver()` returns the
Solver object that was cached before the change, and the next `greens()` the
Greens object that was cached before the change. -/
theorem C4_solver_and_greens_survive_lattice_change :
    model_full._system.isSome = true ∧ model_full._hamiltonian.isSome = true ∧
      model_full._solver.map Ref.addr = some 3 ∧ model_full._greens.map Ref.addr = some 4 ∧
      ptr_eq model_full._lattice (some lattice_b) = false ∧
      (model_full.set_lattice (some lattice_b)).1 = .ok () ∧
      (((model_full.set_lattice (some lattice_b)).2.solver true).1.toOption.map Ref.addr
        = some 3) ∧
      ((model_full.set_lattice (some lattice_b)).2.greens.1.toOption.map Ref.addr
        = some 4) :=
  ⟨by decide, by decide, by decide, by decide, by decide, rfl, by decide, by decide⟩

/-- C4, amended: in a model with all four stages cached, changing the lattice to
a valid lattice that is not the held one drops the cached Structure and the
cached Hamiltonian and nothing else, so the next `system()` and `hamiltonian()`
each return a newly built object, built from the new lattice. The cached Solver
and Greens objects are kept: the next `solver()` (when its solve step returns)
and the next `greens()` return the object cached before the change, rebound to
the new Hamiltonian, if its scalar type is the one of the new Hamiltonian, and a
newly created object if it is not and the factory has one for that type. -/
theorem C4_lattice_change_drops_structure_and_hamiltonian (m : Model) (l : Ref Lattice)
    (s : Ref System) (h : Ref Hamiltonian) (sv : Ref Solver) (g : Ref Greens)
    (f : Ref SolverFactory) (gf : Ref GreensFactory)
    (hs : m._system = some s) (hh : m._hamiltonian = some h)
    (hsv : m._solver = some sv) (hg : m._greens = some g)
    (hf : m.solver_factory = some f) (hgf : m.greens_factory = some gf)
    (hids : m.ids_below_next)
    (hne : ptr_eq m._lattice (some l) = false)
    (h1 : 1 ≤ l.val.sublattices) (h2 : 1 ≤ l.val.vectors) :
    m.set_lattice (some l) =
        (.ok (), { m with _lattice := some l, _system := none, _hamiltonian := none }) ∧
      (∃ s', (m.set_lattice (some l)).2.system.1 = .ok s' ∧ s'.addr ≠ s.addr ∧
        s'.val.lattice = l) ∧
      (∃ h', (m.set_lattice (some l)).2.hamiltonian.1 = .ok h' ∧ h'.addr ≠ h.addr ∧
        h'.val.scalar = m.scalar_choice ∧ h'.val.system.val.lattice = l ∧
        (sv.val.scalar = m.scalar_choice →
          ((m.set_lattice (some l)).2.solver true).1 =
            .ok ⟨sv.addr, ⟨sv.val.scalar, h', sv.val.solves + 1⟩⟩) ∧
        (sv.val.scalar ≠ m.scalar_choice → m.scalar_choice ∈ f.val.supported →
          ∃ s', ((m.set_lattice (some l)).2.solver true).1 = .ok s' ∧ s'.addr ≠ sv.addr) ∧
        (g.val.scalar = m.scalar_choice →
          (m.set_lattice (some l)).2.greens.1 = .ok ⟨g.addr, ⟨g.val.scalar, h'⟩⟩) ∧
        (g.val.scalar ≠ m.scalar_choice → m.scalar_choice ∈ gf.val.supported →
          ∃ g', (m.set_lattice (some l)).2.greens.1 = .ok g' ∧ g'.addr ≠ g.addr)) := by
  obtain ⟨i1, i2, i3, i4⟩ := hids
  have i1 := i1 s hs
  have i2 := i2 h hh
  have i3 := i3 sv hsv
  have i4 := i4 g hg
  have hset := set_lattice_changed m l hne h1 h2
  rw [hset]
  refine ⟨rfl, ?_, ?_⟩
  · obtain ⟨s', sh, k, he, b1, b2, b3⟩ := system_build
      { m with _lattice := some l, _system := none, _hamiltonian := none } l rfl rfl
    refine ⟨s', by rw [he], ?_, b3⟩
    simp only at b1
    omega
  · obtain ⟨h', c1, c2, c3, c4, c5, c6⟩ := stages_after_drop
      { m with _lattice := some l, _system := none, _hamiltonian := none } l rfl rfl rfl
    simp only at c2
    obtain ⟨d1, d2⟩ := c5 f sv hf hsv
    obtain ⟨e1, e2⟩ := c6 gf g hgf hg
    refine ⟨h', c1, by omega, c3, c4, d1, ?_, e1, ?_⟩
    · intro hty hsup
      obtain ⟨s', p1, p2⟩ := d2 hty hsup
      simp only at p2
      exact ⟨s', p1, by omega⟩
    · intro hty hsup
      obtain ⟨g', p1, p2⟩ := e2 hty hsup
      simp only at p2
      exact ⟨g', p1, by omega⟩

theorem C4_lattice_change_drops_structure_and_hamiltonian_witness :
    Reachable model_full ∧ model_full.ids_below_next ∧
      ptr_eq model_full._lattice (some lattice_b) = false ∧
      (∃ s', (model_full.set_lattice (some lattice_b)).2.system.1 = .ok s' ∧ s'.addr ≠ 1 ∧
        s'.val.lattice = lattice_b) :=
  ⟨reachable_runs k0 _, by decide, by decide,
    (C4_lattice_change_drops_structure_and_hamiltonian model_full lattice_b
      ⟨1, ⟨lattice_a, ⟨0, Shape.Primitive⟩, none, ⟨[], []⟩⟩⟩ _ _ _ factory_a gfactory_a
      rfl rfl rfl rfl rfl rfl (by decide) (by decide) (by decide) (by decide)).2.1⟩


/-! ## Reusing the solver -/

theorem hamiltonian_holds (m m1 : Model) (h : Ref Hamiltonian)
    (hh : m.hamiltonian = (.ok h, m1)) : m1._hamiltonian = some h := by
  unfold Model.hamiltonian at hh
  split at hh
  · rename_i c hc
    simp only [Prod.mk.injEq, Except.ok.injEq] at hh
    rw [← hh.2, ← hh.1]
    exact hc
  · split at hh
    · simp at hh
    · simp only [Prod.mk.injEq, Except.ok.injEq] at hh
      rw [← hh.2, ← hh.1]

/-- C11: in a model with a solver factory and a cached Solver, where
`hamiltonian()` returns the Hamiltonian `h`, the call `solver()` keeps the
cached Solver object if its scalar type is the one of `h`: the object is rebound
to `h`, no new object is constructed, and `solve()` is called on it once. If the
scalar types differ and the factory has a solver for the type of `h`, the model
holds a Solver newly created by the factory, on which `solve()` was called
once. In both cases that Solver is what `solver()` returns when `solve()`
returns. -/
theorem C11_solver_reused_or_recreated (m m1 : Model) (f : Ref SolverFactory)
    (sv : Ref Solver) (h : Ref Hamiltonian)
    (hf : m.solver_factory = some f) (hsv : m._solver = some sv)
    (hh : m.hamiltonian = (.ok h, m1)) :
    (h.val.scalar = sv.val.scalar → ∀ b,
      (m.solver b).2._solver = some ⟨sv.addr, ⟨sv.val.scalar, h, sv.val.solves + 1⟩⟩ ∧
      (m.solver b).2.next = m1.next ∧
      (m.solver true).1 = .ok ⟨sv.addr, ⟨sv.val.scalar, h, sv.val.solves + 1⟩⟩) ∧
    (h.val.scalar ≠ sv.val.scalar → h.val.scalar ∈ f.val.supported → ∀ b,
      (m.solver b).2._solver = some ⟨m1.next, ⟨h.val.scalar, h, 1⟩⟩ ∧
      (m.solver b).2.next = m1.next + 1 ∧
      (m.solver true).1 = .ok ⟨m1.next, ⟨h.val.scalar, h, 1⟩⟩ ∧
      (m.ids_below_next → m1.next ≠ sv.addr)) := by
  have hg := hamiltonian_grows m
  have hc := hamiltonian_holds m m1 h hh
  rw [hh] at hg
  obtain ⟨g1, g2, g3, g4⟩ := hg
  simp only at g1 g2 g3 g4
  have hc1 := hamiltonian_cached { m1 with _solver := none } h hc
  constructor
  · intro hty b
    cases b <;>
      simp [Model.solver, Model.solver_rebind, Model.solver_create, hf, hsv, hh,
        Solver.set_hamiltonian, hty]
  · intro hty hsup b
    refine ⟨?_, ?_, ?_, ?_⟩
    · cases b <;>
        simp [Model.solver, Model.solver_rebind, Model.solver_create, hf, hsv, hh,
          Solver.set_hamiltonian, hty, hc1, SolverFactory.create_for, hsup]
    · cases b <;>
        simp [Model.solver, Model.solver_rebind, Model.solver_create, hf, hsv, hh,
          Solver.set_hamiltonian, hty, hc1, SolverFactory.create_for, hsup]
    · simp [Model.solver, Model.solver_rebind, Model.solver_create, hf, hsv, hh,
        Solver.set_hamiltonian, hty, hc1, SolverFactory.create_for, hsup]
    · intro hi
      have := hi.2.2.1 sv hsv
      omega

theorem C11_solver_reused_or_recreated_witness :
    (∃ h, model_full._hamiltonian = some h ∧
      (model_full.solver true).1 = .ok ⟨3, ⟨.f32, h, 2⟩⟩) ∧
    (∃ h, (model_full.add_hopping_modifier hopping_a).hamiltonian.1 = .ok h ∧
      h.val.scalar = .c32 ∧
      ((model_full.add_hopping_modifier hopping_a).solver true).1 = .ok ⟨6, ⟨.c32, h, 1⟩⟩) :=
  ⟨⟨_, rfl, ((C11_solver_reused_or_recreated model_full model_full factory_a _ _ rfl rfl
      rfl).1 rfl true).2.2⟩,
    ⟨_, rfl, rfl, ((C11_solver_reused_or_recreated (model_full.add_hopping_modifier hopping_a)
      _ factory_a _ _ rfl rfl rfl).2 (by decide) (by decide) true).2.2.1⟩⟩

/-! ## The FEAST factory -/

/-- C12: for a Hamiltonian whose scalar type is `float`, `std::complex<float>` or
`double`, `FEASTFactory::create_for` returns a solver of that scalar type, bound
to that Hamiltonian, with the energy window, subspace size, recycle flag and
advanced parameters of the factory; it throws if and only if the scalar type
is none of the three, which leaves `std::complex<double>`. -/
theorem C12_create_for_matches_scalar_type (f : FEASTFactory) (init : FEAST)
    (h : Ref Hamiltonian) :
    (h.val.scalar = .f32 ∨ h.val.scalar = .c32 ∨ h.val.scalar = .f64 →
      ∃ s, f.create_for init h = .ok s ∧ s.scalar = h.val.scalar ∧
        s.hamiltonian = some h ∧
        s.params.energy_min = f.energy_min ∧ s.params.energy_max = f.energy_max ∧
        s.params.initial_size_guess = f.subspace_size ∧
        s.params.recycled_subspace = f.recycle_subspace ∧
        s.params.is_verbose = f.is_verbose ∧
        s.params.contour_points = f.params.contour_points ∧
        s.params.max_refinement_loops = f.params.max_refinement_loops ∧
        s.params.sp_stop_criteria = f.params.sp_stop_criteria ∧
        s.params.dp_stop_criteria = f.params.dp_stop_criteria ∧
        s.params.residual_convergence = f.params.residual_convergence ∧
        s._eigenvalues = 0 ∧ s.calls = []) ∧
    ((∃ e, f.create_for init h = .error e) ↔
      ¬ (h.val.scalar = .f32 ∨ h.val.scalar = .c32 ∨ h.val.scalar = .f64)) ∧
    ((∃ e, f.create_for init h = .error e) ↔ h.val.scalar = .c64) := by
  cases hs : h.val.scalar <;> cases hr : f.recycle_subspace <;>
    simp [FEASTFactory.create_for, FEASTFactory.try_create_for, FEAST.construct,
      FEAST.set_hamiltonian, FEAST.clear, FEAST.force_clear, hs, hr]

theorem C12_create_for_matches_scalar_type_witness :
    (∃ s, feast_factory.create_for feast_a ⟨2, ⟨.f32, ⟨1, ⟨lattice_a, ⟨0, Shape.Primitive⟩,
        none, ⟨[], []⟩⟩⟩, ⟨[], []⟩, k0⟩⟩ = .ok s ∧ s.scalar = .f32 ∧
        s.params.initial_size_guess = 5 ∧ s.params.max_refinement_loops = 20) ∧
    (∃ e, feast_factory.create_for feast_a ⟨2, ⟨.c64, ⟨1, ⟨lattice_a, ⟨0, Shape.Primitive⟩,
        none, ⟨[], []⟩⟩⟩, ⟨[], []⟩, k0⟩⟩ = .error e) :=
  ⟨by
    obtain ⟨s, h1, h2, _, _, _, h3, _, _, _, h4, _⟩ :=
      (C12_create_for_matches_scalar_type feast_factory feast_a ⟨2, ⟨.f32, ⟨1, ⟨lattice_a,
        ⟨0, Shape.Primitive⟩, none, ⟨[], []⟩⟩⟩, ⟨[], []⟩, k0⟩⟩).1 (Or.inl rfl)
    exact ⟨s, h1, h2, h3, h4⟩,
   (C12_create_for_matches_scalar_type feast_factory feast_a ⟨2, ⟨.c64, ⟨1, ⟨lattice_a,
      ⟨0, Shape.Primitive⟩, none, ⟨[], []⟩⟩⟩, ⟨[], []⟩, k0⟩⟩).2.2.mpr rfl⟩

/-! ## One call of the external routine -/

theorem prepare_eigenvalues_params (s : FEAST) :
    s.prepare_eigenvalues.params = { s.params with initial_size_guess := s.next_guess } := by
  unfold FEAST.prepare_eigenvalues FEAST.next_guess
  split <;> rfl

theorem prepare_eigenvalues_info (s : FEAST) :
    s.prepare_eigenvalues.info = { s.info with suggested_size := s.next_suggested } := by
  unfold FEAST.prepare_eigenvalues FEAST.next_suggested
  split <;> rfl

theorem prepare_eigenvalues_rest (s : FEAST) :
    s.prepare_eigenvalues.scalar = s.scalar ∧ s.prepare_eigenvalues.hamiltonian = s.hamiltonian ∧
      s.prepare_eigenvalues.fpm = s.fpm ∧ s.prepare_eigenvalues.calls = s.calls ∧
      s.prepare_eigenvalues.is_solved = s.is_solved ∧
      s.prepare_eigenvalues._eigenvectors = s._eigenvectors ∧
      s.prepare_eigenvalues.residual = s.residual := by
  unfold FEAST.prepare_eigenvalues
  split <;> exact ⟨rfl, rfl, rfl, rfl, rfl, rfl, rfl⟩

theorem prepare_residual_rest (s : FEAST) :
    s.prepare_residual.scalar = s.scalar ∧ s.prepare_residual.hamiltonian = s.hamiltonian ∧
      s.prepare_residual.fpm = s.fpm ∧ s.prepare_residual.calls = s.calls ∧
      s.prepare_residual.is_solved = s.is_solved ∧
      s.prepare_residual._eigenvectors = s._eigenvectors ∧
      s.prepare_residual._eigenvalues = s._eigenvalues ∧
      s.prepare_residual.params = s.params ∧ s.prepare_residual.info = s.info := by
  unfold FEAST.prepare_residual
  split <;> exact ⟨rfl, rfl, rfl, rfl, rfl, rfl, rfl, rfl, rfl⟩

theorem prepare_eigenvectors_rest (s : FEAST) :
    s.prepare_eigenvectors.scalar = s.scalar ∧
      s.prepare_eigenvectors.hamiltonian = s.hamiltonian ∧
      s.prepare_eigenvectors.fpm = s.fpm ∧ s.prepare_eigenvectors.calls = s.calls ∧
      s.prepare_eigenvectors.is_solved = s.is_solved ∧
      s.prepare_eigenvectors.residual = s.residual ∧
      s.prepare_eigenvectors._eigenvalues = s._eigenvalues ∧
      s.prepare_eigenvectors.params = s.params ∧ s.prepare_eigenvectors.info = s.info := by
  unfold FEAST.prepare_eigenvectors
  split <;> exact ⟨rfl, rfl, rfl, rfl, rfl, rfl, rfl, rfl, rfl⟩

theorem call_feast_params (s : FEAST) (out : FeastOutput) :
    (s.call_feast out).params = { s.params with initial_size_guess := s.next_guess } := by
  have h1 := prepare_eigenvalues_params s.init_feast
  have h2 := (prepare_residual_rest s.init_feast.prepare_eigenvalues).2.2.2.2.2.2.2.1
  have h3 :=
    (prepare_eigenvectors_rest s.init_feast.prepare_eigenvalues.prepare_residual).2.2.2.2.2.2.2.1
  unfold FEAST.call_feast FEAST.call_feast_impl
  split
  · show s.init_feast.prepare_eigenvalues.prepare_residual.prepare_eigenvectors.params = _
    rw [h3, h2, h1]; rfl
  · rw [h3, h2, h1]; rfl

theorem call_feast_scalar (s : FEAST) (out : FeastOutput) :
    (s.call_feast out).scalar = s.scalar := by
  have h1 := (prepare_eigenvalues_rest s.init_feast).1
  have h2 := (prepare_residual_rest s.init_feast.prepare_eigenvalues).1
  have h3 := (prepare_eigenvectors_rest s.init_feast.prepare_eigenvalues.prepare_residual).1
  unfold FEAST.call_feast FEAST.call_feast_impl
  split
  · show s.init_feast.prepare_eigenvalues.prepare_residual.prepare_eigenvectors.scalar = _
    rw [h3, h2, h1]; rfl
  · rw [h3, h2, h1]; rfl

theorem call_feast_routine (s : FEAST) (hr : s.has_routine) :
    s.init_feast.prepare_eigenvalues.prepare_residual.prepare_eigenvectors.has_routine := by
  have h1 := (prepare_eigenvalues_rest s.init_feast).1
  have h2 := (prepare_residual_rest s.init_feast.prepare_eigenvalues).1
  have h3 := (prepare_eigenvectors_rest s.init_feast.prepare_eigenvalues.prepare_residual).1
  unfold FEAST.has_routine
  rw [h3, h2, h1]
  exact hr

theorem call_feast_info (s : FEAST) (out : FeastOutput) (hr : s.has_routine) :
    (s.call_feast out).info =
      { recycle_warning := s.info.recycle_warning,
        recycle_warning_loops := s.info.recycle_warning_loops,
        size_warning := s.info.size_warning,
        refinement_loops := out.refinement_loops, return_code := out.return_code,
        suggested_size := out.suggested_size, final_size := out.final_size } := by
  have i1 := prepare_eigenvalues_info s.init_feast
  have i2 := (prepare_residual_rest s.init_feast.prepare_eigenvalues).2.2.2.2.2.2.2.2
  have i3 :=
    (prepare_eigenvectors_rest s.init_feast.prepare_eigenvalues.prepare_residual).2.2.2.2.2.2.2.2
  unfold FEAST.call_feast FEAST.call_feast_impl
  rw [if_pos (call_feast_routine s hr)]
  show ({ s.init_feast.prepare_eigenvalues.prepare_residual.prepare_eigenvectors.info with
    refinement_loops := out.refinement_loops, suggested_size := out.suggested_size,
    final_size := out.final_size, return_code := out.return_code } : FEASTInfo) = _
  rw [i3, i2, i1]
  rfl

theorem call_feast_calls (s : FEAST) (out : FeastOutput) (hr : s.has_routine) :
    ∃ c, (s.call_feast out).calls = s.calls ++ [c] ∧ c.output = out ∧
      c.suggested_size = s.next_suggested ∧ c.system_size = s.params.system_size := by
  have i1 := prepare_eigenvalues_info s.init_feast
  have i2 := (prepare_residual_rest s.init_feast.prepare_eigenvalues).2.2.2.2.2.2.2.2
  have i3 :=
    (prepare_eigenvectors_rest s.init_feast.prepare_eigenvalues.prepare_residual).2.2.2.2.2.2.2.2
  have p1 := prepare_eigenvalues_params s.init_feast
  have p2 := (prepare_residual_rest s.init_feast.prepare_eigenvalues).2.2.2.2.2.2.2.1
  have p3 :=
    (prepare_eigenvectors_rest s.init_feast.prepare_eigenvalues.prepare_residual).2.2.2.2.2.2.2.1
  have c1 := (prepare_eigenvalues_rest s.init_feast).2.2.2.1
  have c2 := (prepare_residual_rest s.init_feast.prepare_eigenvalues).2.2.2.1
  have c3 := (prepare_eigenvectors_rest s.init_feast.prepare_eigenvalues.prepare_residual).2.2.2.1
  refine ⟨s.init_feast.prepare_eigenvalues.prepare_residual.prepare_eigenvectors.call_record out,
    ?_, rfl, ?_, ?_⟩
  · unfold FEAST.call_feast FEAST.call_feast_impl
    rw [if_pos (call_feast_routine s hr)]
    show s.init_feast.prepare_eigenvalues.prepare_residual.prepare_eigenvectors.calls ++ _ = _
    rw [c3, c2, c1]
    rfl
  · show s.init_feast.prepare_eigenvalues.prepare_residual.prepare_eigenvectors.info.suggested_size
      = _
    rw [i3, i2, i1]
    rfl
  · show s.init_feast.prepare_eigenvalues.prepare_residual.prepare_eigenvectors.params.system_size
      = _
    rw [p3, p2, p1]
    rfl

/-! ## What every run of the loops keeps -/

theorem same_setup_refl (s : FEAST) : s.same_setup s :=
  ⟨rfl, rfl, rfl, rfl⟩

theorem same_setup_trans {a b c : FEAST} (h1 : a.same_setup b) (h2 : b.same_setup c) :
    a.same_setup c :=
  ⟨h2.1.trans h1.1, h2.2.1.trans h1.2.1, h2.2.2.1.trans h1.2.2.1, h2.2.2.2.trans h1.2.2.2⟩

theorem has_routine_of_setup {s t : FEAST} (h : s.same_setup t) (hr : s.has_routine) :
    t.has_routine := by
  unfold FEAST.has_routine
  rw [h.1]
  exact hr

theorem call_feast_setup (s : FEAST) (out : FeastOutput) : s.same_setup (s.call_feast out) := by
  refine ⟨call_feast_scalar s out, ?_, ?_, ?_⟩ <;> rw [call_feast_params]

theorem call_feast_synced (s : FEAST) (out : FeastOutput) (hr : s.has_routine) :
    (s.call_feast out).synced := by
  obtain ⟨c, hc, ho, -, -⟩ := call_feast_calls s out hr
  unfold FEAST.synced FEAST.last_return_code
  rw [hc, call_feast_info s out hr]
  simp [ho]

theorem call_feast_outputs (s : FEAST) (out : FeastOutput) (hr : s.has_routine) :
    (s.call_feast out).calls.map (fun c => c.output) =
      s.calls.map (fun c => c.output) ++ [out] := by
  obtain ⟨c, hc, ho, -, -⟩ := call_feast_calls s out hr
  rw [hc]
  simp [ho]

theorem sound_here (s u : FEAST) (oracle : List FeastOutput) (r : Run)
    (hstate : r.state = u) (hrest : r.rest = oracle) (h1 : s.same_setup u)
    (h2 : u.calls = s.calls) (h3 : u.info.return_code = s.info.return_code) :
    r.sound s oracle := by
  refine ⟨hstate ▸ h1, ⟨[], by simp [hrest], by simp [hstate, h2]⟩, ?_⟩
  intro hs
  rw [hstate]
  unfold FEAST.synced FEAST.last_return_code at hs ⊢
  rw [h2, h3]
  exact hs

theorem sound_after_call (s u : FEAST) (o : FeastOutput) (rest : List FeastOutput) (r : Run)
    (h1 : s.same_setup u) (h2 : u.calls = s.calls) (hr : u.has_routine)
    (h : r.sound (u.call_feast o) rest) : r.sound s (o :: rest) := by
  obtain ⟨a, ⟨used, hu1, hu2⟩, c⟩ := h
  refine ⟨same_setup_trans (same_setup_trans h1 (call_feast_setup u o)) a,
    ⟨o :: used, by simp [hu1], ?_⟩, fun _ => c (call_feast_synced u o hr)⟩
  rw [hu2, call_feast_outputs u o hr, h2]
  simp

theorem recycle_loop_sound (oracle : List FeastOutput) :
    ∀ s : FEAST, s.has_routine → (s.recycle_loop oracle).sound s oracle := by
  induction oracle with
  | nil =>
    intro s hr
    unfold FEAST.recycle_loop
    split
    · split
      · exact sound_here s s.recycle_warn [] _ rfl rfl ⟨rfl, rfl, rfl, rfl⟩ rfl rfl
      · refine sound_here s s.recycle_warn.recycle_prepare [] _ rfl rfl ?_ ?_ ?_ <;>
          (unfold FEAST.recycle_prepare; dsimp only; split) <;>
          first | rfl | exact ⟨rfl, rfl, rfl, rfl⟩
    · exact sound_here s s [] _ rfl rfl (same_setup_refl s) rfl rfl
  | cons o rest ih =>
    intro s hr
    unfold FEAST.recycle_loop
    split
    · split
      · exact sound_here s s.recycle_warn _ _ rfl rfl ⟨rfl, rfl, rfl, rfl⟩ rfl rfl
      · have h1 : s.same_setup s.recycle_warn.recycle_prepare := by
          unfold FEAST.recycle_prepare; dsimp only; split <;> exact ⟨rfl, rfl, rfl, rfl⟩
        have h2 : s.recycle_warn.recycle_prepare.calls = s.calls := by
          unfold FEAST.recycle_prepare; dsimp only; split <;> rfl
        have hr1 := has_routine_of_setup h1 hr
        exact sound_after_call s _ o rest _ h1 h2 hr1
          (ih _ (has_routine_of_setup (call_feast_setup _ o) hr1))
    · exact sound_here s s _ _ rfl rfl (same_setup_refl s) rfl rfl

theorem size_loop_sound (oracle : List FeastOutput) :
    ∀ s : FEAST, s.has_routine → (s.size_loop oracle).sound s oracle := by
  induction oracle with
  | nil =>
    intro s hr
    unfold FEAST.size_loop
    split
    · exact sound_here s s.size_prepare [] _ rfl rfl ⟨rfl, rfl, rfl, rfl⟩ rfl rfl
    · exact sound_here s s [] _ rfl rfl (same_setup_refl s) rfl rfl
  | cons o rest ih =>
    intro s hr
    unfold FEAST.size_loop
    split
    · have h1 : s.same_setup s.size_prepare := ⟨rfl, rfl, rfl, rfl⟩
      have hr1 := has_routine_of_setup h1 hr
      have hr2 := has_routine_of_setup (call_feast_setup s.size_prepare o) hr1
      dsimp only
      split
      · exact sound_after_call s _ o rest _ h1 rfl hr1
          (sound_here _ _ rest _ rfl rfl (same_setup_refl _) rfl rfl)
      · exact sound_after_call s _ o rest _ h1 rfl hr1 (ih _ hr2)
    · exact sound_here s s _ _ rfl rfl (same_setup_refl s) rfl rfl

theorem sound_pre (s u : FEAST) (oracle : List FeastOutput) (r : Run)
    (h : r.sound u oracle) (h1 : s.same_setup u) (h2 : u.calls = s.calls)
    (h3 : u.info.return_code = s.info.return_code) : r.sound s oracle := by
  obtain ⟨a, ⟨used, hu1, hu2⟩, c⟩ := h
  refine ⟨same_setup_trans h1 a, ⟨used, hu1, by rw [hu2, h2]⟩, fun hs => c ?_⟩
  unfold FEAST.synced FEAST.last_return_code at hs ⊢
  rw [h2, h3]
  exact hs

theorem sound_post (s : FEAST) (oracle : List FeastOutput) (r q : Run)
    (h : r.sound s oracle) (h0 : q.rest = r.rest) (h1 : r.state.same_setup q.state)
    (h2 : q.state.calls = r.state.calls)
    (h3 : q.state.info.return_code = r.state.info.return_code) : q.sound s oracle := by
  obtain ⟨a, ⟨used, hu1, hu2⟩, c⟩ := h
  refine ⟨same_setup_trans a h1, ⟨used, by rw [h0]; exact hu1, by rw [h2]; exact hu2⟩,
    fun hs => ?_⟩
  have := c hs
  unfold FEAST.synced FEAST.last_return_code at this ⊢
  rw [h2, h3]
  exact this

theorem finish_keeps (s : FEAST) :
    s.same_setup s.finish ∧ s.finish.calls = s.calls ∧
      s.finish.info.return_code = s.info.return_code ∧
      s.finish.info.size_warning = s.info.size_warning ∧
      s.finish.info.recycle_warning = s.info.recycle_warning ∧
      s.finish.info.final_size = s.info.final_size ∧ s.finish.residual = s.residual := by
  unfold FEAST.finish
  split <;> exact ⟨⟨rfl, rfl, rfl, rfl⟩, rfl, rfl, rfl, rfl, rfl, rfl⟩

theorem check_return_code_sound (s : FEAST) (oracle : List FeastOutput) (hr : s.has_routine) :
    (s.check_return_code oracle).sound s oracle := by
  have hf := finish_keeps s
  unfold FEAST.check_return_code
  split
  · split
    · have h := size_loop_sound oracle { s with info := { s.info with size_warning := true } } hr
      have h' := sound_pre s _ oracle _ h ⟨rfl, rfl, rfl, rfl⟩ rfl rfl
      cases hl : FEAST.size_loop { s with info := { s.info with size_warning := true } } oracle with
      | done s1 rest =>
        rw [hl] at h'
        have hf1 := finish_keeps s1
        exact sound_post s oracle _ (.done s1.finish rest) h' rfl hf1.1 hf1.2.1 hf1.2.2.1
      | raised e s1 rest => rw [hl] at h'; exact h'
      | pending s1 => rw [hl] at h'; exact h'
    · split
      · exact sound_here s s.finish oracle _ rfl rfl hf.1 hf.2.1 hf.2.2.1
      · exact sound_here s s oracle _ rfl rfl (same_setup_refl s) rfl rfl
  · exact sound_here s s.finish oracle _ rfl rfl hf.1 hf.2.1 hf.2.2.1

theorem sound_trans (s s2 : FEAST) (oracle rest2 : List FeastOutput) (r : Run)
    (h1 : (Run.done s2 rest2).sound s oracle) (h2 : r.sound s2 rest2) : r.sound s oracle := by
  obtain ⟨a, ⟨used, hu1, hu2⟩, c⟩ := h1
  obtain ⟨a', ⟨used', hu1', hu2'⟩, c'⟩ := h2
  have e1 : oracle = used ++ rest2 := hu1
  have e2 : s2.calls.map (fun c => c.output) = s.calls.map (fun c => c.output) ++ used := hu2
  refine ⟨same_setup_trans a a', ⟨used ++ used', ?_, ?_⟩, fun hs => c' (c hs)⟩
  · rw [e1, List.append_assoc, ← hu1']
  · rw [hu2', e2, List.append_assoc]

theorem v_solve_sound (s : FEAST) (rows : Int) (o : FeastOutput) (rest : List FeastOutput)
    (hr : s.has_routine) :
    (s.v_solve rows (o :: rest)).state.scalar = s.scalar ∧
      (s.v_solve rows (o :: rest)).state.params.recycled_subspace = s.params.recycled_subspace ∧
      (s.v_solve rows (o :: rest)).state.params.max_refinement_loops =
        s.params.max_refinement_loops ∧
      (s.v_solve rows (o :: rest)).state.params.system_size = rows ∧
      (s.v_solve rows (o :: rest)).consumed s (o :: rest) ∧
      (s.v_solve rows (o :: rest)).state.synced := by
  have hp : s.has_routine → (s.prepare rows).has_routine := fun h => h
  have hr1 := hp hr
  have hr2 := has_routine_of_setup (call_feast_setup (s.prepare rows) o) hr1
  have key : ∀ r : Run, r.sound ((s.prepare rows).call_feast o) rest →
      r.state.scalar = s.scalar ∧
      r.state.params.recycled_subspace = s.params.recycled_subspace ∧
      r.state.params.max_refinement_loops = s.params.max_refinement_loops ∧
      r.state.params.system_size = rows ∧ r.consumed s (o :: rest) ∧ r.state.synced := by
    intro r h
    obtain ⟨a, ⟨used, hu1, hu2⟩, c⟩ := h
    have b := call_feast_setup (s.prepare rows) o
    refine ⟨a.1.trans b.1, a.2.1.trans b.2.1, a.2.2.1.trans b.2.2.1, a.2.2.2.trans b.2.2.2,
      ⟨o :: used, by simp [hu1], ?_⟩, c (call_feast_synced _ o hr1)⟩
    rw [hu2, call_feast_outputs _ o hr1]
    simp [FEAST.prepare]
  unfold FEAST.v_solve
  dsimp only
  split
  · have h := recycle_loop_sound rest _ hr2
    cases hl : FEAST.recycle_loop ((s.prepare rows).call_feast o) rest with
    | done s2 rest2 =>
      rw [hl] at h
      have hr3 : s2.has_routine := has_routine_of_setup h.1 hr2
      have h2 := check_return_code_sound s2 rest2 hr3
      exact key _ (sound_trans _ s2 rest rest2 _ h h2)
    | raised e s2 rest2 => rw [hl] at h; exact key _ h
    | pending s2 => rw [hl] at h; exact key _ h
  · exact key _ (check_return_code_sound _ rest hr2)

/-! ## The steps of `v_solve` -/

theorem first_call_info (s : FEAST) (rows : Int) (o : FeastOutput) (hr : s.has_routine) :
    ((s.prepare rows).call_feast o).info =
      { recycle_warning := false, recycle_warning_loops := 0, size_warning := false,
        refinement_loops := o.refinement_loops, return_code := o.return_code,
        suggested_size := o.suggested_size, final_size := o.final_size } := by
  rw [call_feast_info (s.prepare rows) o hr]
  rfl

theorem first_call_length (s : FEAST) (rows : Int) (o : FeastOutput) (hr : s.has_routine) :
    ((s.prepare rows).call_feast o).calls.length = s.calls.length + 1 := by
  obtain ⟨c, hc, -⟩ := call_feast_calls (s.prepare rows) o hr
  rw [hc]
  simp [FEAST.prepare]

theorem recycle_loop_exit (s : FEAST) (oracle : List FeastOutput)
    (h : s.recycle_cond = false) : s.recycle_loop oracle = .done s oracle := by
  cases oracle <;> simp [FEAST.recycle_loop, h]

theorem size_loop_exit (s : FEAST) (oracle : List FeastOutput)
    (h : s.info.return_code ≠ 3) : s.size_loop oracle = .done s oracle := by
  cases oracle <;> simp [FEAST.size_loop, h]

theorem size_loop_retry (s : FEAST) (o : FeastOutput) (rest : List FeastOutput)
    (h : s.info.return_code = 3) :
    s.size_loop (o :: rest) =
      if (s.size_prepare.call_feast o).info.return_code ≠ 3 ∧
          (s.size_prepare.call_feast o).info.return_code ≠ 0 then
        .raised .failed_to_recover (s.size_prepare.call_feast o) rest
      else (s.size_prepare.call_feast o).size_loop rest := by
  rw [FEAST.size_loop, if_pos h]

theorem check_ok (s : FEAST) (oracle : List FeastOutput)
    (h : s.info.return_code = 0 ∨ s.info.return_code = 1) :
    s.check_return_code oracle = .done s.finish oracle := by
  rcases h with h | h <;> simp [FEAST.check_return_code, h]

theorem check_error (s : FEAST) (oracle : List FeastOutput) (h0 : s.info.return_code ≠ 0)
    (h1 : s.info.return_code ≠ 1) (h3 : s.info.return_code ≠ 3) :
    s.check_return_code oracle = .raised (.error_code s.info.return_code) s oracle := by
  simp [FEAST.check_return_code, h0, h1, h3]

theorem check_three (s : FEAST) (oracle : List FeastOutput) (h : s.info.return_code = 3) :
    s.check_return_code oracle =
      (({ s with info := { s.info with size_warning := true } } : FEAST).size_loop oracle).finish
    := by
  simp [FEAST.check_return_code, h]

theorem run_finish_calls (r : Run) : r.finish.state.calls = r.state.calls := by
  cases r with
  | done s rest => exact (finish_keeps s).2.1
  | raised e s rest => rfl
  | pending s => rfl

theorem size_loop_calls_le (s : FEAST) (oracle : List FeastOutput) (hr : s.has_routine) :
    s.calls.length ≤ (s.size_loop oracle).state.calls.length := by
  obtain ⟨-, ⟨used, -, hu2⟩, -⟩ := size_loop_sound oracle s hr
  have := congrArg List.length hu2
  simp only [List.length_map, List.length_append] at this
  omega

theorem recycle_loop_raised (oracle : List FeastOutput) :
    ∀ (s : FEAST) (e : FeastError) (t : FEAST) (rest : List FeastOutput),
      s.recycle_loop oracle = .raised e t rest → e = .failed_to_converge := by
  induction oracle with
  | nil =>
    intro s e t rest h
    unfold FEAST.recycle_loop at h
    split at h
    · split at h
      · simp only [Run.raised.injEq] at h
        exact h.1.symm
      · simp at h
    · simp at h
  | cons o os ih =>
    intro s e t rest h
    unfold FEAST.recycle_loop at h
    split at h
    · split at h
      · simp only [Run.raised.injEq] at h
        exact h.1.symm
      · exact ih _ e t rest h
    · simp at h

theorem size_loop_raised (oracle : List FeastOutput) :
    ∀ (s : FEAST) (e : FeastError) (t : FEAST) (rest : List FeastOutput),
      s.size_loop oracle = .raised e t rest →
        e = .failed_to_recover ∧ t.info.return_code ≠ 3 ∧ t.info.return_code ≠ 0 := by
  induction oracle with
  | nil =>
    intro s e t rest h
    unfold FEAST.size_loop at h
    split at h <;> simp at h
  | cons o os ih =>
    intro s e t rest h
    unfold FEAST.size_loop at h
    split at h
    · dsimp only at h
      split at h
      · rename_i hbad
        simp only [Run.raised.injEq] at h
        obtain ⟨h1, h2, -⟩ := h
        subst h2
        exact ⟨h1.symm, hbad.1, hbad.2⟩
      · exact ih _ e t rest h
    · simp at h

theorem check_raised (s : FEAST) (oracle : List FeastOutput) (e : FeastError) (t : FEAST)
    (rest : List FeastOutput) (h : s.check_return_code oracle = .raised e t rest) :
    (e = .failed_to_recover ∧ t.info.return_code ≠ 3 ∧ t.info.return_code ≠ 0) ∨
      (e = .error_code t.info.return_code ∧ t.info.return_code ≠ 0 ∧
        t.info.return_code ≠ 1 ∧ t.info.return_code ≠ 3) := by
  unfold FEAST.check_return_code at h
  split at h
  · rename_i h0
    split at h
    · left
      cases hl : FEAST.size_loop { s with info := { s.info with size_warning := true } } oracle with
      | done s1 r1 => rw [hl] at h; simp [Run.finish] at h
      | raised e1 s1 r1 =>
        rw [hl] at h
        simp only [Run.finish, Run.raised.injEq] at h
        obtain ⟨h1, h2, -⟩ := h
        subst h1 h2
        exact size_loop_raised oracle _ _ _ _ hl
      | pending s1 => rw [hl] at h; simp [Run.finish] at h
    · rename_i h3
      split at h
      · simp at h
      · rename_i h1
        right
        simp only [Run.raised.injEq] at h
        obtain ⟨e1, e2, -⟩ := h
        subst e2
        exact ⟨e1.symm, h0, h1, h3⟩
  · simp at h

theorem v_solve_raised (s : FEAST) (rows : Int) (oracle : List FeastOutput) (e : FeastError)
    (t : FEAST) (rest : List FeastOutput) (h : s.v_solve rows oracle = .raised e t rest) :
    (e = .failed_to_converge ∧ s.params.recycled_subspace = true) ∨
      (e = .failed_to_recover ∧ t.info.return_code ≠ 3 ∧ t.info.return_code ≠ 0) ∨
      (e = .error_code t.info.return_code ∧ t.info.return_code ≠ 0 ∧
        t.info.return_code ≠ 1 ∧ t.info.return_code ≠ 3) := by
  cases oracle with
  | nil => simp [FEAST.v_solve] at h
  | cons o os =>
    unfold FEAST.v_solve at h
    dsimp only at h
    split at h
    · rename_i hrec
      have hrec' : s.params.recycled_subspace = true := by
        rw [← hrec, call_feast_params]
        rfl
      cases hl : FEAST.recycle_loop ((s.prepare rows).call_feast o) os with
      | done s2 r2 =>
        rw [hl] at h
        exact Or.inr (check_raised s2 r2 e t rest h)
      | raised e2 s2 r2 =>
        rw [hl] at h
        simp only [Run.raised.injEq] at h
        obtain ⟨h1, -, -⟩ := h
        subst h1
        exact Or.inl ⟨recycle_loop_raised os _ _ _ _ hl, hrec'⟩
      | pending s2 => rw [hl] at h; simp at h
    · exact Or.inr (check_raised _ os e t rest h)

/-! ## Return codes -/

/-- C13, as stated, fails: without recycling, when the first call returns code 3
and the retry returns code 1, `v_solve` throws, although the last return code
the external routine produced is 1; and with recycling, when three calls in a
row return code 0 with as many refinement loops as the maximum, `v_solve`
throws, although the last return code is 0. -/
theorem C13_code_one_from_a_retry_raises :
    (feast_a.v_solve 100 [feast_out 0 3, feast_out 0 1]).error = some .failed_to_recover ∧
      (feast_a.v_solve 100 [feast_out 0 3, feast_out 0 1]).state.last_return_code = some 1 ∧
      (feast_a.v_solve 100 [feast_out 0 3, feast_out 0 1]).state.calls.length = 2 ∧
      (feast_r.v_solve 100 [feast_out 20 0, feast_out 20 0, feast_out 20 0]).error =
        some .failed_to_converge ∧
      (feast_r.v_solve 100 [feast_out 20 0, feast_out 20 0, feast_out 20 0]).state.last_return_code
        = some 0 := by
  decide

/-- C13, amended: `v_solve` returns after a single call of the external routine
whenever that call returns code 0 or 1 and, if the subspace is recycled, reports
fewer refinement loops than the maximum. Without recycling, a first return code
other than 0, 1 and 3 makes `v_solve` throw the error with that code after
exactly one call. Whenever `v_solve` throws while the last return code is 0 or
1, the subspace is recycled and the error is the convergence failure of the
recycling loop, or the code is 1 and the error is the failed recovery of the
undersized subspace. -/
theorem C13_zero_and_one_are_success (s : FEAST) (rows : Int) (hr : s.has_routine) :
    (∀ o rest, (o.return_code = 0 ∨ o.return_code = 1) →
      (s.params.recycled_subspace = true →
        o.refinement_loops < s.params.max_refinement_loops) →
      ∃ t, s.v_solve rows (o :: rest) = .done t rest ∧
        t.calls.length = s.calls.length + 1) ∧
    (∀ o rest, s.params.recycled_subspace = false → o.return_code ≠ 0 →
      o.return_code ≠ 1 → o.return_code ≠ 3 →
      ∃ t, s.v_solve rows (o :: rest) = .raised (.error_code o.return_code) t rest ∧
        t.calls.length = s.calls.length + 1) ∧
    (∀ oracle e t rest, s.v_solve rows oracle = .raised e t rest →
      t.last_return_code = some t.info.return_code ∧
      (t.info.return_code = 0 ∨ t.info.return_code = 1 →
        (e = .failed_to_converge ∧ s.params.recycled_subspace = true) ∨
        (e = .failed_to_recover ∧ t.info.return_code = 1))) := by
  refine ⟨fun o rest hc hl => ?_, fun o rest hrec h0 h1 h3 => ?_,
    fun oracle e t rest h => ?_⟩
  · have hi := first_call_info s rows o hr
    have hlen := first_call_length s rows o hr
    have hp : ((s.prepare rows).call_feast o).params.recycled_subspace =
        s.params.recycled_subspace := by rw [call_feast_params]; rfl
    have hm : ((s.prepare rows).call_feast o).params.max_refinement_loops =
        s.params.max_refinement_loops := by rw [call_feast_params]; rfl
    have hcode : ((s.prepare rows).call_feast o).info.return_code = 0 ∨
        ((s.prepare rows).call_feast o).info.return_code = 1 := by rw [hi]; exact hc
    refine ⟨((s.prepare rows).call_feast o).finish, ?_, ?_⟩
    · unfold FEAST.v_solve
      dsimp only
      split
      · rename_i hrec
        rw [hp] at hrec
        have hcond : ((s.prepare rows).call_feast o).recycle_cond = false := by
          have := hl hrec
          have h3 : o.return_code ≠ 3 := by rcases hc with h | h <;> omega
          unfold FEAST.recycle_cond
          rw [hi, hm]
          simp only [Bool.or_eq_false_iff, decide_eq_false_iff_not]
          exact ⟨by omega, h3⟩
        rw [recycle_loop_exit _ rest hcond]
        exact check_ok _ rest hcode
      · exact check_ok _ rest hcode
    · rw [(finish_keeps _).2.1, hlen]
  · have hi := first_call_info s rows o hr
    have hlen := first_call_length s rows o hr
    have hp : ((s.prepare rows).call_feast o).params.recycled_subspace =
        s.params.recycled_subspace := by rw [call_feast_params]; rfl
    have hcode : ((s.prepare rows).call_feast o).info.return_code = o.return_code := by rw [hi]
    refine ⟨(s.prepare rows).call_feast o, ?_, hlen⟩
    unfold FEAST.v_solve
    dsimp only
    rw [hp, hrec]
    simp only [Bool.false_eq_true, if_false]
    rw [check_error _ rest (by rw [hcode]; exact h0) (by rw [hcode]; exact h1)
      (by rw [hcode]; exact h3), hcode]
  · cases oracle with
    | nil => simp [FEAST.v_solve] at h
    | cons o os =>
      have hs := (v_solve_sound s rows o os hr).2.2.2.2.2
      rw [h] at hs
      refine ⟨hs, fun hc => ?_⟩
      rcases v_solve_raised s rows _ e t rest h with h1 | ⟨h1, h2, h3⟩ | ⟨h1, h2, h3, h4⟩
      · exact Or.inl h1
      · right
        refine ⟨h1, ?_⟩
        rcases hc with hc | hc
        · exact absurd hc h3
        · exact hc
      · rcases hc with hc | hc
        · exact absurd hc h2
        · exact absurd hc h3

theorem C13_zero_and_one_are_success_witness :
    feast_a.has_routine ∧
      (∃ t, feast_a.v_solve 10 [feast_out 3 1] = .done t [] ∧ t.calls.length = 1) ∧
      (∃ t, feast_a.v_solve 10 [feast_out 3 (-2)] = .raised (.error_code (-2)) t [] ∧
        t.calls.length = 1) :=
  ⟨by decide,
    (C13_zero_and_one_are_success feast_a 10 (by decide)).1 (feast_out 3 1) []
      (Or.inr rfl) (by decide),
    (C13_zero_and_one_are_success feast_a 10 (by decide)).2.1 (feast_out 3 (-2)) [] rfl
      (by decide) (by decide) (by decide)⟩

/-! ## The recovery of an undersized subspace -/

theorem size_retry_facts (u : FEAST) (o : FeastOutput) (hr : u.has_routine) :
    (u.size_prepare.call_feast o).info.return_code = o.return_code ∧
      (u.size_prepare.call_feast o).info.size_warning = u.info.size_warning ∧
      (u.size_prepare.call_feast o).info.recycle_warning = u.info.recycle_warning ∧
      (u.size_prepare.call_feast o).calls.length = u.calls.length + 1 ∧
      (u.size_prepare.call_feast o).has_routine ∧
      (u.size_prepare.call_feast o).params.initial_size_guess =
        retry_guess u.params.system_size u.params.initial_size_guess ∧
      (u.size_prepare.call_feast o).params.system_size = u.params.system_size := by
  have hr1 : u.size_prepare.has_routine := hr
  have hi := call_feast_info u.size_prepare o hr1
  obtain ⟨c, hc, -⟩ := call_feast_calls u.size_prepare o hr1
  refine ⟨by rw [hi], by rw [hi]; rfl, by rw [hi]; rfl, ?_,
    has_routine_of_setup (call_feast_setup _ o) hr1, ?_, ?_⟩
  · rw [hc]
    simp [FEAST.size_prepare, FEAST.force_clear]
  · rw [call_feast_params]
    rfl
  · rw [call_feast_params]
    rfl

theorem size_loop_step (u : FEAST) (o : FeastOutput) (rest : List FeastOutput)
    (hr : u.has_routine) (h3 : u.info.return_code = 3) :
    (o.return_code ≠ 0 → o.return_code ≠ 3 →
      u.size_loop (o :: rest) = .raised .failed_to_recover (u.size_prepare.call_feast o) rest) ∧
    (o.return_code = 0 →
      u.size_loop (o :: rest) = .done (u.size_prepare.call_feast o) rest) ∧
    (o.return_code = 3 →
      u.size_loop (o :: rest) = (u.size_prepare.call_feast o).size_loop rest ∧
      u.size_loop [o] = .pending (u.size_prepare.call_feast o).size_prepare) := by
  have hc := (size_retry_facts u o hr).1
  refine ⟨fun h0 h3' => ?_, fun h0 => ?_, fun h3' => ?_⟩
  · rw [size_loop_retry u o rest h3, hc, if_pos ⟨h3', h0⟩]
  · rw [size_loop_retry u o rest h3, hc, if_neg (by omega)]
    exact size_loop_exit _ rest (by rw [hc]; omega)
  · have hgo : ∀ r, u.size_loop (o :: r) = (u.size_prepare.call_feast o).size_loop r := by
      intro r
      rw [size_loop_retry u o r h3, hc, if_neg (by omega)]
    refine ⟨hgo rest, ?_⟩
    rw [hgo []]
    simp [FEAST.size_loop, hc, h3']

/-- C16: without recycling, when the first call of the external routine returns
code 3, `v_solve` sets the size warning and retries. A retry that returns a code
other than 0 and 3 makes `v_solve` throw at once, with no further call; a retry
that returns 0 makes `v_solve` return, with the size warning set; a retry that
returns 3 makes the loop grow the guess again and call the routine once more.
This holds for the first retry and, in the loop, for every later one. -/
theorem C16_recovery_outcomes (s : FEAST) (rows : Int) (o1 o2 : FeastOutput)
    (hr : s.has_routine) (hrec : s.params.recycled_subspace = false)
    (h1 : o1.return_code = 3) :
    (o2.return_code ≠ 0 → o2.return_code ≠ 3 → ∀ rest,
      ∃ t, s.v_solve rows (o1 :: o2 :: rest) = .raised .failed_to_recover t rest ∧
        t.calls.length = s.calls.length + 2) ∧
    (o2.return_code = 0 → ∀ rest,
      ∃ t, s.v_solve rows (o1 :: o2 :: rest) = .done t rest ∧
        t.info.size_warning = true ∧ t.calls.length = s.calls.length + 2) ∧
    (o2.return_code = 3 →
      (∃ t u : FEAST, s.v_solve rows [o1, o2] = .pending t ∧ t = u.size_prepare ∧
        u.calls.length = s.calls.length + 2 ∧
        t.params.initial_size_guess = grow_guess u.params.initial_size_guess) ∧
      ∀ o3 rest, s.calls.length + 3 ≤ (s.v_solve rows (o1 :: o2 :: o3 :: rest)).state.calls.length) ∧
    (∀ (u : FEAST) (o : FeastOutput) (rest : List FeastOutput), u.has_routine →
      u.info.return_code = 3 →
      (o.return_code ≠ 0 → o.return_code ≠ 3 →
        u.size_loop (o :: rest) =
          .raised .failed_to_recover (u.size_prepare.call_feast o) rest) ∧
      (o.return_code = 0 →
        u.size_loop (o :: rest) = .done (u.size_prepare.call_feast o) rest) ∧
      (o.return_code = 3 →
        u.size_loop (o :: rest) = (u.size_prepare.call_feast o).size_loop rest ∧
        u.size_loop [o] = .pending (u.size_prepare.call_feast o).size_prepare)) := by
  have hi := first_call_info s rows o1 hr
  have hlen := first_call_length s rows o1 hr
  have hp : ((s.prepare rows).call_feast o1).params.recycled_subspace = false := by
    rw [call_feast_params]; exact hrec
  have hr1 : ((s.prepare rows).call_feast o1).has_routine :=
    has_routine_of_setup (call_feast_setup _ o1) hr
  have hcode : ((s.prepare rows).call_feast o1).info.return_code = 3 := by rw [hi]; exact h1
  obtain ⟨w, hw⟩ : ∃ w : FEAST, w =
      { (s.prepare rows).call_feast o1 with
        info := { ((s.prepare rows).call_feast o1).info with size_warning := true } } := ⟨_, rfl⟩
  have hv : ∀ oracle, s.v_solve rows (o1 :: oracle) = (w.size_loop oracle).finish := by
    intro oracle
    unfold FEAST.v_solve
    dsimp only
    rw [hp]
    simp only [Bool.false_eq_true, if_false]
    rw [check_three _ oracle hcode, hw]
  have hwr : w.has_routine := by rw [hw]; exact hr1
  have hw3 : w.info.return_code = 3 := by rw [hw]; exact hcode
  have hwl : w.calls.length = s.calls.length + 1 := by rw [hw]; exact hlen
  have hws : w.info.size_warning = true := by rw [hw]
  obtain ⟨f1, f2, -, f4, f5, -, -⟩ := size_retry_facts w o2 hwr
  refine ⟨fun h0 h3 rest => ?_, fun h0 rest => ?_, fun h3 => ⟨?_, fun o3 rest => ?_⟩,
    fun u o rest hu hu3 => size_loop_step u o rest hu hu3⟩
  · refine ⟨w.size_prepare.call_feast o2, ?_, by rw [f4, hwl]⟩
    rw [hv, ((size_loop_step w o2 rest hwr hw3).1 h0 h3)]
    rfl
  · refine ⟨(w.size_prepare.call_feast o2).finish, ?_, ?_, ?_⟩
    · rw [hv, ((size_loop_step w o2 rest hwr hw3).2.1 h0)]
      rfl
    · rw [(finish_keeps _).2.2.2.1, f2, hws]
    · rw [(finish_keeps _).2.1, f4, hwl]
  · refine ⟨(w.size_prepare.call_feast o2).size_prepare, w.size_prepare.call_feast o2, ?_, rfl,
      by rw [f4, hwl], rfl⟩
    rw [hv, ((size_loop_step w o2 [] hwr hw3).2.2 h3).2]
    rfl
  · rw [hv, ((size_loop_step w o2 (o3 :: rest) hwr hw3).2.2 h3).1, run_finish_calls,
      size_loop_retry _ o3 rest (by rw [f1]; exact h3)]
    obtain ⟨-, -, -, g4, g5, -, -⟩ := size_retry_facts (w.size_prepare.call_feast o2) o3 f5
    have hle := size_loop_calls_le _ rest g5
    split
    · simp only [Run.state]
      omega
    · omega

/-! ## The growth of the guess -/

theorem grow_guess_nonneg (g : Int) (h : 0 ≤ g) : grow_guess g = 17 * g / 10 := by
  unfold grow_guess
  rw [Int.tdiv_eq_ediv] <;> omega

theorem retry_guess_grows (n g : Int) (h2 : 2 ≤ g) (hn : g < n) : g < retry_guess n g := by
  unfold retry_guess clamp_guess
  rw [grow_guess_nonneg g (by omega)]
  split
  · exact hn
  · omega

theorem retry_guess_at_size (n : Int) (h : 0 ≤ n) : retry_guess n n = n := by
  unfold retry_guess clamp_guess
  rw [grow_guess_nonneg n h]
  split
  · rfl
  · rename_i hc
    simp only [Bool.or_eq_true, decide_eq_true_eq, not_or, not_lt] at hc
    omega

theorem retry_guess_le (n g : Int) (h : 0 ≤ n) :
    0 ≤ retry_guess n g ∧ retry_guess n g ≤ n := by
  unfold retry_guess clamp_guess
  split
  · exact ⟨h, Int.le_refl n⟩
  · rename_i hc
    simp only [Bool.or_eq_true, decide_eq_true_eq, not_or, not_lt] at hc
    omega

theorem size_retry_call (u : FEAST) (o : FeastOutput) (hr : u.has_routine) :
    ∃ c, (u.size_prepare.call_feast o).calls = u.calls ++ [c] ∧ c.output = o ∧
      c.suggested_size = retry_guess u.params.system_size u.params.initial_size_guess ∧
      (u.size_prepare.call_feast o).params.initial_size_guess = c.suggested_size ∧
      (u.size_prepare.call_feast o).params.system_size = u.params.system_size := by
  have hr1 : u.size_prepare.has_routine := hr
  obtain ⟨c, hc, ho, hsz, -⟩ := call_feast_calls u.size_prepare o hr1
  obtain ⟨-, -, -, -, -, f6, f7⟩ := size_retry_facts u o hr
  refine ⟨c, hc, ho, ?_, ?_, f7⟩
  · rw [hsz]
    rfl
  · rw [f6, hsz]
    rfl

/-- C14, as stated, fails: with the guess 5 for a matrix of size 5, the retry after
return code 3 calls the external routine with the guess 5 again, which is not
larger than the guess of the previous call. -/
theorem C14_retry_at_matrix_size_keeps_guess :
    (feast_a.v_solve 5 [feast_out 0 3, feast_out 0 3]).state.guesses = [5, 5] ∧
      (feast_a.v_solve 5 [feast_out 0 3, feast_out 0 3]).is_pending = true := by
  decide

/-- C14, amended: in the recovery from return code 3, each retry calls the external
routine with the guess of the previous call multiplied by 1.7, truncated, and
replaced by the size of the matrix if it is bigger; this guess is also the one
the next retry starts from. For a matrix size `n` that is not negative the guess
stays between 0 and `n`; it is strictly larger than the previous guess `g` when
`2 ≤ g < n`, and it stays `n` once the guess is `n`. The previous call is a
retry, or a first call made with empty buffers. -/
theorem C14_retry_guess_grows_below_matrix_size (u : FEAST) (o1 o2 : FeastOutput)
    (hr : u.has_routine) :
    (∃ c1 c2,
      (u.size_prepare.call_feast o1).calls = u.calls ++ [c1] ∧
      ((u.size_prepare.call_feast o1).size_prepare.call_feast o2).calls =
        u.calls ++ [c1, c2] ∧
      c1.suggested_size = retry_guess u.params.system_size u.params.initial_size_guess ∧
      c2.suggested_size = retry_guess u.params.system_size c1.suggested_size ∧
      (2 ≤ c1.suggested_size → c1.suggested_size < u.params.system_size →
        c1.suggested_size < c2.suggested_size) ∧
      (0 ≤ u.params.system_size → c1.suggested_size = u.params.system_size →
        c2.suggested_size = u.params.system_size) ∧
      (0 ≤ u.params.system_size →
        0 ≤ c2.suggested_size ∧ c2.suggested_size ≤ u.params.system_size)) ∧
    (u._eigenvalues = 0 →
      ∃ c0 c1,
        (u.call_feast o1).calls = u.calls ++ [c0] ∧
        ((u.call_feast o1).size_prepare.call_feast o2).calls = u.calls ++ [c0, c1] ∧
        c0.suggested_size = clamp_guess u.params.system_size u.params.initial_size_guess ∧
        c1.suggested_size = retry_guess u.params.system_size c0.suggested_size) ∧
    (∀ rest, u.info.return_code = 3 →
      u.size_loop (o1 :: rest) =
        if (u.size_prepare.call_feast o1).info.return_code ≠ 3 ∧
            (u.size_prepare.call_feast o1).info.return_code ≠ 0 then
          .raised .failed_to_recover (u.size_prepare.call_feast o1) rest
        else (u.size_prepare.call_feast o1).size_loop rest) := by
  refine ⟨?_, ?_, fun rest h3 => size_loop_retry u o1 rest h3⟩
  · obtain ⟨c1, a1, -, a3, a4, a5⟩ := size_retry_call u o1 hr
    have hr1 := (size_retry_facts u o1 hr).2.2.2.2.1
    obtain ⟨c2, b1, -, b3, -, -⟩ := size_retry_call (u.size_prepare.call_feast o1) o2 hr1
    rw [a5, a4] at b3
    refine ⟨c1, c2, a1, by rw [b1, a1]; simp, a3, b3, ?_, ?_, ?_⟩
    · intro h2 hn
      rw [b3]
      exact retry_guess_grows _ _ h2 hn
    · intro h0 he
      rw [b3, he]
      exact retry_guess_at_size _ h0
    · intro h0
      rw [b3]
      exact retry_guess_le _ _ h0
  · intro he
    obtain ⟨c0, a1, -, a3, -⟩ := call_feast_calls u o1 hr
    have hr1 : (u.call_feast o1).has_routine := has_routine_of_setup (call_feast_setup u o1) hr
    obtain ⟨c1, b1, -, b3, -, -⟩ := size_retry_call (u.call_feast o1) o2 hr1
    have hg : u.next_guess = clamp_guess u.params.system_size u.params.initial_size_guess := by
      simp [FEAST.next_guess, he]
    have hsg : u.next_suggested =
        clamp_guess u.params.system_size u.params.initial_size_guess := by
      simp [FEAST.next_suggested, he]
    have hp : (u.call_feast o1).params.initial_size_guess = u.next_guess := by
      rw [call_feast_params]
    have hn : (u.call_feast o1).params.system_size = u.params.system_size := by
      rw [call_feast_params]
    refine ⟨c0, c1, a1, by rw [b1, a1]; simp, by rw [a3, hsg], ?_⟩
    rw [b3, hn, hp, hg, a3, hsg]

theorem C14_retry_guess_grows_below_matrix_size_witness :
    (feast_a.prepare 100).has_routine ∧
      (((feast_a.prepare 100).size_prepare.call_feast (feast_out 0 3)).size_prepare.call_feast
        (feast_out 0 3)).guesses = [8, 13] ∧
      ∃ c1 c2,
        ((feast_a.prepare 100).size_prepare.call_feast (feast_out 0 3)).calls =
          (feast_a.prepare 100).calls ++ [c1] ∧
        (((feast_a.prepare 100).size_prepare.call_feast (feast_out 0 3)).size_prepare.call_feast
          (feast_out 0 3)).calls = (feast_a.prepare 100).calls ++ [c1, c2] ∧
        c1.suggested_size = retry_guess (feast_a.prepare 100).params.system_size
          (feast_a.prepare 100).params.initial_size_guess ∧
        c2.suggested_size = retry_guess (feast_a.prepare 100).params.system_size
          c1.suggested_size ∧
        (2 ≤ c1.suggested_size → c1.suggested_size < (feast_a.prepare 100).params.system_size →
          c1.suggested_size < c2.suggested_size) ∧
        (0 ≤ (feast_a.prepare 100).params.system_size →
          c1.suggested_size = (feast_a.prepare 100).params.system_size →
          c2.suggested_size = (feast_a.prepare 100).params.system_size) ∧
        (0 ≤ (feast_a.prepare 100).params.system_size →
          0 ≤ c2.suggested_size ∧
            c2.suggested_size ≤ (feast_a.prepare 100).params.system_size) :=
  ⟨by decide, by decide,
    (C14_retry_guess_grows_below_matrix_size (feast_a.prepare 100) (feast_out 0 3)
      (feast_out 0 3) (by decide)).1⟩

/-! ## Runs that do not end -/

theorem size_loop_code_three (o : FeastOutput) (ho : o.return_code = 3) (k : Nat) :
    ∀ s : FEAST, s.has_routine → s.info.return_code = 3 →
      ∃ t, s.size_loop (List.replicate k o) = .pending t ∧
        t.calls.length = s.calls.length + k := by
  induction k with
  | zero =>
    intro s _ h3
    exact ⟨s.size_prepare, by simp [FEAST.size_loop, h3], rfl⟩
  | succ k ih =>
    intro s hr h3
    obtain ⟨f1, -, -, f4, f5, -, -⟩ := size_retry_facts s o hr
    obtain ⟨t, ht, hl⟩ := ih (s.size_prepare.call_feast o) f5 (by rw [f1]; exact ho)
    refine ⟨t, ?_, by rw [hl, f4]; omega⟩
    rw [List.replicate_succ, ((size_loop_step s o _ hr h3).2.2 ho).1]
    exact ht

theorem v_solve_code_three (s : FEAST) (rows : Int) (o : FeastOutput) (hr : s.has_routine)
    (hrec : s.params.recycled_subspace = false) (ho : o.return_code = 3) (k : Nat) :
    ∃ t, s.v_solve rows (List.replicate k o) = .pending t ∧
      t.calls.length = s.calls.length + k := by
  cases k with
  | zero => exact ⟨s.prepare rows, rfl, rfl⟩
  | succ k =>
    have hi := first_call_info s rows o hr
    have hlen := first_call_length s rows o hr
    have hp : ((s.prepare rows).call_feast o).params.recycled_subspace = false := by
      rw [call_feast_params]; exact hrec
    have hr1 : ((s.prepare rows).call_feast o).has_routine :=
      has_routine_of_setup (call_feast_setup _ o) hr
    have hcode : ((s.prepare rows).call_feast o).info.return_code = 3 := by rw [hi]; exact ho
    obtain ⟨t, ht, hl⟩ := size_loop_code_three o ho k
      { (s.prepare rows).call_feast o with
        info := { ((s.prepare rows).call_feast o).info with size_warning := true } }
      hr1 hcode
    refine ⟨t, ?_, by rw [hl]; simp only; rw [hlen]; omega⟩
    rw [List.replicate_succ]
    unfold FEAST.v_solve
    dsimp only
    rw [hp]
    simp only [Bool.false_eq_true, if_false]
    rw [check_three _ _ hcode, ht]
    rfl

/-! ## The maximum of the refinement loops -/

/-- C17 fails on the code: for the recycling solver `feast_r`, whose maximum of
refinement loops is 20, a call that returns code 0 with exactly 20 refinement
loops is not accepted: the warning flag is set and `v_solve` asks for another
call; with a second result it returns after two calls. -/
theorem C17_loops_equal_to_maximum_are_retried :
    feast_r.params.max_refinement_loops = 20 ∧
      (feast_r.v_solve 10 [feast_out 20 0]).is_pending = true ∧
      (feast_r.v_solve 10 [feast_out 20 0]).state.info.recycle_warning = true ∧
      (feast_r.v_solve 10 [feast_out 20 0, feast_out 3 0]).is_done = true ∧
      (feast_r.v_solve 10 [feast_out 20 0, feast_out 3 0]).state.calls.length = 2 ∧
      (feast_r.v_solve 10 [feast_out 19 0]).is_done = true ∧
      (feast_r.v_solve 10 [feast_out 19 0]).state.calls.length = 1 := by
  decide

/-! ## The dimensions of the buffers -/

/-- C20 fails on the code: a recycling solver that solved for a matrix with 10 rows
keeps its buffers, of 5 eigenvalues, 5 residuals and 10 by 5 eigenvectors, when
it is rebound. At the next solve for a matrix with 20 rows the external routine
is given these buffers with the matrix size 20; for a matrix with 3 rows it is
given the subspace size 5, which is bigger than the matrix. -/
theorem C20_rebound_recycling_solver_keeps_old_buffers :
    (feast_rebound.v_solve 20 [feast_out 3 0]).state.calls.getLast?.map
        (fun c => (c.system_size, c.suggested_size, c.eigenvalues, c.eigenvectors, c.residual))
      = some (20, 5, 5, (10, 5), 5) ∧
    (feast_rebound.v_solve 20 [feast_out 3 0]).state.calls.getLast?.map
        (fun c => decide c.well_sized) = some false ∧
    (feast_rebound.v_solve 3 [feast_out 3 0]).state.calls.getLast?.map
        (fun c => (c.system_size, c.suggested_size, c.eigenvalues, c.eigenvectors, c.residual))
      = some (3, 5, 5, (10, 5), 5) ∧
    (feast_r.v_solve 10 [feast_out 3 0]).state.calls.getLast?.map
        (fun c => decide c.well_sized) = some true :=
  ⟨rfl, rfl, rfl, rfl⟩

/-! ## The recycling loop -/

theorem recycle_prepare_keeps (u : FEAST) :
    u.recycle_prepare.scalar = u.scalar ∧ u.recycle_prepare.info = u.info ∧
      u.recycle_prepare.calls = u.calls ∧
      u.recycle_prepare.params.max_refinement_loops = u.params.max_refinement_loops ∧
      u.recycle_prepare.params.recycled_subspace = u.params.recycled_subspace := by
  unfold FEAST.recycle_prepare
  dsimp only
  split <;> exact ⟨rfl, rfl, rfl, rfl, rfl⟩

theorem total_loops_append (xs : List FeastCall) (c : FeastCall) :
    ((xs ++ [c]).map (fun c => c.output.refinement_loops)).sum =
      (xs.map (fun c => c.output.refinement_loops)).sum + c.output.refinement_loops := by
  simp

theorem recycle_retry_facts (u : FEAST) (o : FeastOutput) (hr : u.has_routine) :
    (u.recycle_warn.recycle_prepare.call_feast o).has_routine ∧
      (u.recycle_warn.recycle_prepare.call_feast o).info =
        { recycle_warning := true,
          recycle_warning_loops := u.info.recycle_warning_loops + u.info.refinement_loops,
          size_warning := u.info.size_warning,
          refinement_loops := o.refinement_loops, return_code := o.return_code,
          suggested_size := o.suggested_size, final_size := o.final_size } ∧
      (u.recycle_warn.recycle_prepare.call_feast o).calls.length = u.calls.length + 1 ∧
      (u.recycle_warn.recycle_prepare.call_feast o).total_loops =
        u.total_loops + o.refinement_loops ∧
      (u.recycle_warn.recycle_prepare.call_feast o).params.max_refinement_loops =
        u.params.max_refinement_loops := by
  obtain ⟨k1, k2, k3, k4, -⟩ := recycle_prepare_keeps u.recycle_warn
  have hr1 : u.recycle_warn.recycle_prepare.has_routine := by
    unfold FEAST.has_routine
    rw [k1]
    exact hr
  obtain ⟨c, hc, ho, -, -⟩ := call_feast_calls u.recycle_warn.recycle_prepare o hr1
  refine ⟨has_routine_of_setup (call_feast_setup _ o) hr1, ?_, ?_, ?_, ?_⟩
  · rw [call_feast_info _ o hr1, k2]
    rfl
  · rw [hc, k3]
    simp [FEAST.recycle_warn]
  · unfold FEAST.total_loops
    rw [hc, total_loops_append, ho, k3]
    rfl
  · rw [call_feast_params]
    exact k4

theorem wrap_int_fits (x : Int) (h1 : -2147483648 ≤ x) (h2 : x ≤ 2147483647) :
    wrap_int x = x := by
  unfold wrap_int
  omega

theorem budget_exact (u : FEAST) (h : u.budget_fits) :
    wrap_int (2 * u.params.max_refinement_loops) = 2 * u.params.max_refinement_loops := by
  obtain ⟨h1, h2⟩ := h
  exact wrap_int_fits _ (by omega) (by omega)

theorem recycle_loop_raise (u : FEAST) (oracle : List FeastOutput)
    (hc : u.recycle_cond = true)
    (hw : wrap_int (2 * u.params.max_refinement_loops) <
      u.info.recycle_warning_loops + u.info.refinement_loops) :
    u.recycle_loop oracle = .raised .failed_to_converge u.recycle_warn oracle := by
  have hw' : u.recycle_warn.info.recycle_warning_loops >
      wrap_int (2 * u.params.max_refinement_loops) := hw
  cases oracle <;> simp [FEAST.recycle_loop, hc, hw']

theorem recycle_loop_retry (u : FEAST) (hc : u.recycle_cond = true)
    (hw : u.info.recycle_warning_loops + u.info.refinement_loops ≤
      wrap_int (2 * u.params.max_refinement_loops)) :
    u.recycle_loop [] = .pending u.recycle_warn.recycle_prepare ∧
      ∀ o rest, u.recycle_loop (o :: rest) =
        (u.recycle_warn.recycle_prepare.call_feast o).recycle_loop rest := by
  have hw' : ¬ u.recycle_warn.info.recycle_warning_loops >
      wrap_int (2 * u.params.max_refinement_loops) :=
    fun h => absurd hw (by
      have h2 : wrap_int (2 * u.params.max_refinement_loops) <
        u.info.recycle_warning_loops + u.info.refinement_loops := h
      omega)
  refine ⟨by simp [FEAST.recycle_loop, hc, hw'], fun o rest => ?_⟩
  rw [FEAST.recycle_loop, if_pos hc, if_neg hw']

theorem recycle_loop_cases (u : FEAST) :
    (u.recycle_cond = false ∧ ∀ oracle, u.recycle_loop oracle = .done u oracle) ∨
    (u.recycle_cond = true ∧
      wrap_int (2 * u.params.max_refinement_loops) <
        u.info.recycle_warning_loops + u.info.refinement_loops ∧
      ∀ oracle, u.recycle_loop oracle = .raised .failed_to_converge u.recycle_warn oracle) ∨
    (u.recycle_cond = true ∧
      u.info.recycle_warning_loops + u.info.refinement_loops ≤
        wrap_int (2 * u.params.max_refinement_loops) ∧
      u.recycle_loop [] = .pending u.recycle_warn.recycle_prepare ∧
      ∀ o rest, u.recycle_loop (o :: rest) =
        (u.recycle_warn.recycle_prepare.call_feast o).recycle_loop rest) := by
  cases hc : u.recycle_cond with
  | false => exact Or.inl ⟨rfl, fun oracle => recycle_loop_exit u oracle hc⟩
  | true =>
    right
    by_cases hw : wrap_int (2 * u.params.max_refinement_loops) <
        u.info.recycle_warning_loops + u.info.refinement_loops
    · exact Or.inl ⟨rfl, hw, fun oracle => recycle_loop_raise u oracle hc hw⟩
    · have hw' : u.info.recycle_warning_loops + u.info.refinement_loops ≤
          wrap_int (2 * u.params.max_refinement_loops) := by omega
      exact Or.inr ⟨rfl, hw', recycle_loop_retry u hc hw'⟩

theorem recycle_loop_account (oracle : List FeastOutput) :
    ∀ u : FEAST, u.has_routine →
      (∀ e t rest, u.recycle_loop oracle = .raised e t rest →
        t.info.recycle_warning_loops - t.total_loops =
          u.info.recycle_warning_loops + u.info.refinement_loops - u.total_loops ∧
        wrap_int (2 * u.params.max_refinement_loops) < t.info.recycle_warning_loops) ∧
      (∀ t rest, u.recycle_loop oracle = .done t rest →
        t.info.recycle_warning_loops + t.info.refinement_loops - t.total_loops =
          u.info.recycle_warning_loops + u.info.refinement_loops - u.total_loops ∧
        t.recycle_cond = false ∧ (t = u ∨ t.info.recycle_warning = true) ∧
        t.params.max_refinement_loops = u.params.max_refinement_loops) := by
  induction oracle with
  | nil =>
    intro u _
    rcases recycle_loop_cases u with ⟨hc, h⟩ | ⟨_, hw, h⟩ | ⟨_, _, h, _⟩
    · rw [h]
      refine ⟨fun e t rest he => by simp at he, fun t rest he => ?_⟩
      simp only [Run.done.injEq] at he
      rw [← he.1]
      exact ⟨rfl, hc, Or.inl rfl, rfl⟩
    · rw [h]
      refine ⟨fun e t rest he => ?_, fun t rest he => by simp at he⟩
      simp only [Run.raised.injEq] at he
      rw [← he.2.1]
      exact ⟨rfl, hw⟩
    · rw [h]
      exact ⟨fun e t rest he => by simp at he, fun t rest he => by simp at he⟩
  | cons o os ih =>
    intro u hr
    rcases recycle_loop_cases u with ⟨hc, h⟩ | ⟨_, hw, h⟩ | ⟨_, _, _, h⟩
    · rw [h]
      refine ⟨fun e t rest he => by simp at he, fun t rest he => ?_⟩
      simp only [Run.done.injEq] at he
      rw [← he.1]
      exact ⟨rfl, hc, Or.inl rfl, rfl⟩
    · rw [h]
      refine ⟨fun e t rest he => ?_, fun t rest he => by simp at he⟩
      simp only [Run.raised.injEq] at he
      rw [← he.2.1]
      exact ⟨rfl, hw⟩
    · rw [h]
      obtain ⟨f1, f2, -, f4, f5⟩ := recycle_retry_facts u o hr
      obtain ⟨i1, i2⟩ := ih _ f1
      rw [f2, f4, f5] at i1 i2
      simp only at i1 i2
      refine ⟨fun e t rest he => ?_, fun t rest he => ?_⟩
      · obtain ⟨a, b⟩ := i1 e t rest he
        exact ⟨by omega, b⟩
      · obtain ⟨a, b, c, d⟩ := i2 t rest he
        refine ⟨by omega, b, ?_, d⟩
        rcases c with c | c
        · right
          rw [c, f2]
        · exact Or.inr c

theorem recycle_loop_bound (oracle : List FeastOutput) :
    ∀ u : FEAST, u.has_routine → (∀ o ∈ oracle, 1 ≤ o.refinement_loops) →
      1 ≤ u.info.refinement_loops →
      (u.recycle_loop oracle).state.calls.length ≤
        u.calls.length +
          (wrap_int (2 * u.params.max_refinement_loops) - u.info.recycle_warning_loops).toNat := by
  induction oracle with
  | nil =>
    intro u _ _ _
    rcases recycle_loop_cases u with ⟨_, h⟩ | ⟨_, _, h⟩ | ⟨_, _, h, _⟩
    · rw [h]
      simp [Run.state]
    · rw [h]
      simp [Run.state, FEAST.recycle_warn]
    · rw [h]
      have hk : u.recycle_warn.recycle_prepare.calls = u.calls :=
        (recycle_prepare_keeps u.recycle_warn).2.2.1
      simp only [Run.state, hk]
      omega
  | cons o os ih =>
    intro u hr hall hu
    rcases recycle_loop_cases u with ⟨_, h⟩ | ⟨_, _, h⟩ | ⟨_, hw, _, h⟩
    · rw [h]
      simp [Run.state]
    · rw [h]
      simp [Run.state, FEAST.recycle_warn]
    · rw [h]
      obtain ⟨f1, f2, f3, -, f5⟩ := recycle_retry_facts u o hr
      have ho : 1 ≤ o.refinement_loops := hall o (List.mem_cons_self _ _)
      have := ih _ f1 (fun x hx => hall x (List.mem_cons_of_mem _ hx)) (by rw [f2]; exact ho)
      rw [f2, f3, f5] at this
      simp only at this
      omega

theorem check_without_retry (u : FEAST) (oracle : List FeastOutput)
    (h3 : u.info.return_code ≠ 3) :
    (u.check_return_code oracle = .done u.finish oracle ∨
      u.check_return_code oracle = .raised (.error_code u.info.return_code) u oracle) ∧
    (u.check_return_code oracle).state.calls = u.calls := by
  by_cases h0 : u.info.return_code = 0
  · rw [check_ok u oracle (Or.inl h0)]
    exact ⟨Or.inl rfl, (finish_keeps u).2.1⟩
  · by_cases h1 : u.info.return_code = 1
    · rw [check_ok u oracle (Or.inr h1)]
      exact ⟨Or.inl rfl, (finish_keeps u).2.1⟩
    · rw [check_error u oracle h0 h1 h3]
      exact ⟨Or.inr rfl, rfl⟩

theorem recycle_cond_false (u : FEAST) (h : u.recycle_cond = false) :
    u.info.return_code ≠ 3 := by
  unfold FEAST.recycle_cond at h
  simp only [Bool.or_eq_false_iff, decide_eq_false_iff_not] at h
  exact h.2

theorem v_solve_recycled (s : FEAST) (rows : Int) (o : FeastOutput) (rest : List FeastOutput)
    (hrec : s.params.recycled_subspace = true) :
    s.v_solve rows (o :: rest) =
      match ((s.prepare rows).call_feast o).recycle_loop rest with
      | .done s2 rest2 => s2.check_return_code rest2
      | r => r := by
  have hp : ((s.prepare rows).call_feast o).params.recycled_subspace = true := by
    rw [call_feast_params]; exact hrec
  unfold FEAST.v_solve
  dsimp only
  rw [if_pos hp]

theorem first_call_total (s : FEAST) (rows : Int) (o : FeastOutput) (hr : s.has_routine) :
    ((s.prepare rows).call_feast o).total_loops = s.total_loops + o.refinement_loops := by
  obtain ⟨c, hc, ho, -, -⟩ := call_feast_calls (s.prepare rows) o hr
  unfold FEAST.total_loops
  rw [hc, total_loops_append, ho]
  rfl

/-- C18, as stated, fails: for the recycling solver with at most 1500000000
refinement loops, twice the maximum is not an `int`. When the first call returns
code 3 after 4 refinement loops, `v_solve` throws the convergence error after
that one call, although the 4 loops of the soft-failed call are less than twice
the maximum. With at most 20 refinement loops the same results make `v_solve`
retry and return. -/
theorem C18_budget_beyond_int_raises_at_once :
    feast_big.has_routine ∧ feast_big.params.recycled_subspace = true ∧
      (feast_big.v_solve 10 [feast_out 4 3, feast_out 4 0]).error =
        some .failed_to_converge ∧
      (feast_big.v_solve 10 [feast_out 4 3, feast_out 4 0]).state.calls.length = 1 ∧
      (feast_big.v_solve 10 [feast_out 4 3, feast_out 4 0]).state.info.recycle_warning_loops
        = 4 ∧
      (feast_big.v_solve 10 [feast_out 4 3, feast_out 4 0]).state.info.recycle_warning_loops
        ≤ 2 * feast_big.params.max_refinement_loops ∧
      (feast_r.v_solve 10 [feast_out 4 3, feast_out 4 0]).is_done = true ∧
      (feast_r.v_solve 10 [feast_out 4 3, feast_out 4 0]).state.calls.length = 2 := by
  decide

/-- C18, amended: with recycling, and with twice the maximum of refinement loops
within the range of `int`, the recycling loop throws the convergence error at a
soft-failed call, and leaves the remaining results untouched, as soon as the
warning loops with the loops of that call exceed twice the maximum; while they
are at most twice the maximum it does not throw and calls the external routine
again. When `v_solve` throws that error the warning loops are the refinement
loops of all calls of this solve added up, and they exceed twice the maximum.
When every call reports at least one refinement loop, `v_solve` makes at most
one call followed by `2 * max_refinement_loops` retries. -/
theorem C18_convergence_budget (s : FEAST) (rows : Int) (hr : s.has_routine)
    (hrec : s.params.recycled_subspace = true) (hfit : s.budget_fits) :
    (∀ u : FEAST, u.recycle_cond = true → u.budget_fits →
      (2 * u.params.max_refinement_loops <
          u.info.recycle_warning_loops + u.info.refinement_loops →
        ∀ oracle, u.recycle_loop oracle = .raised .failed_to_converge u.recycle_warn oracle) ∧
      (u.info.recycle_warning_loops + u.info.refinement_loops ≤
          2 * u.params.max_refinement_loops →
        u.recycle_loop [] = .pending u.recycle_warn.recycle_prepare ∧
        ∀ o rest, u.recycle_loop (o :: rest) =
          (u.recycle_warn.recycle_prepare.call_feast o).recycle_loop rest)) ∧
    (∀ oracle t rest, s.v_solve rows oracle = .raised .failed_to_converge t rest →
      t.info.recycle_warning_loops = t.total_loops - s.total_loops ∧
      2 * s.params.max_refinement_loops < t.info.recycle_warning_loops) ∧
    (∀ oracle, (∀ o ∈ oracle, 1 ≤ o.refinement_loops) →
      (s.v_solve rows oracle).state.calls.length ≤
        s.calls.length + 1 + (2 * s.params.max_refinement_loops).toNat) := by
  have hwrap := budget_exact s hfit
  refine ⟨fun u hc hu => ⟨fun hw oracle => recycle_loop_raise u oracle hc
      (by rw [budget_exact u hu]; exact hw),
    fun hw => recycle_loop_retry u hc (by rw [budget_exact u hu]; exact hw)⟩,
    fun oracle t rest h => ?_, fun oracle hall => ?_⟩
  · cases oracle with
    | nil => simp [FEAST.v_solve] at h
    | cons o os =>
      have hi := first_call_info s rows o hr
      have ht := first_call_total s rows o hr
      have hm : ((s.prepare rows).call_feast o).params.max_refinement_loops =
          s.params.max_refinement_loops := by rw [call_feast_params]; rfl
      have hr1 : ((s.prepare rows).call_feast o).has_routine :=
        has_routine_of_setup (call_feast_setup _ o) hr
      obtain ⟨a1, a2⟩ := recycle_loop_account os _ hr1
      rw [v_solve_recycled s rows o os hrec] at h
      cases hl : FEAST.recycle_loop ((s.prepare rows).call_feast o) os with
      | done s2 r2 =>
        rw [hl] at h
        simp only at h
        rcases check_raised s2 r2 _ t rest h with ⟨h1, -⟩ | ⟨h1, -⟩ <;> simp at h1
      | raised e2 s2 r2 =>
        rw [hl] at h
        simp only [Run.raised.injEq] at h
        obtain ⟨-, h2, -⟩ := h
        subst h2
        obtain ⟨b1, b2⟩ := a1 e2 s2 r2 hl
        rw [hi, ht] at b1
        simp only at b1
        rw [hm, hwrap] at b2
        exact ⟨by omega, b2⟩
      | pending s2 => rw [hl] at h; simp at h
  · cases oracle with
    | nil =>
      simp only [FEAST.v_solve, Run.state, FEAST.prepare]
      omega
    | cons o os =>
      have hi := first_call_info s rows o hr
      have hlen := first_call_length s rows o hr
      have hm : ((s.prepare rows).call_feast o).params.max_refinement_loops =
          s.params.max_refinement_loops := by rw [call_feast_params]; rfl
      have hr1 : ((s.prepare rows).call_feast o).has_routine :=
        has_routine_of_setup (call_feast_setup _ o) hr
      have hb := recycle_loop_bound os _ hr1
        (fun x hx => hall x (List.mem_cons_of_mem _ hx))
        (by rw [hi]; exact hall o (List.mem_cons_self _ _))
      rw [hi, hlen, hm, hwrap] at hb
      simp only [Int.sub_zero] at hb
      have a2 := (recycle_loop_account os _ hr1).2
      rw [v_solve_recycled s rows o os hrec]
      cases hl : FEAST.recycle_loop ((s.prepare rows).call_feast o) os with
      | done s2 r2 =>
        rw [hl] at hb
        simp only [Run.state] at hb
        obtain ⟨-, c2, -, -⟩ := a2 s2 r2 hl
        simp only
        rw [(check_without_retry s2 r2 (recycle_cond_false s2 c2)).2]
        exact hb
      | raised e2 s2 r2 => rw [hl] at hb; exact hb
      | pending s2 => rw [hl] at hb; exact hb

/-- C19: with recycling, when `v_solve` returns, the refinement loops it reports
are the refinement loops of all calls of the external routine made during this
solve, each counted once; when the warning flag is not set there was a single
call, and its loops are reported. -/
theorem C19_reported_loops_are_the_total (s : FEAST) (rows : Int)
    (oracle : List FeastOutput) (t : FEAST) (rest : List FeastOutput)
    (hr : s.has_routine) (hrec : s.params.recycled_subspace = true)
    (h : s.v_solve rows oracle = .done t rest) :
    ∃ used, oracle = used ++ rest ∧
      t.calls.map (fun c => c.output) = s.calls.map (fun c => c.output) ++ used ∧
      t.info.refinement_loops = (used.map (fun o => o.refinement_loops)).sum ∧
      (t.info.recycle_warning = false → used.length = 1) := by
  cases oracle with
  | nil => simp [FEAST.v_solve] at h
  | cons o os =>
    have hsound := (v_solve_sound s rows o os hr).2.2.2.2.1
    rw [h] at hsound
    obtain ⟨used, hu1, hu2⟩ := hsound
    have hu1' : o :: os = used ++ rest := hu1
    have hu2' : t.calls.map (fun c => c.output) = s.calls.map (fun c => c.output) ++ used := hu2
    have htot : t.total_loops = s.total_loops + (used.map (fun o => o.refinement_loops)).sum := by
      have e1 : t.total_loops =
          ((t.calls.map (fun c => c.output)).map (fun o => o.refinement_loops)).sum := by
        rw [List.map_map]
        rfl
      have e2 : s.total_loops =
          ((s.calls.map (fun c => c.output)).map (fun o => o.refinement_loops)).sum := by
        rw [List.map_map]
        rfl
      rw [e1, e2, hu2']
      simp
    have hlen : t.calls.length = s.calls.length + used.length := by
      have := congrArg List.length hu2'
      simpa using this
    have hi := first_call_info s rows o hr
    have ht := first_call_total s rows o hr
    have hl1 := first_call_length s rows o hr
    have hr1 : ((s.prepare rows).call_feast o).has_routine :=
      has_routine_of_setup (call_feast_setup _ o) hr
    have a2 := (recycle_loop_account os _ hr1).2
    rw [v_solve_recycled s rows o os hrec] at h
    cases hl : FEAST.recycle_loop ((s.prepare rows).call_feast o) os with
    | raised e2 s2 r2 => rw [hl] at h; simp at h
    | pending s2 => rw [hl] at h; simp at h
    | done s2 r2 =>
      rw [hl] at h
      simp only at h
      obtain ⟨b1, b2, b3, -⟩ := a2 s2 r2 hl
      rw [hi, ht] at b1
      simp only at b1
      have hfin : t = s2.finish := by
        rcases (check_without_retry s2 r2 (recycle_cond_false s2 b2)).1 with hc | hc
        · rw [hc] at h
          simp only [Run.done.injEq] at h
          exact h.1.symm
        · rw [hc] at h
          simp at h
      have hcalls : t.calls = s2.calls := by rw [hfin]; exact (finish_keeps s2).2.1
      have htot2 : t.total_loops = s2.total_loops := by
        unfold FEAST.total_loops
        rw [hcalls]
      have hflag : t.info.recycle_warning = s2.info.recycle_warning := by
        rw [hfin]; exact (finish_keeps s2).2.2.2.2.1
      refine ⟨used, hu1', hu2', ?_, fun hw => ?_⟩
      · cases hwarn : s2.info.recycle_warning with
        | true =>
          have : t.info.refinement_loops =
              s2.info.refinement_loops + s2.info.recycle_warning_loops := by
            rw [hfin]
            simp [FEAST.finish, hwarn]
          omega
        | false =>
          have hs2 : s2 = (s.prepare rows).call_feast o := by
            rcases b3 with b3 | b3
            · exact b3
            · rw [hwarn] at b3
              simp at b3
          have hw0 : s2.info.recycle_warning_loops = 0 := by rw [hs2, hi]
          have : t.info.refinement_loops = s2.info.refinement_loops := by
            rw [hfin]
            simp [FEAST.finish, hwarn]
          omega
      · rw [hflag] at hw
        have hs2 : s2 = (s.prepare rows).call_feast o := by
          rcases b3 with b3 | b3
          · exact b3
          · rw [hw] at b3
            simp at b3
        rw [hcalls, hs2, hl1] at hlen
        omega

/-! ## A routine that returns code 3 at every call -/

theorem recycle_loop_code_three (o : FeastOutput) (ho : o.return_code = 3)
    (hl : o.refinement_loops = 0) (k : Nat) :
    ∀ u : FEAST, u.has_routine → u.info.return_code = 3 → u.info.refinement_loops = 0 →
      u.info.recycle_warning_loops = 0 →
      0 ≤ wrap_int (2 * u.params.max_refinement_loops) →
      ∃ t, u.recycle_loop (List.replicate k o) = .pending t ∧
        t.calls.length = u.calls.length + k := by
  induction k with
  | zero =>
    intro u _ h3 h0 hw hm
    have hc : u.recycle_cond = true := by simp [FEAST.recycle_cond, h3]
    refine ⟨u.recycle_warn.recycle_prepare, (recycle_loop_retry u hc (by omega)).1, ?_⟩
    rw [(recycle_prepare_keeps u.recycle_warn).2.2.1]
    rfl
  | succ k ih =>
    intro u hr h3 h0 hw hm
    have hc : u.recycle_cond = true := by simp [FEAST.recycle_cond, h3]
    obtain ⟨f1, f2, f3, -, f5⟩ := recycle_retry_facts u o hr
    obtain ⟨t, ht, hlen⟩ := ih (u.recycle_warn.recycle_prepare.call_feast o) f1
      (by rw [f2]; exact ho) (by rw [f2]; exact hl) (by rw [f2]; simp only; omega)
      (by rw [f5]; exact hm)
    refine ⟨t, ?_, by rw [hlen, f3]; omega⟩
    rw [List.replicate_succ, (recycle_loop_retry u hc (by omega)).2]
    exact ht

theorem v_solve_recycled_code_three (s : FEAST) (rows : Int) (o : FeastOutput)
    (hr : s.has_routine) (hrec : s.params.recycled_subspace = true)
    (hm : 0 ≤ wrap_int (2 * s.params.max_refinement_loops)) (ho : o.return_code = 3)
    (hl : o.refinement_loops = 0) (k : Nat) :
    ∃ t, s.v_solve rows (List.replicate k o) = .pending t ∧
      t.calls.length = s.calls.length + k := by
  cases k with
  | zero => exact ⟨s.prepare rows, rfl, rfl⟩
  | succ k =>
    have hi := first_call_info s rows o hr
    have hlen := first_call_length s rows o hr
    have hr1 : ((s.prepare rows).call_feast o).has_routine :=
      has_routine_of_setup (call_feast_setup _ o) hr
    have hmax : ((s.prepare rows).call_feast o).params.max_refinement_loops =
        s.params.max_refinement_loops := by rw [call_feast_params]; rfl
    obtain ⟨t, ht, hl2⟩ := recycle_loop_code_three o ho hl k _ hr1 (by rw [hi]; exact ho)
      (by rw [hi]; exact hl) (by rw [hi]) (by rw [hmax]; exact hm)
    refine ⟨t, ?_, by rw [hl2, hlen]; omega⟩
    rw [List.replicate_succ, v_solve_recycled s rows o _ hrec, ht]

/-- C15 fails on the code: for an external routine that returns code 3 at every
call, `v_solve` has neither returned nor thrown after `k` calls, whatever `k`
is: it asks for one more. This holds for the solver `feast_a`, which does not
recycle, and, when the routine reports no refinement loops, for the recycling
solver `feast_r`. -/
theorem C15_code_three_at_every_call_never_ends :
    (∀ k : Nat, ∃ t, feast_a.v_solve 10 (List.replicate k (feast_out 0 3)) = .pending t ∧
      t.calls.length = k) ∧
    (∀ k : Nat, ∃ t, feast_r.v_solve 10 (List.replicate k (feast_out 0 3)) = .pending t ∧
      t.calls.length = k) := by
  constructor
  · intro k
    obtain ⟨t, ht, hl⟩ := v_solve_code_three feast_a 10 (feast_out 0 3) (by decide) rfl rfl k
    exact ⟨t, ht, by rw [hl]; simp [feast_a]⟩
  · intro k
    obtain ⟨t, ht, hl⟩ := v_solve_recycled_code_three feast_r 10 (feast_out 0 3) (by decide)
      rfl (by decide) rfl rfl k
    exact ⟨t, ht, by rw [hl]; simp [feast_r, feast_a]⟩

/-! ## The theorems with hypotheses, at concrete solvers -/

theorem C16_recovery_outcomes_witness :
    feast_a.has_routine ∧
      (∃ t, feast_a.v_solve 100 [feast_out 0 3, feast_out 1 0] = .done t [] ∧
        t.info.size_warning = true ∧ t.calls.length = feast_a.calls.length + 2) ∧
      (∃ t, feast_a.v_solve 100 [feast_out 0 3, feast_out 1 2] =
          .raised .failed_to_recover t [] ∧ t.calls.length = feast_a.calls.length + 2) :=
  ⟨by decide,
    (C16_recovery_outcomes feast_a 100 (feast_out 0 3) (feast_out 1 0) (by decide) rfl
      rfl).2.1 rfl [],
    (C16_recovery_outcomes feast_a 100 (feast_out 0 3) (feast_out 1 2) (by decide) rfl
      rfl).1 (by decide) (by decide) []⟩

theorem C18_convergence_budget_witness :
    feast_r.has_routine ∧ feast_r.budget_fits ∧
      (feast_r.v_solve 10 [feast_out 20 0, feast_out 20 0, feast_out 20 0]).error =
        some .failed_to_converge ∧
      (feast_r.v_solve 10 [feast_out 20 0, feast_out 20 0, feast_out 20 0]).state.calls.length ≤
        feast_r.calls.length + 1 + (2 * feast_r.params.max_refinement_loops).toNat :=
  ⟨by decide, by decide, by decide,
    (C18_convergence_budget feast_r 10 (by decide) rfl (by decide)).2.2
      [feast_out 20 0, feast_out 20 0, feast_out 20 0] (by decide)⟩

theorem C19_reported_loops_are_the_total_witness :
    feast_r.has_routine ∧
      (feast_r.v_solve 10 [feast_out 20 0, feast_out 3 0]).state.info.refinement_loops = 23 ∧
      ∃ used, [feast_out 20 0, feast_out 3 0] = used ++ [] ∧
        (feast_r.v_solve 10 [feast_out 20 0, feast_out 3 0]).state.calls.map
            (fun c => c.output) = feast_r.calls.map (fun c => c.output) ++ used ∧
        (feast_r.v_solve 10 [feast_out 20 0, feast_out 3 0]).state.info.refinement_loops =
          (used.map (fun o => o.refinement_loops)).sum ∧
        ((feast_r.v_solve 10 [feast_out 20 0, feast_out 3 0]).state.info.recycle_warning = false →
          used.length = 1) :=
  ⟨by decide, by decide,
    C19_reported_loops_are_the_total feast_r 10 [feast_out 20 0, feast_out 3 0]
      (feast_r.v_solve 10 [feast_out 20 0, feast_out 3 0]).state [] (by decide) rfl rfl⟩

/-! ## The maximum residual -/

theorem v_solve_nothing_found (s : FEAST) (rows : Int) (o : FeastOutput)
    (rest : List FeastOutput) (hr : s.has_routine)
    (hl : s.params.recycled_subspace = true →
      o.refinement_loops < s.params.max_refinement_loops)
    (h1 : o.return_code = 1) (h0 : o.final_size = 0) :
    ∃ t, s.v_solve rows (o :: rest) = .done t rest ∧ t.info.return_code = 1 ∧
      t.info.final_size = 0 ∧ ¬ t.max_residual_defined := by
  have hi := first_call_info s rows o hr
  have hp : ((s.prepare rows).call_feast o).params.recycled_subspace =
      s.params.recycled_subspace := by rw [call_feast_params]; rfl
  have hm : ((s.prepare rows).call_feast o).params.max_refinement_loops =
      s.params.max_refinement_loops := by rw [call_feast_params]; rfl
  have hcode : ((s.prepare rows).call_feast o).info.return_code = 0 ∨
      ((s.prepare rows).call_feast o).info.return_code = 1 := by rw [hi]; exact Or.inr h1
  have hk := finish_keeps ((s.prepare rows).call_feast o)
  refine ⟨((s.prepare rows).call_feast o).finish, ?_, ?_, ?_, ?_⟩
  · unfold FEAST.v_solve
    dsimp only
    split
    · rename_i hrec
      rw [hp] at hrec
      have hcond : ((s.prepare rows).call_feast o).recycle_cond = false := by
        have := hl hrec
        unfold FEAST.recycle_cond
        rw [hi, hm]
        simp only [Bool.or_eq_false_iff, decide_eq_false_iff_not]
        exact ⟨by omega, by omega⟩
      rw [recycle_loop_exit _ rest hcond]
      exact check_ok _ rest hcode
    · exact check_ok _ rest hcode
  · rw [hk.2.2.1, hi]
    exact h1
  · rw [hk.2.2.2.2.2.1, hi]
    exact h0
  · intro hd
    have h := hd.1
    rw [hk.2.2.2.2.2.1, hi] at h
    simp only at h
    omega

/-- C21 fails on the code: when the external routine returns code 1 and finds no
eigenvalue, `v_solve` returns normally, with `final_size = 0` and a buffer of 5
residuals, so the maximum residual is taken over an empty prefix and is not
defined; this is so with and without recycling. When four eigenvalues are
found, the prefix is not empty and lies within the buffer. -/
theorem C21_no_eigenvalue_leaves_maximum_over_nothing :
    (feast_a.v_solve 10 [feast_out_none]).is_done = true ∧
      (feast_a.v_solve 10 [feast_out_none]).state.info.return_code = 1 ∧
      (feast_a.v_solve 10 [feast_out_none]).state.info.final_size = 0 ∧
      (feast_a.v_solve 10 [feast_out_none]).state.residual = 5 ∧
      ¬ (feast_a.v_solve 10 [feast_out_none]).state.max_residual_defined ∧
      (feast_r.v_solve 10 [feast_out_none]).is_done = true ∧
      ¬ (feast_r.v_solve 10 [feast_out_none]).state.max_residual_defined ∧
      (feast_a.v_solve 10 [feast_out 3 0]).is_done = true ∧
      (feast_a.v_solve 10 [feast_out 3 0]).state.max_residual_defined := by
  decide

end tbm
